import Mathlib

/-!
# Ascent simulation engine: integrator stepping, clock and module scheduling

A shallow embedding of `src/src/integrators/RK4.cpp`, `src/src/core/Simulator.cpp`
and `src/src/Module.cpp`.

Conventions of the embedding:

* C++ `double` values are rationals (`ℚ`): all arithmetic is exact.  `floor`
  is `Int.floor`.
* The shared `Stepper` record (references to the Simulator's `EPS`, `dtp`,
  `dt`, `t`, `t1`, `kpass`, `integrator_initialized`) is a structure passed
  explicitly; every function that mutates it returns the new record.
* `kpass` is a natural number; it only ever holds a value below the pass
  count, so the width of the machine integer plays no role.
* User hooks (`init()`, `update()`, ...) are virtual functions of the module
  author.  For scheduling they are represented by the `call{P}()` calls they
  make (`Hooks`), for integration by the derivatives they write, for the clock
  by the `sample`/`event` calls they make (`ClockCall`).
* A function that may recurse without bound takes a `fuel` argument bounding
  the nesting depth and returns `none` when it is exhausted.
-/

namespace Ascent

/-! ## Stepper and the RK4 integrator -/

/-- The shared step context (`Stepper`): the fields the Simulator hands to
every integrator instance by reference. -/
structure Stepper where
  EPS : ℚ
  dtp : ℚ
  dt : ℚ
  t : ℚ
  t1 : ℚ
  kpass : Nat
  integrator_initialized : Bool
deriving DecidableEq, Repr

/-- One integrated scalar with its RK4 storage: `x`, `xd` (the module's value
and derivative, held by reference in the source), the start-of-step snapshot
`x0` and the four derivative samples of `RK4.h`. -/
structure RK4 where
  x : ℚ
  xd : ℚ
  x0 : ℚ
  xd0 : ℚ
  xd1 : ℚ
  xd2 : ℚ
  xd3 : ℚ
deriving DecidableEq, Repr

/-- `RK4::propagate()` (RK4.cpp 19-41): the `switch (kpass)` with its four
cases; any other pass index falls through the switch unchanged. -/
def RK4.propagate (st : Stepper) (s : RK4) : RK4 :=
  match st.kpass with
  | 0 =>
    let s := { s with x0 := s.x }
    let s := { s with xd0 := s.xd }
    { s with x := s.x0 + 1 / 2 * st.dt * s.xd0 }
  | 1 =>
    let s := { s with xd1 := s.xd }
    { s with x := s.x0 + 1 / 2 * st.dt * s.xd1 }
  | 2 =>
    let s := { s with xd2 := s.xd }
    { s with x := s.x0 + st.dt * s.xd2 }
  | 3 =>
    let s := { s with xd3 := s.xd }
    { s with x := s.x0 + st.dt / 6 * (s.xd0 + 2 * s.xd1 + 2 * s.xd2 + s.xd3) }
  | _ => s

/-- `RK4::updateClock()` (RK4.cpp 43-55). -/
def RK4.updateClock (st : Stepper) : Stepper :=
  let st :=
    if st.kpass = 0 then { st with t := st.t + 1 / 2 * st.dt }
    else if st.kpass = 2 then { st with t := st.t1 }
    else st
  let st := { st with kpass := st.kpass + 1 }
  let st := { st with kpass := st.kpass % 4 }
  if st.kpass = 0 then
    { st with t1 := (Int.floor ((st.t + st.EPS) / st.dtp + 1) : ℚ) * st.dtp }
  else st

/-- A derivative sample `d` is supplied to the state (the module writes `xd`)
and `RK4::propagate()` runs at the stepper's current pass. -/
def RK4.supply (st : Stepper) (d : ℚ) (s : RK4) : RK4 :=
  RK4.propagate st { s with xd := d }

/-- Four consecutive `RK4::propagate()` calls of one step: before each the
module supplies the derivative sample of that pass, after each the clock moves
to the next pass (`RK4::updateClock()`).  Returns the state after each pass. -/
def RK4.fourPasses (st : Stepper) (d0 d1 d2 d3 : ℚ) (s : RK4) : RK4 × RK4 × RK4 × RK4 :=
  let s1 := RK4.supply st d0 s
  let st1 := RK4.updateClock st
  let s2 := RK4.supply st1 d1 s1
  let st2 := RK4.updateClock st1
  let s3 := RK4.supply st2 d2 s2
  let st3 := RK4.updateClock st2
  let s4 := RK4.supply st3 d3 s3
  (s1, s2, s3, s4)

/-! ## Modules -/

/-- `Simulator::Phase`. -/
inductive Phase where
  | setup | init | update | postcalc | check | report | reset | tracker
deriving DecidableEq, Repr

/-- The part of a `Module` object the engine reads and writes: the freeze
switches, the owned integrator states, the `run_first` weak references (kept as
the `module_id`s they point to) and the `{phase}_called` / `{phase}_run` pair
of each of the six lifecycle phases. -/
structure Module where
  frozen : Bool
  freeze_integration : Bool
  states : List RK4
  run_first : List Nat
  init_called : Bool
  init_run : Bool
  update_called : Bool
  update_run : Bool
  postcalc_called : Bool
  postcalc_run : Bool
  check_called : Bool
  check_run : Bool
  report_called : Bool
  report_run : Bool
  reset_called : Bool
  reset_run : Bool
deriving DecidableEq, Repr

/-- The `{phase}_called` member of phase `p`. -/
def Module.called (m : Module) : Phase → Bool
  | .init => m.init_called
  | .update => m.update_called
  | .postcalc => m.postcalc_called
  | .check => m.check_called
  | .report => m.report_called
  | .reset => m.reset_called
  | _ => false

/-- The `{phase}_run` member of phase `p`. -/
def Module.run (m : Module) : Phase → Bool
  | .init => m.init_run
  | .update => m.update_run
  | .postcalc => m.postcalc_run
  | .check => m.check_run
  | .report => m.report_run
  | .reset => m.reset_run
  | _ => false

/-- The assignment `{phase}_called = b`. -/
def Module.setCalled (p : Phase) (b : Bool) (m : Module) : Module :=
  match p with
  | .init => { m with init_called := b }
  | .update => { m with update_called := b }
  | .postcalc => { m with postcalc_called := b }
  | .check => { m with check_called := b }
  | .report => { m with report_called := b }
  | .reset => { m with reset_called := b }
  | _ => m

/-- The assignment `{phase}_run = b`. -/
def Module.setRun (p : Phase) (b : Bool) (m : Module) : Module :=
  match p with
  | .init => { m with init_run := b }
  | .update => { m with update_run := b }
  | .postcalc => { m with postcalc_run := b }
  | .check => { m with check_run := b }
  | .report => { m with report_run := b }
  | .reset => { m with reset_run := b }
  | _ => m

/-- `Module::propagateStates()` (Module.cpp 148-152): every owned state runs
its integrator's `propagate()` against the shared stepper. -/
def Module.propagateStates (st : Stepper) (m : Module) : Module :=
  { m with states := m.states.map (RK4.propagate st) }

/-! ## DynamicMap -/

/-- Modelled from the spec: `DynamicMap` (ascent/core/DynamicMap.h is not part
of the sources).  An ordered mapping keyed by `module_id` with staged removal:
`keys` are the current entries in iteration order, `staged` the removals
requested and not yet applied, `direct_erase` the mode flag under which
removals apply immediately.  The mapped `Module*` is looked up in the
accessor registry. -/
structure DynamicMap where
  keys : List Nat
  staged : List Nat
  direct_erase : Bool
deriving DecidableEq, Repr

/-- Modelled from the spec: `DynamicMap::erase(key)`: the removal is staged,
or applied at once when `direct_erase` is on. -/
def DynamicMap.erase_key (k : Nat) (d : DynamicMap) : DynamicMap :=
  if d.direct_erase then { d with keys := d.keys.filter (fun x => x != k) }
  else { d with staged := d.staged ++ [k] }

/-- Modelled from the spec: `DynamicMap::erase()` without argument flushes all
staged removals. -/
def DynamicMap.erase (d : DynamicMap) : DynamicMap :=
  { d with keys := d.keys.filter (fun x => !(d.staged.contains x)), staged := [] }

/-- Modelled from the spec: `DynamicMap::size()`, the number of entries. -/
def DynamicMap.size (d : DynamicMap) : Nat := d.keys.length

/-! ## Simulator -/

/-- Modelled from the spec: a stop-condition observer (the class behind
`Simulator::stoppers` is not part of the sources).  `tag` tells the observers
apart; `stoppers` is the size of the observer's own `stoppers` list, the only
member `Simulator::runStoppers` reads. -/
structure Stopper where
  tag : Nat
  stoppers : Nat
deriving DecidableEq, Repr

/-- The `Simulator` object.  `stepper` holds `t`, `t1`, `dt`, `dtp`, `kpass`,
`EPS`, `integrator_initialized`; `accessor` is the registry of live module
objects by `module_id` (a `module_id` without an object is a destroyed module,
i.e. an expired weak reference); the nine `DynamicMap`s hold the registered
ids; `to_delete` holds the ids of the modules whose owning handles wait for
deferred destruction and `tracking` the ids of the modules with a tracking
file.  `hooklog` and `tracker_runs` are ghost fields: the user hooks invoked so
far, in order, and the number of `Simulator::tracker()` invocations so far. -/
structure Simulator where
  stepper : Stepper
  tend : ℚ
  phase : Phase
  accessor : Nat → Option Module
  modules : DynamicMap
  inits : DynamicMap
  updates : DynamicMap
  postcalcs : DynamicMap
  checks : DynamicMap
  reports : DynamicMap
  resets : DynamicMap
  propagate : DynamicMap
  trackers : DynamicMap
  t_hist : List ℚ
  error : Bool
  error_descriptions : List String
  tickfirst : Bool
  ticklast : Bool
  tick0 : Bool
  stop_simulation : Bool
  time_advanced : Bool
  track_time : Bool
  change_dt : Bool
  dt_change : ℚ
  stoppers : List Stopper
  to_delete : List Nat
  tracking : List Nat
  hooklog : List (Phase × Nat)
  tracker_runs : Nat

/-- A write through a `Module*`: the object registered under `i` becomes `f`
of itself. -/
def Simulator.modify (i : Nat) (f : Module → Module) (s : Simulator) : Simulator :=
  { s with accessor := fun k => if k = i then (s.accessor k).map f else s.accessor k }

/-- `Simulator::setError` (Simulator.cpp 413-420); printing is not modelled. -/
def Simulator.setError (description : String) (s : Simulator) : Simulator :=
  { s with error := true, error_descriptions := s.error_descriptions ++ [description] }

/-- `Simulator::directErase(bool)` (Simulator.cpp 129-141). -/
def Simulator.directErase (b : Bool) (s : Simulator) : Simulator :=
  { s with
    modules := { s.modules with direct_erase := b }
    inits := { s.inits with direct_erase := b }
    updates := { s.updates with direct_erase := b }
    postcalcs := { s.postcalcs with direct_erase := b }
    checks := { s.checks with direct_erase := b }
    reports := { s.reports with direct_erase := b }
    resets := { s.resets with direct_erase := b }
    propagate := { s.propagate with direct_erase := b } }

/-- `Simulator::setup(dt)` (Simulator.cpp 143-157). -/
def Simulator.setup (dt : ℚ) (s : Simulator) : Simulator :=
  let s := { s with phase := Phase.setup }
  let s := if s.trackers.size > 0 then { s with track_time := true } else s
  let s := { s with stepper := { s.stepper with dtp := dt, dt := dt } }
  let s := { s with stepper := { s.stepper with t1 := s.stepper.t + dt } }
  let s := { s with stepper := { s.stepper with kpass := 0 } }
  let s := { s with ticklast := false }
  let s := { s with tickfirst := true }
  let s := s.directErase false
  { s with stop_simulation := false }

/-- `Simulator::sample()` (Simulator.cpp 359-364). -/
def Simulator.sample (s : Simulator) : Bool :=
  if s.stepper.kpass = 0 then true else false

/-- `Simulator::event(double t_event)` (Simulator.cpp 386-399): the new state
and the returned flag. -/
def Simulator.event (t_event : ℚ) (s : Simulator) : Simulator × Bool :=
  if !s.sample then (s, false)
  else
    let s := if t_event < s.stepper.t1 - s.stepper.EPS ∧ t_event ≥ s.stepper.t + s.stepper.EPS
      then { s with stepper := { s.stepper with t1 := t_event } } else s
    let s := { s with stepper := { s.stepper with dt := s.stepper.t1 - s.stepper.t } }
    if |t_event - s.stepper.t| < s.stepper.EPS then (s, true) else (s, false)

/-- `Simulator::changeTimeStep()` (Simulator.cpp 331-339). -/
def Simulator.changeTimeStep (s : Simulator) : Simulator :=
  if s.change_dt then
    let s := { s with stepper := { s.stepper with dtp := s.dt_change, dt := s.dt_change } }
    let s := { s with stepper := { s.stepper with t1 := s.stepper.t + s.stepper.dt } }
    { s with change_dt := false }
  else s

/-- `Simulator::updateClock()` (Simulator.cpp 282-292) with the RK4 integrator
the constructor installs. -/
def Simulator.updateClock (s : Simulator) : Simulator :=
  let t_prev := s.stepper.t
  let s := { s with stepper := RK4.updateClock s.stepper }
  if s.stepper.t ≥ t_prev + s.stepper.EPS then { s with time_advanced := true }
  else { s with time_advanced := false }

/-- `Simulator::propagateStates()` (Simulator.cpp 272-280): every module of
the `propagate` map that is neither frozen nor integration-frozen propagates
its states at the current pass. -/
def Simulator.propagateStates (s : Simulator) : Simulator :=
  s.propagate.keys.foldl
    (fun s k =>
      match s.accessor k with
      | some module =>
        if !module.frozen && !module.freeze_integration then
          s.modify k (Module.propagateStates s.stepper)
        else s
      | none => s)
    s

/-! ## Driving states through the passes of a step -/

/-- The statements of one iteration of the `while` loop of `Simulator::run`
that act on integrated states, for a simulation whose module `k` carries them:
`update()` (the user hook `update` of module `k` rewrites its derivatives,
unless the module is frozen), `propagateStates()`, `updateClock()`. -/
def Simulator.pass (update : Module → Module) (k : Nat) (s : Simulator) : Simulator :=
  ((s.modify k (fun m => if m.frozen then m else update m)).propagateStates).updateClock

/-- One integrator step: the four passes of RK4. -/
def Simulator.step (update : Module → Module) (k : Nat) (s : Simulator) : Simulator :=
  (Simulator.pass update k)^[4] s

/-- The `update()` hook of a free-fall module with states `[y, v]`:
`ẏ = v`, `v̇ = a`. -/
def freeFallUpdate (a : ℚ) (m : Module) : Module :=
  match m.states with
  | [y, v] => { m with states := [{ y with xd := v.x }, { v with xd := a }] }
  | _ => m

/-- The `update()` hook of an exponential-decay module with state `[x]`:
`ẋ = −x`. -/
def decayUpdate (m : Module) : Module :=
  match m.states with
  | [x] => { m with states := [{ x with xd := -x.x }] }
  | _ => m

/-- A module object as its constructor leaves it: not frozen, every phase flag
clear. -/
def Module.fresh (states : List RK4) (run_first : List Nat) : Module :=
  { frozen := false, freeze_integration := false, states := states, run_first := run_first,
    init_called := false, init_run := false, update_called := false, update_run := false,
    postcalc_called := false, postcalc_run := false, check_called := false,
    check_run := false, report_called := false, report_run := false,
    reset_called := false, reset_run := false }

/-- A simulator around the stepper `st` whose modules are `objs`, with
`module_id` the position in the list: as `Module::Module` does, every module is
registered in `modules` and the six phase maps, and (`addIntegrator`) in
`propagate` when it owns states. -/
def Simulator.ofModules (st : Stepper) (objs : List Module) : Simulator :=
  let all : DynamicMap := { keys := List.range objs.length, staged := [], direct_erase := false }
  { stepper := st, tend := 0, phase := Phase.setup,
    accessor := fun k => objs.get? k,
    modules := all, inits := all, updates := all, postcalcs := all, checks := all,
    reports := all, resets := all,
    propagate :=
      { keys := (List.range objs.length).filter
          (fun k => match objs.get? k with
            | some m => !m.states.isEmpty
            | none => false),
        staged := [], direct_erase := false },
    trackers := { keys := [], staged := [], direct_erase := false },
    t_hist := [], error := false, error_descriptions := [],
    tickfirst := false, ticklast := false, tick0 := true, stop_simulation := false,
    time_advanced := false, track_time := false, change_dt := false, dt_change := 0,
    stoppers := [], to_delete := [], tracking := [], hooklog := [], tracker_runs := 0 }

/-- The exponential-decay scenario: one module with the state `x = 1`, step
`dt = 0.1`, at a sample boundary. -/
def decaySim : Simulator :=
  Simulator.ofModules ⟨1 / 100000000, 1 / 10, 1 / 10, 0, 1 / 10, 0, false⟩
    [Module.fresh [⟨1, 0, 0, 0, 0, 0, 0⟩] []]

/-- The free-fall scenario: one module with the states `y = 0`, `v = 0`, step
`dt = 0.01`, at a sample boundary. -/
def freeFallSim : Simulator :=
  Simulator.ofModules ⟨1 / 100000000, 1 / 100, 1 / 100, 0, 1 / 100, 0, false⟩
    [Module.fresh [⟨0, 0, 0, 0, 0, 0, 0⟩, ⟨0, 0, 0, 0, 0, 0, 0⟩] []]

/-! ## Module phase calls -/

/-- What a user hook does as far as scheduling is concerned: `calls p i` are
the modules whose `call{P}()` the hook `p()` of module `i` calls, in order
(its own id for a re-entrant call). -/
structure Hooks where
  calls : Phase → Nat → List Nat

/-- The phases whose `call{P}()` walks `run_first`: update and postcalc. -/
def Phase.usesRunFirst : Phase → Bool
  | .update => true
  | .postcalc => true
  | _ => false

/-- The description passed to `error(...)` on re-entry (Module.cpp 160, 203,
246, 268, 288, 308). -/
def circularMessage : Phase → String
  | .init => "Module: Circular dependency for init()."
  | .update => "Circular dependency for update()."
  | .postcalc => "Circular dependency for postcalc()."
  | .check => "Circular dependency for check()."
  | .report => "Circular dependency for report()."
  | .reset => "Circular dependency for reset()."
  | _ => ""

/-- A sequence of `call{P}()` calls made one after the other. -/
def callSeq (call : Simulator → Nat → Option Simulator) :
    List Nat → Simulator → Option Simulator
  | [], s => some s
  | j :: js, s =>
    match call s j with
    | none => none
    | some s' => callSeq call js s'

/-- The `for (auto& p : run_first)` loop of `callUpdate` / `callPostCalc`
(Module.cpp 181-197, 225-240) of module `i`, over the references `js` still to
visit; `now` is `update_now`.  A live reference whose `_called` is set defers
this module; one that has not run is called and, if it still has not run,
defers this module; an expired reference is erased from `run_first`.  `call`
is the recursive `call{P}()`; `none` means that it did not return. -/
def runFirstLoop (call : Simulator → Nat → Option Simulator) (p : Phase) (i : Nat) :
    List Nat → Simulator → Bool → Option (Simulator × Bool)
  | [], s, now => some (s, now)
  | j :: js, s, now =>
    match s.accessor j with
    | some ptr =>
      if ptr.called p then runFirstLoop call p i js s false
      else if !ptr.run p then
        match call s j with
        | none => none
        | some s' =>
          match s'.accessor j with
          | some ptr' =>
            if !ptr'.run p then runFirstLoop call p i js s' false
            else runFirstLoop call p i js s' now
          | none => runFirstLoop call p i js s' now
      else runFirstLoop call p i js s now
    | none =>
      runFirstLoop call p i js
        (s.modify i (fun m => { m with run_first := m.run_first.erase j })) now

/-- The ghost record that the user hook `p()` of module `i` is entered. -/
def Simulator.logHook (p : Phase) (i : Nat) (s : Simulator) : Simulator :=
  { s with hooklog := s.hooklog ++ [(p, i)] }

/-- The user hook `p()` of module `i`: it is recorded in `hooklog`, then makes
its `call{P}()` calls. -/
def runHook (h : Hooks) (p : Phase) (call : Simulator → Nat → Option Simulator)
    (s : Simulator) (i : Nat) : Option Simulator :=
  callSeq call (h.calls p i) (s.logHook p i)

/-- The end of the normal path of `call{P}()` for module `i`: `_run = true`,
`_called = false`, and for init the module is erased from `inits`. -/
def finishCall (p : Phase) (i : Nat) (s : Simulator) : Simulator :=
  let s := (s.modify i (Module.setRun p true)).modify i (Module.setCalled p false)
  if p = Phase.init then { s with inits := s.inits.erase_key i } else s

/-- The part of `Module::call{P}()` after the `run_first` loop
(`if (update_now) { ... }`, Module.cpp 199-215; for the phases without loop
the whole body after the `_run` test): on re-entry (`_called` set) report the
circular dependency and force `_run = true`, `_called = false`; otherwise set
`_called`, run the hook unless frozen, and finish.  `error(...)` reaches
`Simulator::setError` as `ModuleCore::error` does (Module.cpp 32-35). -/
def callTail (h : Hooks) (p : Phase) (call : Simulator → Nat → Option Simulator)
    (s : Simulator) (i : Nat) (now : Bool) : Option Simulator :=
  if now then
    match s.accessor i with
    | none => some s
    | some m =>
      if m.called p then
        some (((s.setError (circularMessage p)).modify i
          (Module.setRun p true)).modify i (Module.setCalled p false))
      else
        let s := s.modify i (Module.setCalled p true)
        match (if !m.frozen then runHook h p call s i else some s) with
        | none => none
        | some s => some (finishCall p i s)
  else some s

/-- The body of `Module::call{P}()` for module `i` (Module.cpp 154-320), the
six functions differing only in the phase `p`: return at once when `_run` is
set; for update and postcalc walk `run_first`, which may defer the module;
then the part after the loop.  `call` is `call{P}()` itself for the nested
calls. -/
def callBody (h : Hooks) (p : Phase) (call : Simulator → Nat → Option Simulator)
    (s : Simulator) (i : Nat) : Option Simulator :=
  match s.accessor i with
  | none => some s
  | some m =>
    if m.run p then some s
    else
      match (if p.usesRunFirst then runFirstLoop call p i m.run_first s true
        else some (s, true)) with
      | none => none
      | some (s, now) => callTail h p call s i now

/-- `Module::call{P}()` with a bound `fuel` on the depth of nested calls;
`none` when the bound is exhausted. -/
def callPhase (h : Hooks) (p : Phase) : Nat → Simulator → Nat → Option Simulator
  | 0 => fun _ _ => none
  | fuel + 1 => callBody h p (callPhase h p fuel)

/-- `Module::callInit()` (Module.cpp 154-173). -/
def Module.callInit (h : Hooks) := callPhase h Phase.init

/-- `Module::callUpdate()` (Module.cpp 175-217). -/
def Module.callUpdate (h : Hooks) := callPhase h Phase.update

/-- `Module::callPostCalc()` (Module.cpp 219-260). -/
def Module.callPostCalc (h : Hooks) := callPhase h Phase.postcalc

/-- `Module::callCheck()` (Module.cpp 262-280). -/
def Module.callCheck (h : Hooks) := callPhase h Phase.check

/-- `Module::callReport()` (Module.cpp 282-300). -/
def Module.callReport (h : Hooks) := callPhase h Phase.report

/-- `Module::callReset()` (Module.cpp 302-320). -/
def Module.callReset (h : Hooks) := callPhase h Phase.reset

/-! ## Simulator phases -/

/-- The `DynamicMap` a phase iterates. -/
def Simulator.phaseMap (s : Simulator) : Phase → DynamicMap
  | .init => s.inits
  | .update => s.updates
  | .postcalc => s.postcalcs
  | .check => s.checks
  | .report => s.reports
  | .reset => s.resets
  | _ => s.modules

/-- Assignment to the `DynamicMap` of a phase. -/
def Simulator.setPhaseMap (p : Phase) (d : DynamicMap) (s : Simulator) : Simulator :=
  match p with
  | .init => { s with inits := d }
  | .update => { s with updates := d }
  | .postcalc => { s with postcalcs := d }
  | .check => { s with checks := d }
  | .report => { s with reports := d }
  | .reset => { s with resets := d }
  | _ => s

/-- The module loop of a Simulator phase: `for (auto& p : map)` with
`p.second->call{P}(); if (error) break;`. -/
def phaseLoop (call : Simulator → Nat → Option Simulator) :
    List Nat → Simulator → Option Simulator
  | [], s => some s
  | k :: ks, s =>
    match call s k with
    | none => none
    | some s' => if s'.error then some s' else phaseLoop call ks s'

/-- A Simulator phase function (Simulator.cpp 159-262): set `phase`, run the
module loop over the phase's map, flush the map's staged removals with
`erase()`, and (all phases but init) assign `{phase}_run = false` to every
module left in the map. -/
def Simulator.runPhase (h : Hooks) (p : Phase) (fuel : Nat) (s : Simulator) :
    Option Simulator :=
  let s := { s with phase := p }
  match phaseLoop (callPhase h p fuel) (s.phaseMap p).keys s with
  | none => none
  | some s =>
    let s := s.setPhaseMap p (s.phaseMap p).erase
    if p = Phase.init then some s
    else some ((s.phaseMap p).keys.foldl (fun s k => s.modify k (Module.setRun p false)) s)

/-- `Simulator::init()` (Simulator.cpp 159-172). -/
def Simulator.init (h : Hooks) := Simulator.runPhase h Phase.init

/-- `Simulator::update()` (Simulator.cpp 174-190). -/
def Simulator.update (h : Hooks) := Simulator.runPhase h Phase.update

/-- `Simulator::postcalc()` (Simulator.cpp 192-208). -/
def Simulator.postcalc (h : Hooks) := Simulator.runPhase h Phase.postcalc

/-- `Simulator::check()` (Simulator.cpp 210-226). -/
def Simulator.check (h : Hooks) := Simulator.runPhase h Phase.check

/-- `Simulator::report()` (Simulator.cpp 228-244). -/
def Simulator.report (h : Hooks) := Simulator.runPhase h Phase.report

/-- `Simulator::reset()` (Simulator.cpp 246-262). -/
def Simulator.reset (h : Hooks) := Simulator.runPhase h Phase.reset

/-- Hooks that make no `call{P}()` calls. -/
def plainHooks : Hooks := { calls := fun _ _ => [] }

/-- Two modules that list each other in `run_first`, all flags clear. -/
def cycleSim : Simulator :=
  Simulator.ofModules ⟨1 / 100000000, 1 / 10, 1 / 10, 0, 1 / 10, 0, false⟩
    [Module.fresh [] [1], Module.fresh [] [0]]

/-- The ordering scenario: module 0 is A, module 1 is B with `run_first[A]`. -/
def orderSim : Simulator :=
  Simulator.ofModules ⟨1 / 100000000, 1 / 10, 1 / 10, 0, 1 / 10, 0, false⟩
    [Module.fresh [] [], Module.fresh [] [0]]

/-- Hooks of a re-entrant module: in every phase the hook of module 1
re-enters its own `call{P}()` and then calls `call{P}()` of module 0; the hook
of module 0 makes no calls. -/
def reentryHooks : Hooks := { calls := fun _ i => if i = 1 then [1, 0] else [] }

/-- Module 0 lists module 1 in `run_first`; module 1 has no `run_first`; all
flags clear. -/
def reentrySim : Simulator :=
  Simulator.ofModules ⟨1 / 100000000, 1 / 10, 1 / 10, 0, 1 / 10, 0, false⟩
    [Module.fresh [] [1], Module.fresh [] []]

/-! ## Scheduling invariants -/

/-- The state in which a Simulator phase `p` starts in C8: the phase map holds
distinct live modules and has no staged removal, no error is set, and every
live module is unfrozen with both flags of the phase clear and with a
`run_first` set of registered modules of strictly smaller `rank` (so the
`run_first` relation is acyclic). -/
structure PhaseReady (p : Phase) (rank : Nat → Nat) (s : Simulator) : Prop where
  nodup : (s.phaseMap p).keys.Nodup
  staged : (s.phaseMap p).staged = []
  noerr : s.error = false
  alive : ∀ k ∈ (s.phaseMap p).keys, ∃ m, s.accessor k = some m
  mods : ∀ k m, s.accessor k = some m →
    m.frozen = false ∧ m.called p = false ∧ m.run p = false ∧
    ∀ j ∈ m.run_first, j ∈ (s.phaseMap p).keys ∧ rank j < rank k

/-- The invariant of the module loop of phase `p` with plain hooks: `ev` are
the modules whose hook has run so far in this invocation, in order; `rf` is
the (unchanging) `run_first` set of each module and `K` the set of registered
modules.  A module has `_run` set exactly when its hook has run; every hook
ran after the hooks of all modules in its `run_first`. -/
structure SchedInv (p : Phase) (rf : Nat → List Nat) (K : List Nat)
    (base : List (Phase × Nat)) (ev : List Nat) (s : Simulator) : Prop where
  log : s.hooklog = base ++ ev.map (fun k => (p, k))
  mods : ∀ k m, s.accessor k = some m →
    m.frozen = false ∧ m.called p = false ∧ m.run_first = rf k ∧ (m.run p = true ↔ k ∈ ev)
  alive : ∀ k ∈ K, ∃ m, s.accessor k = some m
  sub : ∀ k ∈ ev, k ∈ K
  nodup : ev.Nodup
  closed : ∀ a ∈ ev, ∀ b ∈ rf a, b ∈ ev
  order : ev.Pairwise (fun x y => y ∉ rf x)
  noerr : s.error = false

/-! ## The effects of a phase call -/

/-- The six lifecycle phases, those with a `{phase}_called`/`{phase}_run`
pair. -/
def Phase.lifecycle (p : Phase) : Prop := p ≠ Phase.setup ∧ p ≠ Phase.tracker

/-- The state changes a `call{P}()` can make, as a relation between the state
before and the state after: an expired `run_first` reference is erased; a
re-entered module takes the circular-dependency branch; a module whose
`_called` is clear sets it, runs its hook (recorded when the module is not
frozen; the hook's own calls make further changes `s₁`) and finishes.  For the
phases without a `run_first` loop the hook is reached straight from the
`_run` test, so `_run` is clear there. -/
inductive Exec (p : Phase) : Simulator → Simulator → Prop
  | refl (s : Simulator) : Exec p s s
  | trans {s s1 s2 : Simulator} : Exec p s s1 → Exec p s1 s2 → Exec p s s2
  | eraseDead (s : Simulator) (i j : Nat) : s.accessor j = none →
      Exec p s (s.modify i (fun m => { m with run_first := m.run_first.erase j }))
  | circular (s : Simulator) (i : Nat) (m : Module) : s.accessor i = some m →
      m.called p = true →
      Exec p s (((s.setError (circularMessage p)).modify i
        (Module.setRun p true)).modify i (Module.setCalled p false))
  | hook (s s1 : Simulator) (i : Nat) (m : Module) : s.accessor i = some m →
      m.called p = false → m.frozen = false → (p.usesRunFirst = false → m.run p = false) →
      Exec p ((s.modify i (Module.setCalled p true)).logHook p i) s1 →
      Exec p s (finishCall p i s1)
  | frozen (s : Simulator) (i : Nat) (m : Module) : s.accessor i = some m →
      m.called p = false → m.frozen = true → (p.usesRunFirst = false → m.run p = false) →
      Exec p s (finishCall p i (s.modify i (Module.setCalled p true)))

/-- How often the hook `p()` of module `k` has been invoked. -/
def hookCount (p : Phase) (k : Nat) (s : Simulator) : Nat := s.hooklog.count (p, k)

/-- Whether the hook `p()` of module `k` can still be reached: 1 when the
module is alive with `_run` and `_called` both clear, else 0. -/
def pending (p : Phase) (k : Nat) (s : Simulator) : Nat :=
  match s.accessor k with
  | some m => if m.run p || m.called p then 0 else 1
  | none => 0

/-- Module `k` is alive with `_run` set and `_called` clear for phase `p`. -/
def settled (p : Phase) (k : Nat) (s : Simulator) : Prop :=
  ∃ m, s.accessor k = some m ∧ m.run p = true ∧ m.called p = false

/-- The bookkeeping that bounds hook invocations: from `s` to `s'`, for every
module the number of hook invocations plus what is still pending does not
grow. -/
def Pot (p : Phase) (s s' : Simulator) : Prop :=
  ∀ k, hookCount p k s' + pending p k s' ≤ hookCount p k s + pending p k s

/-- From `s` to `s'` the flags of phase `p` are unchanged for every module of
`B` and for every module whose `_called` is set in `s`. -/
def Keep (p : Phase) (B : Nat → Prop) (s s' : Simulator) : Prop :=
  ∀ x mx, s.accessor x = some mx → (B x ∨ mx.called p = true) →
    ∃ mx', s'.accessor x = some mx' ∧ mx'.run p = mx.run p ∧ mx'.called p = mx.called p

/-- From `s` to `s'` every module stays alive and keeps the live references
of its `run_first`. -/
def Frame (s s' : Simulator) : Prop :=
  ∀ k m, s.accessor k = some m →
    ∃ m', s'.accessor k = some m' ∧
      ∀ x ∈ m.run_first, (s.accessor x).isSome = true → x ∈ m'.run_first

/-- Every module of `B` is waiting in its `run_first` loop: it has not run and
one of its live references is either inside its hook (`_called` set) or has not
run and is itself waiting (in `B`) or is the callee (in `C`).  A `call{P}()`
on a module of `B` is deferred. -/
def Blocked (p : Phase) (B C : Nat → Prop) (s : Simulator) : Prop :=
  ∀ w, B w → ∃ mw, s.accessor w = some mw ∧ mw.run p = false ∧
    ∃ x ∈ mw.run_first, ∃ mx, s.accessor x = some mx ∧
      (mx.called p = true ∨ (mx.run p = false ∧ (B x ∨ C x)))

/-- What is assumed of the nested `call{P}()` when reasoning about one level
of the recursion: each returning call is an `Exec`, and a returning call that
records no error leaves the waiting modules `B` and the modules inside their
hook untouched and keeps the bookkeeping of hook invocations. -/
def CallKeeps (p : Phase) (call : Simulator → Nat → Option Simulator) : Prop :=
  (∀ s j s', call s j = some s' → Exec p s s') ∧
  (∀ (B : Nat → Prop) (s : Simulator) (j : Nat) (s' : Simulator),
    Blocked p B (fun x => x = j) s → call s j = some s' →
    s'.error_descriptions.length = s.error_descriptions.length →
    Keep p B s s' ∧ Pot p s s')

/-! ## The clock along the run loop -/

/-- The removal of `k` from the map has been requested or applied: `k` is
staged for removal or is no longer an entry. -/
def DynamicMap.erased (k : Nat) (d : DynamicMap) : Prop := k ∈ d.staged ∨ k ∉ d.keys

/-- One module, frozen, every phase flag clear. -/
def frozenSim : Simulator :=
  Simulator.ofModules ⟨1 / 100000000, 1 / 10, 1 / 10, 0, 1 / 10, 0, false⟩
    [{ Module.fresh [] [] with frozen := true }]

/-- The assignment `frozen = false` to module `i`. -/
def Simulator.unfreeze (i : Nat) (s : Simulator) : Simulator :=
  s.modify i (fun m => { m with frozen := false })

/-! ## What a phase leaves alone -/

/-- The state `s` with the members a `call{P}()` can write (the registered
module objects, the hook log, the error channel and `inits`) taken from
`s'`. -/
def Simulator.withSched (s s' : Simulator) : Simulator :=
  { s with accessor := s'.accessor, hooklog := s'.hooklog, error := s'.error,
           error_descriptions := s'.error_descriptions, inits := s'.inits }

/-- What the `call{P}()` calls of phase `p` leave alone from `s` to `s'`:
every Simulator member other than the module objects, the hook log, the error
channel and (for init) `inits`; the hook counts of the other phases; which
modules exist; and of each module the freeze switches, the states, the flags
of the other phases, while `run_first` can only lose references. -/
structure Untouched (p : Phase) (s s' : Simulator) : Prop where
  same : s' = s.withSched s'
  inits : p ≠ Phase.init → s'.inits = s.inits
  log : ∀ q k, q ≠ p → hookCount q k s' = hookCount q k s
  alive : ∀ k, (s'.accessor k).isSome = (s.accessor k).isSome
  mods : ∀ k m m', s.accessor k = some m → s'.accessor k = some m' →
    m'.frozen = m.frozen ∧ m'.freeze_integration = m.freeze_integration ∧
    m'.states = m.states ∧ (∀ x ∈ m'.run_first, x ∈ m.run_first) ∧
    ∀ q, q ≠ p → m'.run q = m.run q ∧ m'.called q = m.called q

/-! ## Adaptive step size -/

/-- The inner loop of `Simulator::adaptiveCalc()` (Simulator.cpp 303-311) over
the values `computed` returned by `optimalTimeStep()` for the states of one
module, in order; the pair is (`dt_optimal`, `optimal_found`). -/
def optimalOfStates (computed : List ℚ) (acc : ℚ × Bool) : ℚ × Bool :=
  computed.foldl (fun acc c => if c > 0 ∧ c < acc.1 then (c, true) else acc) acc

/-- The search of `Simulator::adaptiveCalc()` (Simulator.cpp 296-313):
starting from `dt_optimal = 1.0e9`, `optimal_found = false`, visit the states
of every module of `propagate` that is neither frozen nor integration-frozen.
`opt k j` is what `optimalTimeStep()` returns for state `j` of module `k`
(that function belongs to the adaptive integrator, whose source file is not
part of the sources, so it is a parameter). -/
def Simulator.optimalSearch (opt : Nat → Nat → ℚ) (s : Simulator) : ℚ × Bool :=
  s.propagate.keys.foldl
    (fun acc k =>
      match s.accessor k with
      | some module =>
        if !module.frozen && !module.freeze_integration then
          optimalOfStates ((List.range module.states.length).map (opt k)) acc
        else acc
      | none => acc)
    (1000000000, false)

/-- `Simulator::adaptiveCalc()` (Simulator.cpp 294-329). -/
def Simulator.adaptiveCalc (opt : Nat → Nat → ℚ) (s : Simulator) : Simulator :=
  let found := s.optimalSearch opt
  let dt_optimal := found.1
  if found.2 then
    let s :=
      if dt_optimal < s.stepper.EPS then { s with dt_change := s.stepper.EPS }
      else if dt_optimal > 2 * s.stepper.dtp then { s with dt_change := 2 * s.stepper.dtp }
      else { s with dt_change := dt_optimal }
    { s with change_dt := true }
  else s

/-- The values `optimalTimeStep()` returns to `adaptiveCalc()`, in the order
of the search: those of the states of the modules of `propagate` that are
neither frozen nor integration-frozen. -/
def Simulator.visitedOptima (opt : Nat → Nat → ℚ) (s : Simulator) : List ℚ :=
  s.propagate.keys.flatMap
    (fun k =>
      match s.accessor k with
      | some module =>
        if !module.frozen && !module.freeze_integration then
          (List.range module.states.length).map (opt k)
        else []
      | none => [])

/-- The values `optimalTimeStep()` would return for all states of all live
modules of `propagate`, frozen or not. -/
def Simulator.allOptima (opt : Nat → Nat → ℚ) (s : Simulator) : List ℚ :=
  s.propagate.keys.flatMap
    (fun k =>
      match s.accessor k with
      | some module => (List.range module.states.length).map (opt k)
      | none => [])

/-- One module with one state and the base step `dtp = 1e-9`, below half the
tolerance `EPS = 1e-8`. -/
def tinyStepSim : Simulator :=
  Simulator.ofModules ⟨1 / 100000000, 1 / 1000000000, 1 / 1000000000, 0, 1 / 1000000000, 0, false⟩
    [Module.fresh [⟨1, 0, 0, 0, 0, 0, 0⟩] []]

/-- One frozen module with one state, base step `dtp = 0.1`. -/
def frozenStateSim : Simulator :=
  Simulator.ofModules ⟨1 / 100000000, 1 / 10, 1 / 10, 0, 1 / 10, 0, false⟩
    [{ Module.fresh [⟨1, 0, 0, 0, 0, 0, 0⟩] [] with frozen := true }]

/-! ## The run loop -/

/-- Modelled from the spec: `DynamicMap::count(key)`; a key whose removal is
staged already counts as absent. -/
def DynamicMap.count (k : Nat) (d : DynamicMap) : Nat :=
  if d.keys.contains k && !d.staged.contains k then 1 else 0

/-- Modelled from the spec: `DynamicMap::directErase(key)` removes the entry
at once, bypassing staging. -/
def DynamicMap.directErase (k : Nat) (d : DynamicMap) : DynamicMap :=
  { d with keys := d.keys.filter (fun x => x != k) }

/-- `Module::~Module()` (Module.cpp 85-129) for module `k`, as far as this
Simulator is concerned: the object leaves the accessor registry, `modules`,
and every other map in which it still counts.  (The erasure of the Simulator
itself once `modules` is empty is not modelled.) -/
def Simulator.destroyModule (k : Nat) (s : Simulator) : Simulator :=
  let drop := fun (d : DynamicMap) => if d.count k > 0 then d.directErase k else d
  { s with
    accessor := fun i => if i = k then none else s.accessor i
    modules := s.modules.directErase k
    inits := drop s.inits
    updates := drop s.updates
    postcalcs := drop s.postcalcs
    checks := drop s.checks
    reports := drop s.reports
    resets := drop s.resets
    propagate := drop s.propagate
    trackers := drop s.trackers }

/-- `Simulator::deleteModules()` (Simulator.cpp 341-357): every handle of
`to_delete` is released, which destroys its module (each handle taken to be
the last owner), then the vector is cleared.  Destructors registering further
handles, for which the function re-invokes itself, are not modelled. -/
def Simulator.deleteModules (s : Simulator) : Simulator :=
  if s.to_delete.length > 0 then
    { s.to_delete.foldl (fun s k => s.destroyModule k) s with to_delete := [] }
  else s

/-- `Simulator::tracker()` (Simulator.cpp 264-270): `Module::tracker()` of
every module of `trackers` is entered (recorded in `hooklog`; its body is not
in the sources), and the invocation is counted. -/
def Simulator.tracker (s : Simulator) : Simulator :=
  let s := { s with phase := Phase.tracker, tracker_runs := s.tracker_runs + 1 }
  s.trackers.keys.foldl (fun s k => s.logHook Phase.tracker k) s

/-- What `Simulator::run` depends on and the sources do not contain or the
program does not decide.  `hooks` and `fuel`: the `call{P}()` calls the user
hooks make and the bound on their nesting.  `adaptive`, `adaptiveFSAL`: what
the installed integrator answers to `adaptive()` and `adaptiveFSAL()`
(declared in ascent/core/StateStepper.h, which is not part of the sources).
`optimalTimeStep s k j`: the value `optimalTimeStep()` returns in state `s` for
state `j` of module `k`.  `check`: the stopper's `check()` given the clock,
modelled from the spec as returning the stopper afterwards and whether it
raises `stop_simulation`.  `fileOpens k`, `fileName k`: whether the tracking
file of module `k` can be opened, and its name. -/
structure World where
  hooks : Hooks
  fuel : Nat
  adaptive : Bool
  adaptiveFSAL : Bool
  optimalTimeStep : Simulator → Nat → Nat → ℚ
  check : Stopper → Stepper → Stopper × Bool
  fileOpens : Nat → Bool
  fileName : Nat → String

/-- The first loop of `Simulator::runStoppers()` (Simulator.cpp 426-432) over
the stoppers from index `i` on: each is checked; the result is the stoppers
after their checks, whether one of them raised `stop_simulation`, and
`to_erase`, the indices of those whose own list is empty. -/
def stoppersLoop (check : Stopper → Stepper → Stopper × Bool) (st : Stepper) :
    List Stopper → Nat → List Stopper × Bool × List Nat
  | [], _ => ([], false, [])
  | σ :: rest, i =>
    let c := check σ st
    let r := stoppersLoop check st rest (i + 1)
    (c.1 :: r.1, c.2 || r.2.1, if c.1.stoppers = 0 then i :: r.2.2 else r.2.2)

/-- `Simulator::runStoppers()` (Simulator.cpp 422-436): after the checks,
`stoppers.erase(stoppers.begin() + i)` for each `i` of `to_erase` in order
(an index beyond the end, undefined in C++, erases nothing here). -/
def Simulator.runStoppers (w : World) (s : Simulator) : Simulator :=
  let r := stoppersLoop w.check s.stepper s.stoppers 0
  { s with
    stop_simulation := s.stop_simulation || r.2.1
    stoppers := r.2.2.foldl (fun l i => l.eraseIdx i) r.1 }

/-- `Simulator::createFiles()` (Simulator.cpp 407-411) with
`Module::outputTrack()` (Module.cpp 345-398) reduced to its error path: a
tracking file that cannot be opened is reported with `error(...)`; what is
written to the file is not modelled. -/
def Simulator.createFiles (w : World) (s : Simulator) : Simulator :=
  s.tracking.foldl
    (fun s k =>
      if w.fileOpens k then s
      else s.setError ("File <" ++ w.fileName k ++ "> could not be created."))
    s

/-- The description of the configuration error for the end time
(Simulator.cpp 38); the two numbers are printed as rationals, not as
`to_string` prints a double. -/
def endTimeMessage (tend t : ℚ) : String :=
  "The end time : " ++ toString tend ++
    " is less than or equal to the current time : " ++ toString t

/-- First part of an iteration of the `while` loop of `Simulator::run`
(Simulator.cpp 52-67): `event(tend)` and the `tickfirst` block. -/
def Simulator.tickHead (w : World) (s : Simulator) : Option Simulator :=
  let s := (s.event s.tend).1
  if s.tickfirst then
    let s := if s.tick0 && s.track_time then { s with t_hist := s.t_hist ++ [s.stepper.t] }
      else s
    let s := s.changeTimeStep
    match s.report w.hooks w.fuel with
    | none => none
    | some s => some (if s.tick0 then { s.tracker with tick0 := false } else s)
  else some s

/-- Second part of an iteration (Simulator.cpp 69-80): `update()`,
`tickfirst = false`, `adaptiveCalc()` for an initialised FSAL integrator at a
sample boundary, `propagateStates()`, `updateClock()`. -/
def Simulator.tickUpdate (w : World) (s : Simulator) : Option Simulator :=
  match s.update w.hooks w.fuel with
  | none => none
  | some s =>
    let s := { s with tickfirst := false }
    let s :=
      if s.sample then
        if w.adaptiveFSAL && s.stepper.integrator_initialized then
          s.adaptiveCalc (w.optimalTimeStep s)
        else s
      else s
    some s.propagateStates.updateClock

/-- The block after a closed step (Simulator.cpp 82-105), up to
`deleteModules()`. -/
def Simulator.tickClosed (w : World) (s : Simulator) : Option Simulator :=
  let s := if s.track_time then { s with t_hist := s.t_hist ++ [s.stepper.t] } else s
  match s.postcalc w.hooks w.fuel with
  | none => none
  | some s =>
    match s.check w.hooks w.fuel with
    | none => none
    | some s =>
      let s := s.runStoppers w
      let s :=
        if s.stop_simulation ∨ s.stepper.t + s.stepper.EPS ≥ s.tend then
          { s with ticklast := true }
        else s
      match s.report w.hooks w.fuel with
      | none => none
      | some s =>
        let s := s.tracker
        let s := if w.adaptive then s.adaptiveCalc (w.optimalTimeStep s) else s
        let s := s.changeTimeStep
        some s.deleteModules

/-- One iteration of the `while` loop of `Simulator::run` (Simulator.cpp
52-114): the state after it and whether it left the loop with `break`; `none`
when a phase does not return. -/
def Simulator.tick (w : World) (s : Simulator) : Option (Simulator × Bool) :=
  match s.tickHead w with
  | none => none
  | some s =>
    match s.tickUpdate w with
    | none => none
    | some s =>
      if s.sample then
        match s.tickClosed w with
        | none => none
        | some s =>
          if s.ticklast then some (s.createFiles w, true)
          else (s.reset w.hooks w.fuel).map (fun s => (s, false))
      else (s.reset w.hooks w.fuel).map (fun s => (s, false))

/-- The loop `while (!error) { ... }` of `Simulator::run` with a bound `n` on
the number of iterations; `none` when the bound is exhausted or a phase does
not return. -/
def Simulator.ticks (w : World) : Nat → Simulator → Option Simulator
  | 0, s => if s.error then some s else none
  | n + 1, s =>
    if s.error then some s
    else
      match s.tick w with
      | none => none
      | some (s', true) => some s'
      | some (s', false) => Simulator.ticks w n s'

/-- `Simulator::run(dt, tmax)` (Simulator.cpp 33-127) with a bound `n` on the
number of loop iterations: the final state and the returned flag. -/
def Simulator.run (w : World) (n : Nat) (dt tmax : ℚ) (s : Simulator) :
    Option (Simulator × Bool) :=
  let s := { s with tend := tmax }
  let s := if s.tend ≤ s.stepper.t then s.setError (endTimeMessage s.tend s.stepper.t) else s
  let s := if s.modules.size = 0 then s.setError "There are no modules to run." else s
  match (if !s.error then (s.setup dt).init w.hooks w.fuel else some s) with
  | none => none
  | some s =>
    match Simulator.ticks w n s with
    | none => none
    | some s =>
      let s := s.directErase true
      let s := { s with phase := Phase.setup }
      if s.error then some (s, false) else some (s, true)

/-! ## Invariants of the run loop -/

/-- The state in which every phase of the run loop can start with plain
hooks: update and postcalc are ready in the sense of `PhaseReady`, with
`run_first` ranks below the nesting bound `fuel`, and no module is inside a
`call{P}()` of any lifecycle phase. -/
structure RunReady (rank : Nat → Nat) (fuel : Nat) (s : Simulator) : Prop where
  update : PhaseReady Phase.update rank s
  postcalc : PhaseReady Phase.postcalc rank s
  called : ∀ p : Phase, p.lifecycle → ∀ k m, s.accessor k = some m → m.called p = false
  fuelPos : 0 < fuel
  fuelUpdate : ∀ k ∈ s.updates.keys, rank k < fuel
  fuelPostcalc : ∀ k ∈ s.postcalcs.keys, rank k < fuel

/-- From `s` to `s'` the members of the Simulator that steer the run loop are
unchanged: the clock, the end time, the tick flags, the pending step change,
the stoppers, the pending deletions, the tracking data and the maps
`modules`, `propagate`, `trackers`. -/
structure SameCtl (s s' : Simulator) : Prop where
  stepper : s'.stepper = s.stepper
  tend : s'.tend = s.tend
  tickfirst : s'.tickfirst = s.tickfirst
  ticklast : s'.ticklast = s.ticklast
  tick0 : s'.tick0 = s.tick0
  stop_simulation : s'.stop_simulation = s.stop_simulation
  track_time : s'.track_time = s.track_time
  change_dt : s'.change_dt = s.change_dt
  dt_change : s'.dt_change = s.dt_change
  stoppers : s'.stoppers = s.stoppers
  to_delete : s'.to_delete = s.to_delete
  tracking : s'.tracking = s.tracking
  t_hist : s'.t_hist = s.t_hist
  tracker_runs : s'.tracker_runs = s.tracker_runs
  modules : s'.modules = s.modules
  propagate : s'.propagate = s.propagate
  trackers : s'.trackers = s.trackers

/-- The surroundings assumed for a run with the RK4 integrator and hooks that
make no calls: the integrator is not adaptive. -/
structure World.plainRK4 (w : World) : Prop where
  hooks : w.hooks = plainHooks
  adaptive : w.adaptive = false
  adaptiveFSAL : w.adaptiveFSAL = false

/-- What holds between any two statements of the run loop in the runs
considered in C19 and C20: the phases can start (`RunReady`), no module waits
for destruction, no step change is pending, every stopper is left as it is by
its `check()` and keeps a non-empty list of its own, and every tracking file
can be opened. -/
structure RunInv (w : World) (rank : Nat → Nat) (s : Simulator) : Prop where
  ready : RunReady rank w.fuel s
  noDelete : s.to_delete = []
  noChange : s.change_dt = false
  stoppers : ∀ σ ∈ s.stoppers, ∀ st, (w.check σ st).1 = σ ∧ σ.stoppers ≠ 0
  files : ∀ k ∈ s.tracking, w.fileOpens k = true

/-- From `s` to `s'` nothing has changed but the values of the integrator
states of the modules. -/
structure Similar (s s' : Simulator) : Prop where
  same : s' = { s with accessor := s'.accessor }
  alive : ∀ k, (s'.accessor k).isSome = (s.accessor k).isSome
  mods : ∀ k m m', s.accessor k = some m → s'.accessor k = some m' →
    m' = { m with states := m'.states }

/-- From `s` to `s'` the members on which `RunInv` rests are unchanged: the
module objects, the maps of update and postcalc, the error flag, the pending
deletions and step change, the stoppers, the tracking list and the end
time. -/
structure CtlStep (s s' : Simulator) : Prop where
  accessor : s'.accessor = s.accessor
  updates : s'.updates = s.updates
  postcalcs : s'.postcalcs = s.postcalcs
  error : s'.error = s.error
  to_delete : s'.to_delete = s.to_delete
  change_dt : s'.change_dt = s.change_dt
  stoppers : s'.stoppers = s.stoppers
  tracking : s'.tracking = s.tracking
  tend : s'.tend = s.tend

/-- From `s` to `s'` the clock and the two flags that end the run are
unchanged. -/
structure SameClock (s s' : Simulator) : Prop where
  stepper : s'.stepper = s.stepper
  ticklast : s'.ticklast = s.ticklast
  stop_simulation : s'.stop_simulation = s.stop_simulation

/-- Surroundings with plain hooks and the RK4 integrator: no stopper ever
raises `stop_simulation`, every tracking file can be opened. -/
def plainWorld (fuel : Nat) : World :=
  { hooks := plainHooks, fuel := fuel, adaptive := false, adaptiveFSAL := false,
    optimalTimeStep := fun _ _ _ => 0, check := fun σ _ => (σ, false),
    fileOpens := fun _ => true, fileName := fun _ => "" }

/-- The registration of the stop-condition observers `σs` with the
Simulator. -/
def Simulator.withStoppers (σs : List Stopper) (s : Simulator) : Simulator :=
  { s with stoppers := σs }

/-- The second loop of `Simulator::runStoppers()` (Simulator.cpp 434-435) as
far as its indices go: `stoppers.erase(stoppers.begin() + i)` is defined for
`i < stoppers.size()`, and each erase shortens the vector by one.  The result
tells whether every index of `to_erase` is within bounds when it is used on a
vector of initial size `n`. -/
def eraseInBounds : List Nat → Nat → Bool
  | [], _ => true
  | i :: rest, n => decide (i < n) && eraseInBounds rest (n - 1)

/-- In the words of the spec: the stoppers of `l` whose own stopper list is
still non-empty, in their original order. -/
def liveStoppers (l : List Stopper) : List Stopper :=
  l.filter (fun σ => σ.stoppers != 0)

/-- The exponential-decay scenario with three registered stoppers, tagged 0,
1 and 2, each with one entry in its own stopper list. -/
def threeStoppersSim : Simulator := decaySim.withStoppers [⟨0, 1⟩, ⟨1, 1⟩, ⟨2, 1⟩]

/-- Surroundings as `plainWorld`, with a `check()` that empties the own
stopper list of the stoppers tagged in `dead` and leaves the others as they
are; no stopper raises `stop_simulation`. -/
def exhaustWorld (fuel : Nat) (dead : List Nat) : World :=
  { hooks := plainHooks, fuel := fuel, adaptive := false, adaptiveFSAL := false,
    optimalTimeStep := fun _ _ _ => 0,
    check := fun σ _ => (if dead.contains σ.tag then { σ with stoppers := 0 } else σ, false),
    fileOpens := fun _ => true, fileName := fun _ => "" }

/-! ## The tracked time series -/

/-- Successive calls of `Simulator::run` on the same Simulator, each with its
bound on the loop iterations, its `dt` and its `tmax`; `none` when one of them
does not return. -/
def Simulator.runs (w : World) : List (Nat × ℚ × ℚ) → Simulator → Option Simulator
  | [], s => some s
  | (n, dt, tmax) :: rest, s =>
    match s.run w n dt tmax with
    | none => none
    | some (s', _) => Simulator.runs w rest s'

/-- From `s` to `s'` nothing of the tracked time series has moved: `t_hist`,
the number of `tracker()` invocations, the flags `tick0`, `track_time` and
`tickfirst`, the time `t` and the pass index. -/
structure SameTrack (s s' : Simulator) : Prop where
  t_hist : s'.t_hist = s.t_hist
  tracker_runs : s'.tracker_runs = s.tracker_runs
  tick0 : s'.tick0 = s.tick0
  track_time : s'.track_time = s.track_time
  tickfirst : s'.tickfirst = s.tickfirst
  clock : s'.stepper.t = s.stepper.t
  kpass : s'.stepper.kpass = s.stepper.kpass

/-- The exponential-decay scenario with its module registered in `trackers`
(a tracked parameter); nothing has been recorded yet. -/
def trackedSim : Simulator :=
  { decaySim with trackers := { keys := [0], staged := [], direct_erase := false } }

/-! ## Registration of modules -/

/-- Modelled from the spec: the assignment `map[k] = v` on a `DynamicMap`
(`insert(k, v)`; ascent/core/DynamicMap.h is not part of the sources): a key
that is not an entry becomes the last entry in iteration order; for a key that
is an entry only the mapped pointer changes.  Staged removals are left as they
are. -/
def DynamicMap.insert (k : Nat) (d : DynamicMap) : DynamicMap :=
  if d.keys.contains k then d else { d with keys := d.keys ++ [k] }

/-- The process-wide state around one Simulator: `next_module_id` is the
static counter `Module::next_module_id` (a `size_t`, taken as 64 bits wide);
the accessor registry `ModuleCore::accessor` is the `accessor` member of
`simulator`.  `assigned` is a ghost field: the `module_id`s handed out so far,
in order. -/
structure ModuleCore where
  next_module_id : Nat
  simulator : Simulator
  assigned : List Nat

/-- `Module::Module(sim)` (Module.cpp 56-83): the new module takes
`module_id = next_module_id`, the counter is incremented, and the object is
entered in the accessor registry, in `modules` and in the six phase maps.  The
new object has its freeze switches and phase flags clear, no states and no
`run_first` references. -/
def ModuleCore.constructModule (c : ModuleCore) : ModuleCore :=
  let module_id := c.next_module_id
  let s := c.simulator
  let s := { s with accessor := fun i =>
    if i = module_id then some (Module.fresh [] []) else s.accessor i }
  let s := { s with modules := s.modules.insert module_id }
  let s := { s with inits := s.inits.insert module_id }
  let s := { s with updates := s.updates.insert module_id }
  let s := { s with postcalcs := s.postcalcs.insert module_id }
  let s := { s with checks := s.checks.insert module_id }
  let s := { s with reports := s.reports.insert module_id }
  let s := { s with resets := s.resets.insert module_id }
  { next_module_id := (c.next_module_id + 1) % 2 ^ 64, simulator := s,
    assigned := c.assigned ++ [module_id] }

/-- `Module::addIntegrator(x, xd, tolerance)` (Module.cpp 139-146) of module
`k`: the module is entered in `propagate` unless it counts there already, and
a state made by the integrator's `factory(x, xd)` joins its states (the RK4
storage of the new state is taken as zero; the tolerance is not modelled). -/
def Simulator.addIntegrator (k : Nat) (x xd : ℚ) (s : Simulator) : Simulator :=
  let s := if s.propagate.count k = 0 then { s with propagate := s.propagate.insert k } else s
  s.modify k (fun m => { m with states := m.states ++ [⟨x, xd, 0, 0, 0, 0, 0⟩] })

/-- The maps of the registration invariant: the six phase maps and
`propagate`. -/
def Simulator.scheduleMaps (s : Simulator) : List DynamicMap :=
  [s.inits, s.updates, s.postcalcs, s.checks, s.reports, s.resets, s.propagate]

/-- The nine maps of the Simulator: `modules`, the six phase maps,
`propagate` and `trackers`. -/
def Simulator.allMaps (s : Simulator) : List DynamicMap :=
  s.modules :: s.scheduleMaps ++ [s.trackers]

/-- In the words of the spec: every `module_id` present in `inits`, `updates`,
`postcalcs`, `checks`, `reports`, `resets` or `propagate` is also present in
`modules`, where a key is present in a map when `count(key)` is not zero. -/
def Simulator.registered (s : Simulator) : Prop :=
  ∀ k, ∀ d ∈ s.scheduleMaps, 0 < d.count k → 0 < s.modules.count k

/-- The registration invariant together with what keeps it: no removal from
`modules` is staged (the sources stage removals only in `inits`), every live
module counts in `modules`, and every `module_id` handed out so far is below
the counter. -/
structure ModuleCore.Registered (c : ModuleCore) : Prop where
  maps : c.simulator.registered
  unstaged : c.simulator.modules.staged = []
  live : ∀ k, (c.simulator.accessor k).isSome = true → 0 < c.simulator.modules.count k
  ids : ∀ a ∈ c.assigned, a < c.next_module_id

/-- The process before any module is constructed: the counter is 0 and the
Simulator, around the stepper `st`, has no module. -/
def ModuleCore.start (st : Stepper) : ModuleCore :=
  { next_module_id := 0, simulator := Simulator.ofModules st [], assigned := [] }

/-- The process after the construction of its first module, around the
stepper of the exponential-decay scenario. -/
def oneModuleCore : ModuleCore := (ModuleCore.start decaySim.stepper).constructModule

/-! ## Theorems -/

theorem RK4.updateClock_kpass (st : Stepper) :
    (RK4.updateClock st).kpass = (st.kpass + 1) % 4 := by
  unfold RK4.updateClock
  by_cases h0 : st.kpass = 0 <;> by_cases h2 : st.kpass = 2 <;>
    by_cases h : (st.kpass + 1) % 4 = 0 <;> simp [h0, h2, h]

theorem RK4.updateClock_dt (st : Stepper) : (RK4.updateClock st).dt = st.dt := by
  unfold RK4.updateClock
  by_cases h0 : st.kpass = 0 <;> by_cases h2 : st.kpass = 2 <;>
    by_cases h : (st.kpass + 1) % 4 = 0 <;> simp [h0, h2, h]

theorem RK4.propagate_pass0 (st : Stepper) (s : RK4) (h : st.kpass = 0) :
    RK4.propagate st s =
      { s with x0 := s.x, xd0 := s.xd, x := s.x + 1 / 2 * st.dt * s.xd } := by
  unfold RK4.propagate; rw [h]

theorem RK4.propagate_pass1 (st : Stepper) (s : RK4) (h : st.kpass = 1) :
    RK4.propagate st s = { s with xd1 := s.xd, x := s.x0 + 1 / 2 * st.dt * s.xd } := by
  unfold RK4.propagate; rw [h]

theorem RK4.propagate_pass2 (st : Stepper) (s : RK4) (h : st.kpass = 2) :
    RK4.propagate st s = { s with xd2 := s.xd, x := s.x0 + st.dt * s.xd } := by
  unfold RK4.propagate; rw [h]

theorem RK4.propagate_pass3 (st : Stepper) (s : RK4) (h : st.kpass = 3) :
    RK4.propagate st s =
      { s with xd3 := s.xd,
               x := s.x0 + st.dt / 6 * (s.xd0 + 2 * s.xd1 + 2 * s.xd2 + s.xd) } := by
  unfold RK4.propagate; rw [h]

theorem RK4.updateClock_t (st : Stepper) :
    (RK4.updateClock st).t =
      if st.kpass = 0 then st.t + 1 / 2 * st.dt else if st.kpass = 2 then st.t1 else st.t := by
  unfold RK4.updateClock
  by_cases h0 : st.kpass = 0 <;> by_cases h2 : st.kpass = 2 <;>
    by_cases h : (st.kpass + 1) % 4 = 0 <;> simp [h0, h2, h]

theorem RK4.updateClock_t1 (st : Stepper) :
    (RK4.updateClock st).t1 =
      if (st.kpass + 1) % 4 = 0 then
        (Int.floor (((RK4.updateClock st).t + st.EPS) / st.dtp + 1) : ℚ) * st.dtp
      else st.t1 := by
  rw [RK4.updateClock_t]
  unfold RK4.updateClock
  by_cases h0 : st.kpass = 0 <;> by_cases h2 : st.kpass = 2 <;>
    by_cases h : (st.kpass + 1) % 4 = 0 <;> simp [h0, h2, h]

/-- C1: with `kpass = 0` at the start of the step, the trial values written
after passes 0, 1, 2 are `x0 + dt/2·xd0`, `x0 + dt/2·xd1`, `x0 + dt·xd2` and the
value written after pass 3 is `x0 + dt/6·(xd0 + 2·xd1 + 2·xd2 + xd3)`, where
`x0` is the value of `x` before pass 0. -/
theorem rk4_propagate_four_passes (st : Stepper) (s : RK4) (d0 d1 d2 d3 : ℚ)
    (hk : st.kpass = 0) :
    (RK4.fourPasses st d0 d1 d2 d3 s).1.x = s.x + st.dt / 2 * d0 ∧
    (RK4.fourPasses st d0 d1 d2 d3 s).2.1.x = s.x + st.dt / 2 * d1 ∧
    (RK4.fourPasses st d0 d1 d2 d3 s).2.2.1.x = s.x + st.dt * d2 ∧
    (RK4.fourPasses st d0 d1 d2 d3 s).2.2.2.x
      = s.x + st.dt / 6 * (d0 + 2 * d1 + 2 * d2 + d3) := by
  have k1 : (RK4.updateClock st).kpass = 1 := by rw [RK4.updateClock_kpass, hk]
  have k2 : (RK4.updateClock (RK4.updateClock st)).kpass = 2 := by
    rw [RK4.updateClock_kpass, k1]
  have k3 : (RK4.updateClock (RK4.updateClock (RK4.updateClock st))).kpass = 3 := by
    rw [RK4.updateClock_kpass, k2]
  simp only [RK4.fourPasses, RK4.supply, RK4.propagate_pass0 _ _ hk,
    RK4.propagate_pass1 _ _ k1, RK4.propagate_pass2 _ _ k2, RK4.propagate_pass3 _ _ k3,
    RK4.updateClock_dt]
  exact ⟨by ring, by ring, trivial, trivial⟩

theorem rk4_propagate_four_passes_witness :
    (⟨1 / 100000000, 1 / 10, 1 / 10, 0, 1 / 10, 0, false⟩ : Stepper).kpass = 0 ∧
    (RK4.fourPasses ⟨1 / 100000000, 1 / 10, 1 / 10, 0, 1 / 10, 0, false⟩ 1 2 3 4
        ⟨5, 0, 0, 0, 0, 0, 0⟩).2.2.2.x = 5 + (1 / 10 : ℚ) / 6 * (1 + 2 * 2 + 2 * 3 + 4) :=
  ⟨rfl, (rk4_propagate_four_passes ⟨1 / 100000000, 1 / 10, 1 / 10, 0, 1 / 10, 0, false⟩
    ⟨5, 0, 0, 0, 0, 0, 0⟩ 1 2 3 4 rfl).2.2.2⟩

/-- C4: from `kpass = 0`, four consecutive `RK4::updateClock()` calls take
`kpass` through 1, 2, 3 and back to 0, `kpass` is below 4 after every call from
any state, and the resulting `t` is the `t1` held before the first call; hence
(`EPS` being a non-negative tolerance) `|t − t1_prev| ≤ EPS`. -/
theorem rk4_updateClock_four_calls (st : Stepper) (hk : st.kpass = 0) (hE : 0 ≤ st.EPS) :
    (RK4.updateClock st).kpass = 1 ∧
    (RK4.updateClock (RK4.updateClock st)).kpass = 2 ∧
    (RK4.updateClock (RK4.updateClock (RK4.updateClock st))).kpass = 3 ∧
    (RK4.updateClock (RK4.updateClock (RK4.updateClock (RK4.updateClock st)))).kpass = 0 ∧
    (∀ st' : Stepper, (RK4.updateClock st').kpass < 4) ∧
    (RK4.updateClock (RK4.updateClock (RK4.updateClock (RK4.updateClock st)))).t = st.t1 ∧
    |(RK4.updateClock (RK4.updateClock (RK4.updateClock (RK4.updateClock st)))).t - st.t1|
      ≤ st.EPS := by
  have k1 : (RK4.updateClock st).kpass = 1 := by rw [RK4.updateClock_kpass, hk]
  have k2 : (RK4.updateClock (RK4.updateClock st)).kpass = 2 := by
    rw [RK4.updateClock_kpass, k1]
  have k3 : (RK4.updateClock (RK4.updateClock (RK4.updateClock st))).kpass = 3 := by
    rw [RK4.updateClock_kpass, k2]
  have k4 : (RK4.updateClock (RK4.updateClock (RK4.updateClock
      (RK4.updateClock st)))).kpass = 0 := by
    rw [RK4.updateClock_kpass, k3]
  have t1a : (RK4.updateClock st).t1 = st.t1 := by
    rw [RK4.updateClock_t1, hk]; simp
  have t1b : (RK4.updateClock (RK4.updateClock st)).t1 = st.t1 := by
    rw [RK4.updateClock_t1, k1, t1a]; simp
  have ht : (RK4.updateClock (RK4.updateClock (RK4.updateClock
      (RK4.updateClock st)))).t = st.t1 := by
    rw [RK4.updateClock_t, k3, RK4.updateClock_t, k2, t1b]; simp
  refine ⟨k1, k2, k3, k4, ?_, ht, ?_⟩
  · intro st'
    rw [RK4.updateClock_kpass]
    exact Nat.mod_lt _ (by norm_num)
  · rw [ht, sub_self, abs_zero]; exact hE

theorem rk4_updateClock_four_calls_witness :
    (⟨1 / 100000000, 1 / 10, 1 / 10, 3 / 10, 4 / 10, 0, false⟩ : Stepper).kpass = 0 ∧
    (0 : ℚ) ≤ (⟨1 / 100000000, 1 / 10, 1 / 10, 3 / 10, 4 / 10, 0, false⟩ : Stepper).EPS ∧
    (RK4.updateClock (RK4.updateClock (RK4.updateClock (RK4.updateClock
      (⟨1 / 100000000, 1 / 10, 1 / 10, 3 / 10, 4 / 10, 0, false⟩ : Stepper))))).t = 4 / 10 :=
  ⟨rfl, by norm_num,
    (rk4_updateClock_four_calls ⟨1 / 100000000, 1 / 10, 1 / 10, 3 / 10, 4 / 10, 0, false⟩
      rfl (by norm_num)).2.2.2.2.2.1⟩

/-- C5 (as stated): it is not true that for every stepper state with `dt ≥ 0`
the time after `RK4::updateClock()` is at least the time before: at
`kpass = 2` the call assigns `t = t1`, and a state with `t1 < t` (here `t = 1`,
`t1 = 0`) moves backwards. -/
theorem rk4_updateClock_t_can_decrease :
    (0 : ℚ) ≤ (⟨1 / 100000000, 1, 0, 1, 0, 2, false⟩ : Stepper).dt ∧
    (RK4.updateClock ⟨1 / 100000000, 1, 0, 1, 0, 2, false⟩).t
      < (⟨1 / 100000000, 1, 0, 1, 0, 2, false⟩ : Stepper).t := by
  rw [RK4.updateClock_t]
  norm_num

/-- C5 (amended): for every stepper state with `dt ≥ 0` and `t ≤ t1`, and for
every pass index, `t` after `RK4::updateClock()` and after
`Simulator::updateClock()` is at least `t` before the call. -/
theorem updateClock_t_nondecreasing (s : Simulator)
    (hdt : 0 ≤ s.stepper.dt) (ht : s.stepper.t ≤ s.stepper.t1) :
    s.stepper.t ≤ (RK4.updateClock s.stepper).t ∧
    s.stepper.t ≤ (Simulator.updateClock s).stepper.t := by
  have h : s.stepper.t ≤ (RK4.updateClock s.stepper).t := by
    rw [RK4.updateClock_t]
    split_ifs <;> linarith
  refine ⟨h, ?_⟩
  unfold Simulator.updateClock
  simp only []
  split_ifs <;> exact h

theorem updateClock_t_nondecreasing_witness :
    (0 : ℚ) ≤ (Simulator.ofModules ⟨1 / 100000000, 1 / 10, 1 / 10, 0, 1 / 10, 2, false⟩ []).stepper.dt ∧
    (Simulator.ofModules ⟨1 / 100000000, 1 / 10, 1 / 10, 0, 1 / 10, 2, false⟩ []).stepper.t
      ≤ (Simulator.ofModules ⟨1 / 100000000, 1 / 10, 1 / 10, 0, 1 / 10, 2, false⟩ []).stepper.t1 ∧
    (Simulator.ofModules ⟨1 / 100000000, 1 / 10, 1 / 10, 0, 1 / 10, 2, false⟩ []).stepper.t
      ≤ (Simulator.updateClock
          (Simulator.ofModules ⟨1 / 100000000, 1 / 10, 1 / 10, 0, 1 / 10, 2, false⟩
            [])).stepper.t :=
  ⟨by norm_num [Simulator.ofModules], by norm_num [Simulator.ofModules],
    (updateClock_t_nondecreasing
      (Simulator.ofModules ⟨1 / 100000000, 1 / 10, 1 / 10, 0, 1 / 10, 2, false⟩ [])
      (by norm_num [Simulator.ofModules]) (by norm_num [Simulator.ofModules])).2⟩

theorem Simulator.pass_single (update : Module → Module) (k : Nat) (s : Simulator)
    (m : Module) (hp : s.propagate.keys = [k]) (ha : s.accessor k = some m)
    (hf : m.frozen = false) (hu1 : (update m).frozen = false)
    (hu2 : (update m).freeze_integration = false) :
    (s.pass update k).accessor k = some (Module.propagateStates s.stepper (update m)) ∧
    (s.pass update k).stepper = RK4.updateClock s.stepper ∧
    (s.pass update k).propagate = s.propagate := by
  unfold Simulator.pass Simulator.updateClock Simulator.propagateStates
  simp only [Simulator.modify, hp, List.foldl_cons, List.foldl_nil, ha, hf, if_true,
    Option.map_some', Bool.false_eq_true, if_false, hu1, hu2, Bool.not_false, Bool.and_self]
  split_ifs <;> simp [hp, ha, hf]


theorem Simulator.step_single (update : Module → Module) (k : Nat) (s : Simulator)
    (m : Module)
    (hpres : ∀ m, (update m).frozen = m.frozen ∧
      (update m).freeze_integration = m.freeze_integration)
    (hp : s.propagate.keys = [k]) (ha : s.accessor k = some m)
    (hf : m.frozen = false) (hfi : m.freeze_integration = false) :
    (s.step update k).accessor k =
      some (Module.propagateStates (RK4.updateClock (RK4.updateClock (RK4.updateClock s.stepper)))
        (update (Module.propagateStates (RK4.updateClock (RK4.updateClock s.stepper))
          (update (Module.propagateStates (RK4.updateClock s.stepper)
            (update (Module.propagateStates s.stepper (update m)))))))) ∧
    (s.step update k).stepper =
      RK4.updateClock (RK4.updateClock (RK4.updateClock (RK4.updateClock s.stepper))) ∧
    (s.step update k).propagate = s.propagate := by
  have fr : ∀ (st : Stepper) (m : Module), m.frozen = false → m.freeze_integration = false →
      (Module.propagateStates st (update m)).frozen = false ∧
      (Module.propagateStates st (update m)).freeze_integration = false := by
    intro st m h1 h2
    exact ⟨by simp [Module.propagateStates, (hpres m).1, h1],
      by simp [Module.propagateStates, (hpres m).2, h2]⟩
  have up : ∀ m : Module, m.frozen = false → m.freeze_integration = false →
      (update m).frozen = false ∧ (update m).freeze_integration = false := by
    intro m h1 h2
    exact ⟨by rw [(hpres m).1, h1], by rw [(hpres m).2, h2]⟩
  obtain ⟨a1, s1, p1⟩ := Simulator.pass_single update k s m hp ha hf (up m hf hfi).1 (up m hf hfi).2
  have f1 := fr s.stepper m hf hfi
  obtain ⟨a2, s2, p2⟩ := Simulator.pass_single update k _ _ (by rw [p1]; exact hp) a1 f1.1
    (up _ f1.1 f1.2).1 (up _ f1.1 f1.2).2
  have f2 := fr (s.pass update k).stepper _ f1.1 f1.2
  obtain ⟨a3, s3, p3⟩ := Simulator.pass_single update k _ _ (by rw [p2, p1]; exact hp) a2 f2.1
    (up _ f2.1 f2.2).1 (up _ f2.1 f2.2).2
  have f3 := fr ((s.pass update k).pass update k).stepper _ f2.1 f2.2
  obtain ⟨a4, s4, p4⟩ := Simulator.pass_single update k _ _
    (by rw [p3, p2, p1]; exact hp) a3 f3.1 (up _ f3.1 f3.2).1 (up _ f3.1 f3.2).2
  refine ⟨?_, ?_, ?_⟩
  · simp only [Simulator.step, Function.iterate_succ, Function.iterate_zero,
      Function.comp_apply, id_eq]
    rw [a4, s3, s2, s1]
  · simp only [Simulator.step, Function.iterate_succ, Function.iterate_zero,
      Function.comp_apply, id_eq]
    rw [s4, s3, s2, s1]
  · simp only [Simulator.step, Function.iterate_succ, Function.iterate_zero,
      Function.comp_apply, id_eq]
    rw [p4, p3, p2, p1]

theorem freeFallUpdate_flags (a : ℚ) (m : Module) :
    (freeFallUpdate a m).frozen = m.frozen ∧
    (freeFallUpdate a m).freeze_integration = m.freeze_integration := by
  unfold freeFallUpdate
  split <;> simp

theorem decayUpdate_flags (m : Module) :
    (decayUpdate m).frozen = m.frozen ∧
    (decayUpdate m).freeze_integration = m.freeze_integration := by
  unfold decayUpdate
  split <;> simp

theorem rk4_clock_passes (st : Stepper) (hk : st.kpass = 0) :
    (RK4.updateClock st).kpass = 1 ∧
    (RK4.updateClock (RK4.updateClock st)).kpass = 2 ∧
    (RK4.updateClock (RK4.updateClock (RK4.updateClock st))).kpass = 3 ∧
    (RK4.updateClock (RK4.updateClock (RK4.updateClock (RK4.updateClock st)))).kpass = 0 := by
  have k1 : (RK4.updateClock st).kpass = 1 := by rw [RK4.updateClock_kpass, hk]
  have k2 : (RK4.updateClock (RK4.updateClock st)).kpass = 2 := by
    rw [RK4.updateClock_kpass, k1]
  have k3 : (RK4.updateClock (RK4.updateClock (RK4.updateClock st))).kpass = 3 := by
    rw [RK4.updateClock_kpass, k2]
  exact ⟨k1, k2, k3, by rw [RK4.updateClock_kpass, k3]⟩

theorem decay_pass_states (st : Stepper) (m : Module) (x : RK4) (hs : m.states = [x]) :
    (Module.propagateStates st (decayUpdate m)).states = [RK4.supply st (-x.x) x] := by
  simp [Module.propagateStates, decayUpdate, hs, RK4.supply]

theorem freeFall_pass_states (a : ℚ) (st : Stepper) (m : Module) (y v : RK4)
    (hs : m.states = [y, v]) :
    (Module.propagateStates st (freeFallUpdate a m)).states
      = [RK4.supply st v.x y, RK4.supply st a v] := by
  simp [Module.propagateStates, freeFallUpdate, hs, RK4.supply]

/-- One RK4 step of the decay module `ẋ = −x`. -/
theorem decay_step (k : Nat) (s : Simulator) (m : Module) (x : RK4)
    (hp : s.propagate.keys = [k]) (ha : s.accessor k = some m)
    (hf : m.frozen = false) (hfi : m.freeze_integration = false)
    (hs : m.states = [x]) (hk : s.stepper.kpass = 0) :
    ∃ m' x', (s.step decayUpdate k).accessor k = some m' ∧ m'.states = [x'] ∧
      m'.frozen = false ∧ m'.freeze_integration = false ∧
      x'.x = x.x * (1 - s.stepper.dt + s.stepper.dt ^ 2 / 2 - s.stepper.dt ^ 3 / 6
        + s.stepper.dt ^ 4 / 24) ∧
      (s.step decayUpdate k).stepper.kpass = 0 ∧
      (s.step decayUpdate k).stepper.dt = s.stepper.dt ∧
      (s.step decayUpdate k).propagate = s.propagate := by
  obtain ⟨a4, s4, p4⟩ := Simulator.step_single decayUpdate k s m decayUpdate_flags hp ha hf hfi
  obtain ⟨k1, k2, k3, k4⟩ := rk4_clock_passes s.stepper hk
  have h1 := decay_pass_states s.stepper m x hs
  have h2 := decay_pass_states (RK4.updateClock s.stepper) _ _ h1
  have h3 := decay_pass_states (RK4.updateClock (RK4.updateClock s.stepper)) _ _ h2
  have h4 := decay_pass_states
    (RK4.updateClock (RK4.updateClock (RK4.updateClock s.stepper))) _ _ h3
  refine ⟨_, _, a4, h4, ?_, ?_, ?_, ?_, ?_, p4⟩
  · simp [Module.propagateStates, fun m => (decayUpdate_flags m).1, hf]
  · simp [Module.propagateStates, fun m => (decayUpdate_flags m).2, hfi]
  · simp only [RK4.supply, RK4.propagate_pass0 _ _ hk, RK4.propagate_pass1 _ _ k1,
      RK4.propagate_pass2 _ _ k2, RK4.propagate_pass3 _ _ k3, RK4.updateClock_dt]
    ring
  · rw [s4]; exact k4
  · rw [s4]; simp only [RK4.updateClock_dt]

/-- One RK4 step of the free-fall module `ẏ = v`, `v̇ = a`. -/
theorem freeFall_step (a : ℚ) (k : Nat) (s : Simulator) (m : Module) (y v : RK4)
    (hp : s.propagate.keys = [k]) (ha : s.accessor k = some m)
    (hf : m.frozen = false) (hfi : m.freeze_integration = false)
    (hs : m.states = [y, v]) (hk : s.stepper.kpass = 0) :
    ∃ m' y' v', (s.step (freeFallUpdate a) k).accessor k = some m' ∧ m'.states = [y', v'] ∧
      m'.frozen = false ∧ m'.freeze_integration = false ∧
      v'.x = v.x + a * s.stepper.dt ∧
      y'.x = y.x + v.x * s.stepper.dt + a * s.stepper.dt ^ 2 / 2 ∧
      (s.step (freeFallUpdate a) k).stepper.kpass = 0 ∧
      (s.step (freeFallUpdate a) k).stepper.dt = s.stepper.dt ∧
      (s.step (freeFallUpdate a) k).propagate = s.propagate := by
  obtain ⟨a4, s4, p4⟩ := Simulator.step_single (freeFallUpdate a) k s m
    (freeFallUpdate_flags a) hp ha hf hfi
  obtain ⟨k1, k2, k3, k4⟩ := rk4_clock_passes s.stepper hk
  have h1 := freeFall_pass_states a s.stepper m y v hs
  have h2 := freeFall_pass_states a (RK4.updateClock s.stepper) _ _ _ h1
  have h3 := freeFall_pass_states a (RK4.updateClock (RK4.updateClock s.stepper)) _ _ _ h2
  have h4 := freeFall_pass_states a
    (RK4.updateClock (RK4.updateClock (RK4.updateClock s.stepper))) _ _ _ h3
  refine ⟨_, _, _, a4, h4, ?_, ?_, ?_, ?_, ?_, ?_, p4⟩
  · simp [Module.propagateStates, fun m => (freeFallUpdate_flags a m).1, hf]
  · simp [Module.propagateStates, fun m => (freeFallUpdate_flags a m).2, hfi]
  · simp only [RK4.supply, RK4.propagate_pass0 _ _ hk, RK4.propagate_pass1 _ _ k1,
      RK4.propagate_pass2 _ _ k2, RK4.propagate_pass3 _ _ k3, RK4.updateClock_dt]
    ring
  · simp only [RK4.supply, RK4.propagate_pass0 _ _ hk, RK4.propagate_pass1 _ _ k1,
      RK4.propagate_pass2 _ _ k2, RK4.propagate_pass3 _ _ k3, RK4.updateClock_dt]
    ring
  · rw [s4]; exact k4
  · rw [s4]; simp only [RK4.updateClock_dt]

theorem decay_steps (k : Nat) (n : Nat) : ∀ (s : Simulator) (m : Module) (x : RK4),
    s.propagate.keys = [k] → s.accessor k = some m →
    m.frozen = false → m.freeze_integration = false →
    m.states = [x] → s.stepper.kpass = 0 →
    ∃ m' x', ((Simulator.step decayUpdate k)^[n] s).accessor k = some m' ∧ m'.states = [x'] ∧
      x'.x = x.x * (1 - s.stepper.dt + s.stepper.dt ^ 2 / 2 - s.stepper.dt ^ 3 / 6
        + s.stepper.dt ^ 4 / 24) ^ n := by
  induction n with
  | zero =>
    intro s m x _ ha _ _ hs _
    exact ⟨m, x, by simpa using ha, hs, by simp⟩
  | succ n ih =>
    intro s m x hp ha hf hfi hs hk
    obtain ⟨m1, x1, a1, hs1, hf1, hfi1, hx1, hk1, hdt1, hp1⟩ :=
      decay_step k s m x hp ha hf hfi hs hk
    obtain ⟨m2, x2, a2, hs2, hx2⟩ :=
      ih (s.step decayUpdate k) m1 x1 (by rw [hp1]; exact hp) a1 hf1 hfi1 hs1 hk1
    refine ⟨m2, x2, ?_, hs2, ?_⟩
    · rw [Function.iterate_succ_apply]; exact a2
    · rw [hx2, hx1, hdt1]; ring

theorem freeFall_steps (a : ℚ) (k : Nat) (n : Nat) : ∀ (s : Simulator) (m : Module) (y v : RK4),
    s.propagate.keys = [k] → s.accessor k = some m →
    m.frozen = false → m.freeze_integration = false →
    m.states = [y, v] → s.stepper.kpass = 0 →
    ∃ m' y' v', ((Simulator.step (freeFallUpdate a) k)^[n] s).accessor k = some m' ∧
      m'.states = [y', v'] ∧
      v'.x = v.x + a * (n * s.stepper.dt) ∧
      y'.x = y.x + v.x * (n * s.stepper.dt) + a * (n * s.stepper.dt) ^ 2 / 2 := by
  induction n with
  | zero =>
    intro s m y v _ ha _ _ hs _
    exact ⟨m, y, v, by simpa using ha, hs, by simp, by simp⟩
  | succ n ih =>
    intro s m y v hp ha hf hfi hs hk
    obtain ⟨m1, y1, v1, a1, hs1, hf1, hfi1, hv1, hy1, hk1, hdt1, hp1⟩ :=
      freeFall_step a k s m y v hp ha hf hfi hs hk
    obtain ⟨m2, y2, v2, a2, hs2, hv2, hy2⟩ :=
      ih (s.step (freeFallUpdate a) k) m1 y1 v1 (by rw [hp1]; exact hp) a1 hf1 hfi1 hs1 hk1
    refine ⟨m2, y2, v2, ?_, hs2, ?_, ?_⟩
    · rw [Function.iterate_succ_apply]; exact a2
    · rw [hv2, hv1, hdt1]; push_cast; ring
    · rw [hy2, hy1, hv1, hdt1]; push_cast; ring

theorem decay_factor_near_exp :
    |(((1 : ℚ) * (1 - 1 / 10 + (1 / 10) ^ 2 / 2 - (1 / 10) ^ 3 / 6 + (1 / 10) ^ 4 / 24) ^ 10 : ℚ) : ℝ)
      - Real.exp (-1)| < 1 / 100000 := by
  have lo := Real.exp_one_gt_d9
  have hi := Real.exp_one_lt_d9
  have hpos : (0 : ℝ) < Real.exp 1 := Real.exp_pos 1
  rw [Real.exp_neg, abs_lt]
  have h1 : (Real.exp 1)⁻¹ < 1 / 2.7182818283 := by
    rw [inv_eq_one_div]
    exact one_div_lt_one_div_of_lt (by norm_num) lo
  have h2 : 1 / 2.7182818286 < (Real.exp 1)⁻¹ := by
    rw [inv_eq_one_div]
    exact one_div_lt_one_div_of_lt hpos hi
  push_cast
  constructor
  · have : (1 : ℝ) / 2.7182818283 - 1 / 100000 <
        1 * (1 - 1 / 10 + (1 / 10) ^ 2 / 2 - (1 / 10) ^ 3 / 6 + (1 / 10) ^ 4 / 24) ^ 10 := by
      norm_num
    linarith
  · have : (1 : ℝ) * (1 - 1 / 10 + (1 / 10) ^ 2 / 2 - (1 / 10) ^ 3 / 6 + (1 / 10) ^ 4 / 24) ^ 10
        < 1 / 2.7182818286 + 1 / 100000 := by
      norm_num
    linarith

theorem decaySim_facts :
    decaySim.propagate.keys = [0] ∧
    decaySim.accessor 0 = some (Module.fresh [⟨1, 0, 0, 0, 0, 0, 0⟩] []) ∧
    decaySim.stepper.kpass = 0 ∧ decaySim.stepper.dt = 1 / 10 := by
  refine ⟨by decide, rfl, rfl, rfl⟩

theorem freeFallSim_facts :
    freeFallSim.propagate.keys = [0] ∧
    freeFallSim.accessor 0
      = some (Module.fresh [⟨0, 0, 0, 0, 0, 0, 0⟩, ⟨0, 0, 0, 0, 0, 0, 0⟩] []) ∧
    freeFallSim.stepper.kpass = 0 ∧ freeFallSim.stepper.dt = 1 / 100 := by
  refine ⟨by decide, rfl, rfl, rfl⟩

/-- C3: for the module `ẋ = −x`, one four-pass RK4 step of size `h = dt`
(the loop body `update(); propagateStates(); updateClock()` run four times from
`kpass = 0`) multiplies `x` by `1 − h + h²/2 − h³/6 + h⁴/24`; and ten steps
with `h = 0.1` from `x = 1` end within `1e-5` of `e⁻¹`. -/
theorem rk4_decay_step_factor :
    (∀ (k : Nat) (s : Simulator) (m : Module) (x : RK4),
      s.propagate.keys = [k] → s.accessor k = some m →
      m.frozen = false → m.freeze_integration = false →
      m.states = [x] → s.stepper.kpass = 0 →
      ∃ m' x', (s.step decayUpdate k).accessor k = some m' ∧ m'.states = [x'] ∧
        x'.x = x.x * (1 - s.stepper.dt + s.stepper.dt ^ 2 / 2 - s.stepper.dt ^ 3 / 6
          + s.stepper.dt ^ 4 / 24)) ∧
    (∃ m' x', ((Simulator.step decayUpdate 0)^[10] decaySim).accessor 0 = some m' ∧
      m'.states = [x'] ∧ |((x'.x : ℚ) : ℝ) - Real.exp (-1)| < 1 / 100000) := by
  constructor
  · intro k s m x hp ha hf hfi hs hk
    obtain ⟨m1, x1, a1, hs1, _, _, hx1, _⟩ := decay_step k s m x hp ha hf hfi hs hk
    exact ⟨m1, x1, a1, hs1, hx1⟩
  · obtain ⟨hp, ha, hk, hdt⟩ := decaySim_facts
    obtain ⟨m', x', a', hs', hx'⟩ := decay_steps 0 10 decaySim _ _ hp ha rfl rfl rfl hk
    refine ⟨m', x', a', hs', ?_⟩
    rw [hx', hdt]
    exact decay_factor_near_exp

theorem rk4_decay_step_factor_witness :
    ∃ m' x', (decaySim.step decayUpdate 0).accessor 0 = some m' ∧ m'.states = [x'] ∧
      x'.x = (1 : ℚ) * (1 - decaySim.stepper.dt + decaySim.stepper.dt ^ 2 / 2
        - decaySim.stepper.dt ^ 3 / 6 + decaySim.stepper.dt ^ 4 / 24) :=
  rk4_decay_step_factor.1 0 decaySim (Module.fresh [⟨1, 0, 0, 0, 0, 0, 0⟩] [])
    ⟨1, 0, 0, 0, 0, 0, 0⟩ decaySim_facts.1 decaySim_facts.2.1 rfl rfl rfl decaySim_facts.2.2.1

/-- C2: for a module with states `y` (derivative `v`) and `v` (constant
derivative `a`) whose `update()` hook refreshes both derivatives before every
pass, the four RK4 passes of one step of size `dt` give exactly
`v' = v + a·dt` and `y' = y + v·dt + a·dt²/2`; and with `a = −9.81`,
`dt = 0.01`, `y = v = 0`, one hundred steps end with `y` within `1e-6` of
`−4.905` and `v` within `1e-9` of `−9.81`. -/
theorem rk4_free_fall_exact :
    (∀ (a : ℚ) (k : Nat) (s : Simulator) (m : Module) (y v : RK4),
      s.propagate.keys = [k] → s.accessor k = some m →
      m.frozen = false → m.freeze_integration = false →
      m.states = [y, v] → s.stepper.kpass = 0 →
      ∃ m' y' v', (s.step (freeFallUpdate a) k).accessor k = some m' ∧
        m'.states = [y', v'] ∧
        v'.x = v.x + a * s.stepper.dt ∧
        y'.x = y.x + v.x * s.stepper.dt + a * s.stepper.dt ^ 2 / 2) ∧
    (∃ m' y' v',
      ((Simulator.step (freeFallUpdate (-981 / 100)) 0)^[100] freeFallSim).accessor 0 = some m' ∧
      m'.states = [y', v'] ∧
      |y'.x - (-4905 / 1000)| ≤ 1 / 1000000 ∧ |v'.x - (-981 / 100)| ≤ 1 / 1000000000) := by
  constructor
  · intro a k s m y v hp ha hf hfi hs hk
    obtain ⟨m1, y1, v1, a1, hs1, _, _, hv1, hy1, _⟩ :=
      freeFall_step a k s m y v hp ha hf hfi hs hk
    exact ⟨m1, y1, v1, a1, hs1, hv1, hy1⟩
  · obtain ⟨hp, ha, hk, hdt⟩ := freeFallSim_facts
    obtain ⟨m', y', v', a', hs', hv', hy'⟩ :=
      freeFall_steps (-981 / 100) 0 100 freeFallSim _ _ _ hp ha rfl rfl rfl hk
    refine ⟨m', y', v', a', hs', ?_, ?_⟩
    · rw [hy', hdt]; norm_num
    · rw [hv', hdt]; norm_num

theorem rk4_free_fall_exact_witness :
    ∃ m' y' v', (freeFallSim.step (freeFallUpdate (-981 / 100)) 0).accessor 0 = some m' ∧
      m'.states = [y', v'] ∧
      v'.x = (0 : ℚ) + -981 / 100 * freeFallSim.stepper.dt ∧
      y'.x = (0 : ℚ) + 0 * freeFallSim.stepper.dt
        + -981 / 100 * freeFallSim.stepper.dt ^ 2 / 2 :=
  rk4_free_fall_exact.1 (-981 / 100) 0 freeFallSim
    (Module.fresh [⟨0, 0, 0, 0, 0, 0, 0⟩, ⟨0, 0, 0, 0, 0, 0, 0⟩] [])
    ⟨0, 0, 0, 0, 0, 0, 0⟩ ⟨0, 0, 0, 0, 0, 0, 0⟩ freeFallSim_facts.1 freeFallSim_facts.2.1
    rfl rfl rfl freeFallSim_facts.2.2.1


/-! ### The clock invariant -/

theorem Simulator.event_fst (te : ℚ) (s : Simulator) :
    (s.event te).1 =
      if s.stepper.kpass = 0 then
        { s with stepper := { s.stepper with
            t1 := if te < s.stepper.t1 - s.stepper.EPS ∧ te ≥ s.stepper.t + s.stepper.EPS
              then te else s.stepper.t1,
            dt := (if te < s.stepper.t1 - s.stepper.EPS ∧ te ≥ s.stepper.t + s.stepper.EPS
              then te else s.stepper.t1) - s.stepper.t } }
      else s := by
  unfold Simulator.event Simulator.sample
  by_cases hk : s.stepper.kpass = 0
  · by_cases hc : te < s.stepper.t1 - s.stepper.EPS ∧ te ≥ s.stepper.t + s.stepper.EPS
    · simp only [hk, hc, if_true, and_self, Bool.not_true, Bool.false_eq_true, if_false]
      split_ifs <;> rfl
    · simp only [hk, hc, if_true, if_false, Bool.not_true, Bool.false_eq_true]
      split_ifs <;> rfl
  · simp [hk]

theorem mutual_run_first_diverges (h : Hooks) (fuel : Nat) :
    ∀ s : Simulator, s.accessor 0 = some (Module.fresh [] [1]) →
      s.accessor 1 = some (Module.fresh [] [0]) →
      callPhase h Phase.update fuel s 0 = none ∧ callPhase h Phase.update fuel s 1 = none := by
  induction fuel with
  | zero => intro s _ _; exact ⟨rfl, rfl⟩
  | succ n ih =>
    intro s h0 h1
    obtain ⟨i0, i1⟩ := ih s h0 h1
    constructor
    · show callBody h Phase.update (callPhase h Phase.update n) s 0 = none
      simp [callBody, h0, h1, Module.fresh, Module.run, Module.called, Phase.usesRunFirst,
        runFirstLoop, i1]
    · show callBody h Phase.update (callPhase h Phase.update n) s 1 = none
      simp [callBody, h0, h1, Module.fresh, Module.run, Module.called, Phase.usesRunFirst,
        runFirstLoop, i0]

/-- C9 (the code at the failing input): with two modules that list each other
in `run_first` and all flags clear, `callUpdate()` on either module and
`Simulator::update()` do not return, whatever the bound on the nesting depth
and whatever the hooks do: each call recurses into the other before any
`update_called` is set, so the circular-dependency branch is never reached. -/
theorem mutual_run_first_update_never_returns (h : Hooks) (fuel : Nat) :
    Module.callUpdate h fuel cycleSim 0 = none ∧
    Module.callUpdate h fuel cycleSim 1 = none ∧
    Simulator.update h fuel cycleSim = none := by
  refine ⟨(mutual_run_first_diverges h fuel cycleSim rfl rfl).1,
    (mutual_run_first_diverges h fuel cycleSim rfl rfl).2, ?_⟩
  have := (mutual_run_first_diverges h fuel { cycleSim with phase := Phase.update } rfl rfl).1
  have hk : ({ cycleSim with phase := Phase.update } : Simulator).updates.keys = [0, 1] := by
    decide
  simp only [Simulator.update, Simulator.runPhase, Simulator.phaseMap, hk, phaseLoop, this]

/-! ### Basic facts about flags and registry writes -/

theorem Module.setRun_run (p : Phase) (hp : p ≠ Phase.setup ∧ p ≠ Phase.tracker) (b : Bool)
    (m : Module) : (Module.setRun p b m).run p = b := by
  cases p <;> simp_all [Module.setRun, Module.run]

theorem Module.setRun_called (p q : Phase) (b : Bool) (m : Module) :
    (Module.setRun p b m).called q = m.called q := by
  cases p <;> cases q <;> rfl

theorem Module.setCalled_called (p : Phase) (hp : p ≠ Phase.setup ∧ p ≠ Phase.tracker)
    (b : Bool) (m : Module) : (Module.setCalled p b m).called p = b := by
  cases p <;> simp_all [Module.setCalled, Module.called]

theorem Module.setCalled_run (p q : Phase) (b : Bool) (m : Module) :
    (Module.setCalled p b m).run q = m.run q := by
  cases p <;> cases q <;> rfl

theorem Module.setRun_frozen (p : Phase) (b : Bool) (m : Module) :
    (Module.setRun p b m).frozen = m.frozen := by
  cases p <;> rfl

theorem Module.setCalled_frozen (p : Phase) (b : Bool) (m : Module) :
    (Module.setCalled p b m).frozen = m.frozen := by
  cases p <;> rfl

theorem Module.setRun_run_first (p : Phase) (b : Bool) (m : Module) :
    (Module.setRun p b m).run_first = m.run_first := by
  cases p <;> rfl

theorem Module.setCalled_run_first (p : Phase) (b : Bool) (m : Module) :
    (Module.setCalled p b m).run_first = m.run_first := by
  cases p <;> rfl

theorem Phase.usesRunFirst_cases (p : Phase) (h : p.usesRunFirst = true) :
    p = Phase.update ∨ p = Phase.postcalc := by
  cases p <;> simp_all [Phase.usesRunFirst]

theorem Phase.usesRunFirst_lifecycle (p : Phase) (h : p.usesRunFirst = true) :
    (p ≠ Phase.setup ∧ p ≠ Phase.tracker) ∧ p ≠ Phase.init := by
  cases p <;> simp_all [Phase.usesRunFirst]

theorem Simulator.modify_accessor_self (i : Nat) (f : Module → Module) (s : Simulator) :
    (s.modify i f).accessor i = (s.accessor i).map f := by
  simp [Simulator.modify]

theorem Simulator.modify_accessor_ne (i k : Nat) (f : Module → Module) (s : Simulator)
    (h : k ≠ i) : (s.modify i f).accessor k = s.accessor k := by
  simp [Simulator.modify, h]

theorem Simulator.modify_phaseMap (i : Nat) (f : Module → Module) (s : Simulator) (p : Phase) :
    (s.modify i f).phaseMap p = s.phaseMap p := by
  cases p <;> rfl


/-! ### The module loop with plain hooks and an acyclic `run_first` -/

theorem plainHooks_calls (p : Phase) (i : Nat) : plainHooks.calls p i = [] := rfl

theorem SchedInv.hook_stage (p : Phase) (hp : p.usesRunFirst = true) (rf : Nat → List Nat)
    (K : List Nat) (base : List (Phase × Nat)) (ev : List Nat) (s : Simulator) (i : Nat)
    (hinv : SchedInv p rf K base ev s) (hK : i ∈ K) (hi : i ∉ ev)
    (hdeps : ∀ b ∈ rf i, b ∈ ev) (hself : i ∉ rf i) :
    SchedInv p rf K base (ev ++ [i])
      ((((s.modify i (Module.setCalled p true)).logHook p i).modify i
            (Module.setRun p true)).modify i (Module.setCalled p false)) := by
  obtain ⟨hlife, _⟩ := Phase.usesRunFirst_lifecycle p hp
  refine ⟨?_, ?_, ?_, ?_, ?_, ?_, ?_, ?_⟩
  · show s.hooklog ++ [(p, i)] = base ++ (ev ++ [i]).map (fun k => (p, k))
    rw [hinv.log]; simp
  · intro k m hk
    by_cases hki : k = i
    · subst hki
      obtain ⟨m0, hm0⟩ := hinv.alive k hK
      obtain ⟨f0, c0, r0, _⟩ := hinv.mods k m0 hm0
      have : m = Module.setCalled p false (Module.setRun p true (Module.setCalled p true m0)) := by
        simp only [Simulator.modify, Simulator.logHook, if_true, hm0, Option.map_some',
          Option.some.injEq] at hk
        exact hk.symm
      subst this
      refine ⟨?_, ?_, ?_, ?_⟩
      · rw [Module.setCalled_frozen, Module.setRun_frozen, Module.setCalled_frozen, f0]
      · rw [Module.setCalled_called p hlife]
      · rw [Module.setCalled_run_first, Module.setRun_run_first, Module.setCalled_run_first, r0]
      · rw [Module.setCalled_run, Module.setRun_run p hlife]; simp
    · have : s.accessor k = some m := by
        simpa [Simulator.modify, Simulator.logHook, hki] using hk
      obtain ⟨f0, c0, r0, q0⟩ := hinv.mods k m this
      refine ⟨f0, c0, r0, ?_⟩
      rw [q0, List.mem_append, List.mem_singleton]
      constructor
      · exact Or.inl
      · rintro (h | h)
        · exact h
        · exact absurd h hki
  · intro k hk
    obtain ⟨m0, hm0⟩ := hinv.alive k hk
    by_cases hki : k = i
    · subst hki
      exact ⟨Module.setCalled p false (Module.setRun p true (Module.setCalled p true m0)),
        by simp [Simulator.modify, Simulator.logHook, hm0]⟩
    · exact ⟨m0, by simpa [Simulator.modify, Simulator.logHook, hki] using hm0⟩
  · intro k hk
    rw [List.mem_append, List.mem_singleton] at hk
    rcases hk with hk | hk
    · exact hinv.sub k hk
    · rw [hk]; exact hK
  · rw [List.nodup_append]
    refine ⟨hinv.nodup, List.nodup_singleton i, ?_⟩
    intro a ha hb
    rw [List.mem_singleton] at hb
    exact hi (hb ▸ ha)
  · intro a ha b hb
    rw [List.mem_append, List.mem_singleton] at ha
    rw [List.mem_append]
    rcases ha with ha | ha
    · exact Or.inl (hinv.closed a ha b hb)
    · rw [ha] at hb; exact Or.inl (hdeps b hb)
  · rw [List.pairwise_append]
    refine ⟨hinv.order, List.pairwise_singleton _ _, ?_⟩
    intro x hx y hy
    rw [List.mem_singleton] at hy
    rw [hy]
    intro hmem
    exact hi (hinv.closed x hx i hmem)
  · exact hinv.noerr

theorem runFirstLoop_spec (p : Phase) (rf : Nat → List Nat) (K : List Nat)
    (base : List (Phase × Nat)) (rank : Nat → Nat) (n i : Nat)
    (ih : ∀ (s : Simulator) (ev : List Nat) (j : Nat), SchedInv p rf K base ev s → j ∈ K →
      rank j < n → ∃ s' ev', callPhase plainHooks p n s j = some s' ∧
        SchedInv p rf K base (ev ++ ev') s' ∧ j ∈ ev ++ ev' ∧
        (∀ k ∈ ev', rank k ≤ rank j) ∧ s'.phaseMap p = s.phaseMap p) :
    ∀ (js : List Nat) (s : Simulator) (ev : List Nat) (now : Bool),
      SchedInv p rf K base ev s → (∀ j ∈ js, j ∈ K ∧ rank j < rank i) → rank i ≤ n →
      ∃ s' ev', runFirstLoop (callPhase plainHooks p n) p i js s now = some (s', now) ∧
        SchedInv p rf K base (ev ++ ev') s' ∧ (∀ j ∈ js, j ∈ ev ++ ev') ∧
        (∀ k ∈ ev', rank k < rank i) ∧ s'.phaseMap p = s.phaseMap p := by
  intro js
  induction js with
  | nil =>
    intro s ev now hinv _ _
    exact ⟨s, [], rfl, by simpa using hinv, by simp, by simp, rfl⟩
  | cons j js ihjs =>
    intro s ev now hinv hjs hn
    obtain ⟨hjK, hjr⟩ := hjs j (List.mem_cons_self _ _)
    have hjs' : ∀ x ∈ js, x ∈ K ∧ rank x < rank i :=
      fun x hx => hjs x (List.mem_cons_of_mem _ hx)
    obtain ⟨mj, hmj⟩ := hinv.alive j hjK
    obtain ⟨_, cj, _, qj⟩ := hinv.mods j mj hmj
    by_cases hr : mj.run p = true
    · obtain ⟨s', ev', e, hinv', hmem, hrk, hmap⟩ := ihjs s ev now hinv hjs' hn
      refine ⟨s', ev', ?_, hinv', ?_, hrk, hmap⟩
      · simp only [runFirstLoop, hmj, cj, hr, Bool.false_eq_true, if_false, Bool.not_true]
        exact e
      · intro x hx
        rw [List.mem_cons] at hx
        rcases hx with hx | hx
        · rw [hx, List.mem_append]; exact Or.inl (qj.mp hr)
        · exact hmem x hx
    · obtain ⟨s1, ev1, hc, hinv1, hj1, hrk1, hmap1⟩ :=
        ih s ev j hinv hjK (lt_of_lt_of_le hjr hn)
      obtain ⟨mj1, hmj1⟩ := hinv1.alive j hjK
      have hr1 : mj1.run p = true := (hinv1.mods j mj1 hmj1).2.2.2.mpr hj1
      obtain ⟨s', ev', e, hinv', hmem, hrk, hmap⟩ := ihjs s1 (ev ++ ev1) now hinv1 hjs' hn
      refine ⟨s', ev1 ++ ev', ?_, ?_, ?_, ?_, hmap.trans hmap1⟩
      · have hrf : mj.run p = false := by simpa using hr
        simp only [runFirstLoop, hmj, cj, hrf, Bool.false_eq_true, if_false, Bool.not_false,
          if_true, hc, hmj1, hr1, Bool.not_true]
        exact e
      · rw [← List.append_assoc]; exact hinv'
      · intro x hx
        rw [← List.append_assoc]
        rw [List.mem_cons] at hx
        rcases hx with hx | hx
        · rw [hx, List.mem_append]; exact Or.inl hj1
        · exact hmem x hx
      · intro k hk
        rw [List.mem_append] at hk
        rcases hk with hk | hk
        · exact lt_of_le_of_lt (hrk1 k hk) hjr
        · exact hrk k hk

theorem callPhase_spec (p : Phase) (hp : p.usesRunFirst = true) (rf : Nat → List Nat)
    (K : List Nat) (base : List (Phase × Nat)) (rank : Nat → Nat)
    (hrf : ∀ k, ∀ j ∈ rf k, j ∈ K ∧ rank j < rank k) :
    ∀ (n : Nat) (s : Simulator) (ev : List Nat) (i : Nat), SchedInv p rf K base ev s → i ∈ K →
      rank i < n → ∃ s' ev', callPhase plainHooks p n s i = some s' ∧
        SchedInv p rf K base (ev ++ ev') s' ∧ i ∈ ev ++ ev' ∧
        (∀ k ∈ ev', rank k ≤ rank i) ∧ s'.phaseMap p = s.phaseMap p := by
  intro n
  induction n with
  | zero => intro s ev i _ _ h; exact absurd h (Nat.not_lt_zero _)
  | succ n ih =>
    intro s ev i hinv hK hn
    obtain ⟨hlife, hinit⟩ := Phase.usesRunFirst_lifecycle p hp
    obtain ⟨m, hm⟩ := hinv.alive i hK
    obtain ⟨fm, cm, rm, qm⟩ := hinv.mods i m hm
    by_cases hr : m.run p = true
    · refine ⟨s, [], ?_, by simpa using hinv, by simpa using qm.mp hr, by simp, rfl⟩
      show callBody plainHooks p (callPhase plainHooks p n) s i = some s
      simp only [callBody, hm, hr, if_true]
    · have hrf' : m.run p = false := by simpa using hr
      have hi0 : i ∉ ev := fun h => hr (qm.mpr h)
      obtain ⟨s1, ev1, hloop, hinv1, hdeps, hrk1, hmap1⟩ :=
        runFirstLoop_spec p rf K base rank n i ih (rf i) s ev true hinv (hrf i)
          (Nat.lt_succ_iff.mp hn)
      obtain ⟨m1, hm1⟩ := hinv1.alive i hK
      obtain ⟨fm1, cm1, _, _⟩ := hinv1.mods i m1 hm1
      have hi1 : i ∉ ev ++ ev1 := by
        rw [List.mem_append]
        rintro (h | h)
        · exact hi0 h
        · exact absurd (hrk1 i h) (lt_irrefl _)
      have hself : i ∉ rf i := fun h => absurd (hrf i i h).2 (lt_irrefl _)
      have hfin := SchedInv.hook_stage p hp rf K base (ev ++ ev1) s1 i hinv1 hK hi1
        (fun b hb => hdeps b hb) hself
      refine ⟨(((s1.modify i (Module.setCalled p true)).logHook p i).modify i
            (Module.setRun p true)).modify i (Module.setCalled p false),
          ev1 ++ [i], ?_, ?_, ?_, ?_, ?_⟩
      · show callBody plainHooks p (callPhase plainHooks p n) s i = some _
        simp only [callBody, callTail, hm, hrf', Bool.false_eq_true, if_false, hp, if_true, rm,
          hloop, hm1, cm1, fm1, Bool.not_false, runHook, plainHooks_calls, callSeq, hinit,
          finishCall]
      · rw [← List.append_assoc]; exact hfin
      · simp
      · intro k hk
        rw [List.mem_append, List.mem_singleton] at hk
        rcases hk with hk | hk
        · exact le_of_lt (hrk1 k hk)
        · rw [hk]
      · rw [Simulator.modify_phaseMap, Simulator.modify_phaseMap]
        rw [← hmap1]
        cases p <;> rfl

theorem phaseLoop_spec (p : Phase) (hp : p.usesRunFirst = true) (rf : Nat → List Nat)
    (K : List Nat) (base : List (Phase × Nat)) (rank : Nat → Nat) (fuel : Nat)
    (hrf : ∀ k, ∀ j ∈ rf k, j ∈ K ∧ rank j < rank k) :
    ∀ (ks : List Nat) (s : Simulator) (ev : List Nat), SchedInv p rf K base ev s →
      (∀ k ∈ ks, k ∈ K ∧ rank k < fuel) →
      ∃ s' ev', phaseLoop (callPhase plainHooks p fuel) ks s = some s' ∧
        SchedInv p rf K base (ev ++ ev') s' ∧ (∀ k ∈ ks, k ∈ ev ++ ev') ∧
        s'.phaseMap p = s.phaseMap p := by
  intro ks
  induction ks with
  | nil =>
    intro s ev hinv _
    exact ⟨s, [], rfl, by simpa using hinv, by simp, rfl⟩
  | cons k ks ih =>
    intro s ev hinv hks
    obtain ⟨hkK, hkr⟩ := hks k (List.mem_cons_self _ _)
    obtain ⟨s1, ev1, hc, hinv1, hk1, _, hmap1⟩ :=
      callPhase_spec p hp rf K base rank hrf fuel s ev k hinv hkK hkr
    obtain ⟨s', ev', e, hinv', hmem, hmap⟩ :=
      ih s1 (ev ++ ev1) hinv1 (fun x hx => hks x (List.mem_cons_of_mem _ hx))
    refine ⟨s', ev1 ++ ev', ?_, ?_, ?_, hmap.trans hmap1⟩
    · simp only [phaseLoop, hc, hinv1.noerr, Bool.false_eq_true, if_false]
      exact e
    · rw [← List.append_assoc]; exact hinv'
    · intro x hx
      rw [← List.append_assoc]
      rw [List.mem_cons] at hx
      rcases hx with hx | hx
      · rw [hx, List.mem_append]; exact Or.inl hk1
      · exact hmem x hx

theorem Module.setRun_idem (p : Phase) (b : Bool) (m : Module) :
    Module.setRun p b (Module.setRun p b m) = Module.setRun p b m := by
  cases p <;> rfl

theorem resetFold_accessor (p : Phase) : ∀ (ks : List Nat) (s : Simulator) (k : Nat),
    (ks.foldl (fun s k => s.modify k (Module.setRun p false)) s).accessor k =
      if k ∈ ks then (s.accessor k).map (Module.setRun p false) else s.accessor k := by
  intro ks
  induction ks with
  | nil => intro s k; simp
  | cons a ks ih =>
    intro s k
    rw [List.foldl_cons, ih]
    by_cases hka : k = a
    · subst hka
      rw [Simulator.modify_accessor_self]
      by_cases hk : k ∈ ks
      · cases hs : s.accessor k <;> simp [hk, Module.setRun_idem]
      · simp [hk]
    · rw [Simulator.modify_accessor_ne _ _ _ _ hka]
      simp [hka]

theorem resetFold_frame (p : Phase) : ∀ (ks : List Nat) (s : Simulator),
    (ks.foldl (fun s k => s.modify k (Module.setRun p false)) s).hooklog = s.hooklog ∧
    (ks.foldl (fun s k => s.modify k (Module.setRun p false)) s).error = s.error ∧
    (ks.foldl (fun s k => s.modify k (Module.setRun p false)) s).phaseMap p = s.phaseMap p := by
  intro ks
  induction ks with
  | nil => intro s; exact ⟨rfl, rfl, rfl⟩
  | cons a ks ih =>
    intro s
    rw [List.foldl_cons]
    obtain ⟨h1, h2, h3⟩ := ih (s.modify a (Module.setRun p false))
    exact ⟨h1, h2, h3.trans (Simulator.modify_phaseMap _ _ _ _)⟩

theorem DynamicMap.erase_of_staged_nil (d : DynamicMap) (h : d.staged = []) : d.erase = d := by
  cases d with
  | mk keys staged de =>
    simp only at h
    subst h
    simp [DynamicMap.erase]

theorem Simulator.setPhaseMap_self (p : Phase) (s : Simulator) :
    s.setPhaseMap p (s.phaseMap p) = s := by
  cases p <;> rfl

theorem before_of_order (rf : Nat → List Nat) (ev : List Nat) (a b : Nat)
    (hord : ev.Pairwise (fun x y => y ∉ rf x)) (ha : a ∈ ev) (hb : b ∈ ev)
    (hab : b ∈ rf a) (hne : b ≠ a) :
    ∃ l1 l2 l3, ev = l1 ++ b :: l2 ++ a :: l3 := by
  obtain ⟨l, r, hlr⟩ := List.append_of_mem ha
  rw [hlr] at hb hord
  rw [List.mem_append, List.mem_cons] at hb
  rcases hb with hb | hb | hb
  · obtain ⟨l1, l2, hl⟩ := List.append_of_mem hb
    exact ⟨l1, l2, r, by rw [hlr, hl]⟩
  · exact absurd hb hne
  · have := (List.pairwise_append.mp hord).2.1
    rw [List.pairwise_cons] at this
    exact absurd hab (this.1 b hb)

/-- The module loop of an update or postcalc phase from a ready state, with
plain hooks: it returns, every registered module's hook runs exactly once,
each after the hooks of its `run_first` modules, and the state is ready for
the next invocation. -/
theorem runPhase_spec (p : Phase) (hp : p.usesRunFirst = true) (rank : Nat → Nat)
    (s : Simulator) (fuel : Nat) (hs : PhaseReady p rank s)
    (hfuel : ∀ k ∈ (s.phaseMap p).keys, rank k < fuel) :
    ∃ s' ev, Simulator.runPhase plainHooks p fuel s = some s' ∧
      s'.hooklog = s.hooklog ++ ev.map (fun k => (p, k)) ∧
      ev.Perm (s.phaseMap p).keys ∧
      (∀ k ∈ (s.phaseMap p).keys, ev.count k = 1) ∧
      (∀ a ∈ (s.phaseMap p).keys, ∀ ma, s.accessor a = some ma → ∀ b ∈ ma.run_first,
        ∃ l1 l2 l3, ev = l1 ++ b :: l2 ++ a :: l3) ∧
      PhaseReady p rank s' ∧ s'.phaseMap p = s.phaseMap p := by
  obtain ⟨hlife, hinit⟩ := Phase.usesRunFirst_lifecycle p hp
  have hmap0 : ({ s with phase := p } : Simulator).phaseMap p = s.phaseMap p := by
    cases p <;> rfl
  have hrf : ∀ k, ∀ j ∈ ((s.accessor k).map Module.run_first).getD [],
      j ∈ (s.phaseMap p).keys ∧ rank j < rank k := by
    intro k j hj
    cases hk : s.accessor k with
    | none => simp [hk] at hj
    | some m =>
      simp only [hk, Option.map_some', Option.getD_some] at hj
      exact (hs.mods k m hk).2.2.2 j hj
  have hinv0 : SchedInv p (fun k => ((s.accessor k).map Module.run_first).getD [])
      (s.phaseMap p).keys s.hooklog [] { s with phase := p } := by
    refine ⟨by simp, ?_, hs.alive, by simp, List.nodup_nil, by simp, List.Pairwise.nil,
      hs.noerr⟩
    intro k m hk
    have hk' : s.accessor k = some m := hk
    obtain ⟨f, c, r, _⟩ := hs.mods k m hk'
    refine ⟨f, c, by simp [hk'], by simp [r]⟩
  obtain ⟨s1, ev, hloop, hinv1, hmem, hmap1⟩ :=
    phaseLoop_spec p hp _ (s.phaseMap p).keys s.hooklog rank fuel hrf (s.phaseMap p).keys
      { s with phase := p } [] hinv0 (fun k hk => ⟨hk, hfuel k hk⟩)
  rw [List.nil_append] at hinv1
  simp only [List.nil_append] at hmem
  have hmapS : s1.phaseMap p = s.phaseMap p := hmap1.trans hmap0
  have hperm : ev.Perm (s.phaseMap p).keys :=
    (List.perm_ext_iff_of_nodup hinv1.nodup hs.nodup).mpr
      (fun a => ⟨hinv1.sub a, hmem a⟩)
  obtain ⟨fl, fe, fm⟩ := resetFold_frame p (s.phaseMap p).keys s1
  refine ⟨(s.phaseMap p).keys.foldl (fun s k => s.modify k (Module.setRun p false)) s1, ev,
    ?_, ?_, hperm, ?_, ?_, ?_, ?_⟩
  · simp only [Simulator.runPhase, hmap0, hloop, hmapS,
      DynamicMap.erase_of_staged_nil _ hs.staged, hinit, if_false]
    rw [← hmapS, Simulator.setPhaseMap_self, hmapS]
  · rw [fl, hinv1.log]
  · intro k hk
    rw [hperm.count_eq]
    exact List.count_eq_one_of_mem hs.nodup hk
  · intro a ha ma hma b hb
    have hb' : b ∈ ((s.accessor a).map Module.run_first).getD [] := by simpa [hma] using hb
    have hne : b ≠ a := fun h => by
      have := (hrf a b hb').2
      rw [h] at this
      exact lt_irrefl _ this
    exact before_of_order _ ev a b hinv1.order (hmem a ha)
      (hinv1.closed a (hmem a ha) b hb') hb' hne
  · refine ⟨by rw [fm, hmapS]; exact hs.nodup, by rw [fm, hmapS]; exact hs.staged,
      by rw [fe]; exact hinv1.noerr, ?_, ?_⟩
    · intro k hk
      rw [fm, hmapS] at hk
      obtain ⟨m1, hm1⟩ := hinv1.alive k hk
      exact ⟨Module.setRun p false m1, by rw [resetFold_accessor, if_pos hk, hm1]; rfl⟩
    · intro k m hk
      rw [resetFold_accessor] at hk
      rw [fm, hmapS]
      by_cases hkK : k ∈ (s.phaseMap p).keys
      · rw [if_pos hkK] at hk
        obtain ⟨m1, hm1⟩ := hinv1.alive k hkK
        rw [hm1] at hk
        simp only [Option.map_some', Option.some.injEq] at hk
        subst hk
        obtain ⟨f, c, r, _⟩ := hinv1.mods k m1 hm1
        refine ⟨by rw [Module.setRun_frozen, f], by rw [Module.setRun_called, c],
          Module.setRun_run p hlife false m1, ?_⟩
        intro j hj
        rw [Module.setRun_run_first, r] at hj
        exact hrf k j hj
      · rw [if_neg hkK] at hk
        obtain ⟨f, c, r, q⟩ := hinv1.mods k m hk
        refine ⟨f, c, ?_, ?_⟩
        · by_contra hrun
          have : m.run p = true := by simpa using hrun
          exact hkK (hinv1.sub k (q.mp this))
        · intro j hj
          rw [r] at hj
          exact hrf k j hj
  · rw [fm, hmapS]

theorem callSeq_exec (p : Phase) (call : Simulator → Nat → Option Simulator)
    (hcall : ∀ s j s', call s j = some s' → Exec p s s') :
    ∀ (js : List Nat) (s s' : Simulator), callSeq call js s = some s' → Exec p s s' := by
  intro js
  induction js with
  | nil =>
    intro s s' h
    simp only [callSeq, Option.some.injEq] at h
    rw [← h]; exact Exec.refl s
  | cons j js ih =>
    intro s s' h
    simp only [callSeq] at h
    cases hc : call s j with
    | none => simp [hc] at h
    | some s1 =>
      simp only [hc] at h
      exact Exec.trans (hcall s j s1 hc) (ih s1 s' h)

theorem runFirstLoop_exec (p : Phase) (call : Simulator → Nat → Option Simulator) (i : Nat)
    (hcall : ∀ s j s', call s j = some s' → Exec p s s') :
    ∀ (js : List Nat) (s : Simulator) (now : Bool) (s' : Simulator) (now' : Bool),
      runFirstLoop call p i js s now = some (s', now') → Exec p s s' := by
  intro js
  induction js with
  | nil =>
    intro s now s' now' h
    simp only [runFirstLoop, Option.some.injEq, Prod.mk.injEq] at h
    rw [← h.1]; exact Exec.refl s
  | cons j js ih =>
    intro s now s' now' h
    simp only [runFirstLoop] at h
    cases hj : s.accessor j with
    | none =>
      simp only [hj] at h
      exact Exec.trans (Exec.eraseDead s i j hj) (ih _ _ _ _ h)
    | some ptr =>
      simp only [hj] at h
      by_cases hc : ptr.called p = true
      · simp only [hc, if_true] at h
        exact ih _ _ _ _ h
      · have hc' : ptr.called p = false := by simpa using hc
        by_cases hr : ptr.run p = true
        · simp only [hc', hr, if_false, Bool.not_true, Bool.false_eq_true] at h
          exact ih _ _ _ _ h
        · have hr' : ptr.run p = false := by simpa using hr
          simp only [hc', hr', if_false, Bool.not_false, if_true, Bool.false_eq_true] at h
          cases hcall' : call s j with
          | none => simp [hcall'] at h
          | some s1 =>
            simp only [hcall'] at h
            have e1 := hcall s j s1 hcall'
            cases hj1 : s1.accessor j with
            | none =>
              simp only [hj1] at h
              exact Exec.trans e1 (ih _ _ _ _ h)
            | some ptr' =>
              simp only [hj1] at h
              by_cases hr1 : ptr'.run p = true
              · simp only [hr1, Bool.not_true, Bool.false_eq_true, if_false] at h
                exact Exec.trans e1 (ih _ _ _ _ h)
              · have hr1' : ptr'.run p = false := by simpa using hr1
                simp only [hr1', Bool.not_false, if_true] at h
                exact Exec.trans e1 (ih _ _ _ _ h)

theorem callTail_exec (h : Hooks) (p : Phase) (call : Simulator → Nat → Option Simulator)
    (hcall : ∀ s j s', call s j = some s' → Exec p s s') (s : Simulator) (i : Nat)
    (now : Bool) (s' : Simulator)
    (hrun : p.usesRunFirst = false → ∀ m, s.accessor i = some m → m.run p = false)
    (heq : callTail h p call s i now = some s') : Exec p s s' := by
  unfold callTail at heq
  by_cases hnow : now = true
  · simp only [hnow, if_true] at heq
    cases hacc1 : s.accessor i with
    | none =>
      simp only [hacc1, Option.some.injEq] at heq
      rw [← heq]; exact Exec.refl s
    | some m1 =>
      simp only [hacc1] at heq
      by_cases hc : m1.called p = true
      · simp only [hc, if_true, Option.some.injEq] at heq
        rw [← heq]
        exact Exec.circular s i m1 hacc1 hc
      · have hc' : m1.called p = false := by simpa using hc
        simp only [hc', Bool.false_eq_true, if_false] at heq
        by_cases hf : m1.frozen = true
        · simp only [hf, Bool.not_true, Bool.false_eq_true, if_false,
            Option.some.injEq] at heq
          rw [← heq]
          exact Exec.frozen s i m1 hacc1 hc' hf (fun hu => hrun hu m1 hacc1)
        · have hf' : m1.frozen = false := by simpa using hf
          simp only [hf', Bool.not_false, if_true] at heq
          cases hh : runHook h p call (s.modify i (Module.setCalled p true)) i with
          | none => simp [hh] at heq
          | some s2 =>
            simp only [hh, Option.some.injEq] at heq
            rw [← heq]
            exact Exec.hook s s2 i m1 hacc1 hc' hf' (fun hu => hrun hu m1 hacc1)
              (callSeq_exec p call hcall _ _ _ hh)
  · have hnow' : now = false := by simpa using hnow
    simp only [hnow', Bool.false_eq_true, if_false, Option.some.injEq] at heq
    rw [← heq]; exact Exec.refl s

/-- The shape of a returning `call{P}()`: either nothing happened (module gone
or `_run` set), or the module had `_run` clear, the `run_first` loop (if any)
returned `(s₁, now)`, and the part after the loop returned the result. -/
theorem callBody_split (h : Hooks) (p : Phase) (call : Simulator → Nat → Option Simulator)
    (s : Simulator) (i : Nat) (s' : Simulator) (heq : callBody h p call s i = some s') :
    s' = s ∨ ∃ m s1 now, s.accessor i = some m ∧ m.run p = false ∧
      (if p.usesRunFirst = true then runFirstLoop call p i m.run_first s true
        else some (s, true)) = some (s1, now) ∧
      callTail h p call s1 i now = some s' := by
  unfold callBody at heq
  cases hacc : s.accessor i with
  | none =>
    simp only [hacc, Option.some.injEq] at heq
    exact Or.inl heq.symm
  | some m =>
    simp only [hacc] at heq
    by_cases hr : m.run p = true
    · simp only [hr, if_true, Option.some.injEq] at heq
      exact Or.inl heq.symm
    · have hr' : m.run p = false := by simpa using hr
      simp only [hr', Bool.false_eq_true, if_false] at heq
      cases hloop : (if p.usesRunFirst = true then runFirstLoop call p i m.run_first s true
          else some (s, true)) with
      | none => simp [hloop] at heq
      | some r =>
        obtain ⟨s1, now⟩ := r
        simp only [hloop] at heq
        exact Or.inr ⟨m, s1, now, rfl, hr', hloop, heq⟩

theorem callBody_exec (h : Hooks) (p : Phase) (call : Simulator → Nat → Option Simulator)
    (hcall : ∀ s j s', call s j = some s' → Exec p s s') (s : Simulator) (i : Nat)
    (s' : Simulator) (heq : callBody h p call s i = some s') : Exec p s s' := by
  rcases callBody_split h p call s i s' heq with h0 | ⟨m, s1, now, hacc, hr, hloop, htail⟩
  · rw [h0]; exact Exec.refl s
  · by_cases hu : p.usesRunFirst = true
    · simp only [hu, if_true] at hloop
      exact Exec.trans (runFirstLoop_exec p call i hcall _ _ _ _ _ hloop)
        (callTail_exec h p call hcall s1 i now s' (fun h' => by
          rw [hu] at h'; exact absurd h' (by simp)) htail)
    · have hu' : p.usesRunFirst = false := by simpa using hu
      simp only [hu', Bool.false_eq_true, if_false, Option.some.injEq, Prod.mk.injEq] at hloop
      rw [← hloop.1] at htail
      exact callTail_exec h p call hcall s i now s' (fun _ m' hm' => by
        rw [hacc] at hm'
        simp only [Option.some.injEq] at hm'
        rw [← hm']; exact hr) htail

theorem callPhase_exec (h : Hooks) (p : Phase) :
    ∀ (fuel : Nat) (s : Simulator) (i : Nat) (s' : Simulator),
      callPhase h p fuel s i = some s' → Exec p s s' := by
  intro fuel
  induction fuel with
  | zero => intro s i s' heq; simp [callPhase] at heq
  | succ n ih =>
    intro s i s' heq
    exact callBody_exec h p (callPhase h p n) ih s i s' heq

theorem phaseLoop_exec (p : Phase) (call : Simulator → Nat → Option Simulator)
    (hcall : ∀ s j s', call s j = some s' → Exec p s s') :
    ∀ (ks : List Nat) (s s' : Simulator), phaseLoop call ks s = some s' → Exec p s s' := by
  intro ks
  induction ks with
  | nil =>
    intro s s' h
    simp only [phaseLoop, Option.some.injEq] at h
    rw [← h]; exact Exec.refl s
  | cons k ks ih =>
    intro s s' h
    simp only [phaseLoop] at h
    cases hc : call s k with
    | none => simp [hc] at h
    | some s1 =>
      simp only [hc] at h
      split_ifs at h
      · simp only [Option.some.injEq] at h
        rw [← h]; exact hcall s k s1 hc
      · exact Exec.trans (hcall s k s1 hc) (ih s1 s' h)

/-! ### What an `Exec` preserves -/

theorem finishCall_accessor (p : Phase) (i k : Nat) (s : Simulator) :
    (finishCall p i s).accessor k =
      if k = i then (s.accessor k).map (fun m => Module.setCalled p false (Module.setRun p true m))
      else s.accessor k := by
  unfold finishCall
  by_cases hp : p = Phase.init <;> by_cases hk : k = i <;>
    cases hs : s.accessor k <;> simp [hp, hk, Simulator.modify, hs]
  all_goals (subst hk; simp [hs])

theorem finishCall_hooklog (p : Phase) (i : Nat) (s : Simulator) :
    (finishCall p i s).hooklog = s.hooklog := by
  unfold finishCall
  by_cases hp : p = Phase.init <;> simp [hp, Simulator.modify]

theorem finishCall_errs (p : Phase) (i : Nat) (s : Simulator) :
    (finishCall p i s).error_descriptions = s.error_descriptions := by
  unfold finishCall
  by_cases hp : p = Phase.init <;> simp [hp, Simulator.modify]

theorem Exec.alive (p : Phase) {s s' : Simulator} (h : Exec p s s') :
    ∀ k, (s'.accessor k).isSome = (s.accessor k).isSome := by
  induction h with
  | refl s => intro k; rfl
  | trans _ _ ih1 ih2 => intro k; rw [ih2, ih1]
  | eraseDead s i j _ =>
    intro k
    by_cases hk : k = i <;> cases hs : s.accessor k <;> simp [Simulator.modify, hk, hs]
    all_goals (subst hk; simp [hs])
  | circular s i m _ _ =>
    intro k
    by_cases hk : k = i <;> cases hs : s.accessor k <;>
      simp [Simulator.modify, Simulator.setError, hk, hs]
    all_goals (subst hk; simp [hs])
  | hook s s1 i m _ _ _ _ _ ih =>
    intro k
    rw [finishCall_accessor]
    have := ih k
    by_cases hk : k = i
    · rw [if_pos hk, Option.isSome_map', this]
      subst hk
      cases hs : s.accessor k <;> simp [Simulator.modify, Simulator.logHook, hs]
    · rw [if_neg hk, this]
      simp [Simulator.modify, Simulator.logHook, hk]
  | frozen s i m _ _ _ _ =>
    intro k
    rw [finishCall_accessor]
    by_cases hk : k = i <;> cases hs : s.accessor k <;> simp [Simulator.modify, hk, hs]
    all_goals (subst hk; simp [hs])

theorem settled_finishCall_self (p : Phase) (hl : p.lifecycle) (i : Nat) (s : Simulator)
    (ha : (s.accessor i).isSome = true) : settled p i (finishCall p i s) := by
  obtain ⟨m, hm⟩ := Option.isSome_iff_exists.mp ha
  refine ⟨Module.setCalled p false (Module.setRun p true m), ?_, ?_, ?_⟩
  · rw [finishCall_accessor, if_pos rfl, hm]; rfl
  · rw [Module.setCalled_run, Module.setRun_run p hl]
  · rw [Module.setCalled_called p hl]

theorem settled_finishCall_ne (p : Phase) (i k : Nat) (hk : k ≠ i) (s : Simulator)
    (h : settled p k s) : settled p k (finishCall p i s) := by
  obtain ⟨m, hm, h1, h2⟩ := h
  exact ⟨m, by rw [finishCall_accessor, if_neg hk, hm], h1, h2⟩

theorem Exec.settled_stable (p : Phase) (hl : p.lifecycle) {s s' : Simulator}
    (h : Exec p s s') : ∀ k, settled p k s → settled p k s' := by
  induction h with
  | refl s => intro k hk; exact hk
  | trans _ _ ih1 ih2 => intro k hk; exact ih2 k (ih1 k hk)
  | eraseDead s i j _ =>
    intro k ⟨m, hm, h1, h2⟩
    by_cases hk : k = i
    · subst hk
      exact ⟨{ m with run_first := m.run_first.erase j }, by simp [Simulator.modify, hm],
        by cases p <;> exact h1, by cases p <;> exact h2⟩
    · exact ⟨m, by simp [Simulator.modify, hk, hm], h1, h2⟩
  | circular s i m hm _ =>
    intro k ⟨mk, hmk, h1, h2⟩
    by_cases hk : k = i
    · subst hk
      refine ⟨Module.setCalled p false (Module.setRun p true mk), ?_, ?_, ?_⟩
      · simp [Simulator.modify, Simulator.setError, hmk]
      · rw [Module.setCalled_run, Module.setRun_run p hl]
      · rw [Module.setCalled_called p hl]
    · exact ⟨mk, by simp [Simulator.modify, Simulator.setError, hk, hmk], h1, h2⟩
  | hook s s1 i m hm _ _ _ hin ih =>
    intro k hk
    by_cases hki : k = i
    · subst hki
      apply settled_finishCall_self p hl
      rw [Exec.alive p hin]
      simp [Simulator.modify, Simulator.logHook, hm]
    · apply settled_finishCall_ne p i k hki
      apply ih
      obtain ⟨mk, hmk, h1, h2⟩ := hk
      exact ⟨mk, by simp [Simulator.modify, Simulator.logHook, hki, hmk], h1, h2⟩
  | frozen s i m hm _ _ _ =>
    intro k hk
    by_cases hki : k = i
    · subst hki
      apply settled_finishCall_self p hl
      simp [Simulator.modify, hm]
    · apply settled_finishCall_ne p i k hki
      obtain ⟨mk, hmk, h1, h2⟩ := hk
      exact ⟨mk, by simp [Simulator.modify, hki, hmk], h1, h2⟩

theorem Exec.hookCount_mono (p : Phase) (hl : p.lifecycle) {s s' : Simulator}
    (h : Exec p s s') : ∀ k, hookCount p k s ≤ hookCount p k s' ∧
      (hookCount p k s < hookCount p k s' → settled p k s') := by
  induction h with
  | refl s => intro k; exact ⟨le_refl _, fun h => absurd h (lt_irrefl _)⟩
  | @trans s s1 s2 e1 e2 ih1 ih2 =>
    intro k
    refine ⟨le_trans (ih1 k).1 (ih2 k).1, ?_⟩
    intro hlt
    by_cases h2 : hookCount p k s1 < hookCount p k s2
    · exact (ih2 k).2 h2
    · have h1 : hookCount p k s < hookCount p k s1 := by
        have := (ih2 k).1
        omega
      exact Exec.settled_stable p hl e2 k ((ih1 k).2 h1)
  | eraseDead s i j _ =>
    intro k
    exact ⟨le_refl _, fun h => absurd h (lt_irrefl _)⟩
  | circular s i m _ _ =>
    intro k
    exact ⟨le_refl _, fun h => absurd h (lt_irrefl _)⟩
  | hook s s1 i m hm _ _ _ hin ih =>
    intro k
    have hstart : hookCount p k s ≤
        hookCount p k ((s.modify i (Module.setCalled p true)).logHook p i) := by
      simp [hookCount, Simulator.logHook, Simulator.modify, List.count_append]
    have hfin : hookCount p k (finishCall p i s1) = hookCount p k s1 := by
      simp [hookCount, finishCall_hooklog]
    rw [hfin]
    refine ⟨le_trans hstart (ih k).1, ?_⟩
    intro hlt
    by_cases hki : k = i
    · subst hki
      apply settled_finishCall_self p hl
      rw [Exec.alive p hin]
      simp [Simulator.modify, Simulator.logHook, hm]
    · apply settled_finishCall_ne p i k hki
      apply (ih k).2
      have : hookCount p k ((s.modify i (Module.setCalled p true)).logHook p i)
          = hookCount p k s := by
        simp [hookCount, Simulator.logHook, Simulator.modify, List.count_append,
          List.count_singleton, hki]
      rw [this]; exact hlt
  | frozen s i m _ _ _ _ =>
    intro k
    have hfin : hookCount p k (finishCall p i (s.modify i (Module.setCalled p true)))
        = hookCount p k s := by
      simp [hookCount, finishCall_hooklog, Simulator.modify]
    rw [hfin]
    exact ⟨le_refl _, fun h => absurd h (lt_irrefl _)⟩

theorem Exec.errs_mono (p : Phase) {s s' : Simulator} (h : Exec p s s') :
    s.error_descriptions.length ≤ s'.error_descriptions.length := by
  induction h with
  | refl s => exact le_refl _
  | trans _ _ ih1 ih2 => exact le_trans ih1 ih2
  | eraseDead s i j _ => exact le_refl _
  | circular s i m _ _ => simp [Simulator.modify, Simulator.setError]
  | hook s s1 i m _ _ _ _ _ ih =>
    rw [finishCall_errs]
    exact ih
  | frozen s i m _ _ _ _ =>
    rw [finishCall_errs]
    exact le_refl _

/-! ### Counting hook invocations -/

theorem pot_refl (p : Phase) (s : Simulator) : Pot p s s := fun _ => le_refl _

theorem pot_trans (p : Phase) {s s1 s2 : Simulator} (h1 : Pot p s s1) (h2 : Pot p s1 s2) :
    Pot p s s2 := fun k => le_trans (h2 k) (h1 k)

theorem pending_le_one (p : Phase) (k : Nat) (s : Simulator) : pending p k s ≤ 1 := by
  unfold pending
  cases s.accessor k with
  | none => simp
  | some m => simp only []; split_ifs <;> simp

theorem pending_congr (p : Phase) (k : Nat) (s s' : Simulator)
    (h : (s'.accessor k).map (fun m => (m.run p, m.called p))
      = (s.accessor k).map (fun m => (m.run p, m.called p))) :
    pending p k s' = pending p k s := by
  unfold pending
  cases h1 : s'.accessor k <;> cases h2 : s.accessor k <;> simp [h1, h2] at h ⊢
  rw [h.1, h.2]

theorem pending_finishCall_self (p : Phase) (hl : p.lifecycle) (i : Nat) (s : Simulator) :
    pending p i (finishCall p i s) = 0 := by
  unfold pending
  rw [finishCall_accessor, if_pos rfl]
  cases s.accessor i with
  | none => rfl
  | some m =>
    simp only [Option.map_some']
    rw [Module.setCalled_run, Module.setRun_run p hl]
    rfl

theorem pending_finishCall_ne (p : Phase) (i k : Nat) (hk : k ≠ i) (s : Simulator) :
    pending p k (finishCall p i s) = pending p k s := by
  apply pending_congr
  rw [finishCall_accessor, if_neg hk]

theorem pending_enter_self (p : Phase) (hl : p.lifecycle) (i : Nat) (s : Simulator) :
    pending p i (s.modify i (Module.setCalled p true)) = 0 := by
  unfold pending
  rw [Simulator.modify_accessor_self]
  cases s.accessor i with
  | none => rfl
  | some m =>
    simp only [Option.map_some']
    rw [Module.setCalled_called p hl]
    simp

theorem pending_modify_ne (p : Phase) (i k : Nat) (hk : k ≠ i) (f : Module → Module)
    (s : Simulator) : pending p k (s.modify i f) = pending p k s := by
  apply pending_congr
  rw [Simulator.modify_accessor_ne _ _ _ _ hk]

theorem pending_of_clear (p : Phase) (i : Nat) (s : Simulator) (m : Module)
    (hm : s.accessor i = some m) (hr : m.run p = false) (hc : m.called p = false) :
    pending p i s = 1 := by
  unfold pending
  rw [hm]
  simp [hr, hc]

theorem pending_of_called (p : Phase) (i : Nat) (s : Simulator) (m : Module)
    (hm : s.accessor i = some m) (hc : m.called p = true) :
    pending p i s = 0 := by
  unfold pending
  rw [hm]
  simp [hc]

/-- The hook stage of a call on module `i` with both flags clear keeps the
bookkeeping. -/
theorem pot_hook (p : Phase) (hl : p.lifecycle) (s s1 : Simulator) (i : Nat) (m : Module)
    (hm : s.accessor i = some m) (hr : m.run p = false) (hc : m.called p = false)
    (hin : Pot p ((s.modify i (Module.setCalled p true)).logHook p i) s1) :
    Pot p s (finishCall p i s1) := by
  intro k
  have hfin : hookCount p k (finishCall p i s1) = hookCount p k s1 := by
    simp [hookCount, finishCall_hooklog]
  rw [hfin]
  have hk1 := hin k
  by_cases hki : k = i
  · subst hki
    rw [pending_finishCall_self p hl, pending_of_clear p k s m hm hr hc]
    have e1 : hookCount p k ((s.modify k (Module.setCalled p true)).logHook p k)
        = hookCount p k s + 1 := by
      simp [hookCount, Simulator.logHook, Simulator.modify, List.count_append]
    have e2 : pending p k ((s.modify k (Module.setCalled p true)).logHook p k) = 0 :=
      pending_enter_self p hl k s
    rw [e1, e2] at hk1
    omega
  · rw [pending_finishCall_ne p i k hki]
    have e1 : hookCount p k ((s.modify i (Module.setCalled p true)).logHook p i)
        = hookCount p k s := by
      simp [hookCount, Simulator.logHook, Simulator.modify, List.count_append,
        List.count_singleton, hki]
    have e2 : pending p k ((s.modify i (Module.setCalled p true)).logHook p i)
        = pending p k s := pending_modify_ne p i k hki _ s
    rw [e1, e2] at hk1
    exact hk1

theorem pot_frozen (p : Phase) (hl : p.lifecycle) (s : Simulator) (i : Nat) :
    Pot p s (finishCall p i (s.modify i (Module.setCalled p true))) := by
  intro k
  have hfin : hookCount p k (finishCall p i (s.modify i (Module.setCalled p true)))
      = hookCount p k s := by
    simp [hookCount, finishCall_hooklog, Simulator.modify]
  rw [hfin]
  by_cases hki : k = i
  · subst hki
    rw [pending_finishCall_self p hl]
    omega
  · rw [pending_finishCall_ne p i k hki, pending_modify_ne p i k hki]

theorem pot_eraseDead (p : Phase) (s : Simulator) (i j : Nat) :
    Pot p s (s.modify i (fun m => { m with run_first := m.run_first.erase j })) := by
  intro k
  have e1 : hookCount p k (s.modify i (fun m => { m with run_first := m.run_first.erase j }))
      = hookCount p k s := rfl
  have e2 : pending p k (s.modify i (fun m => { m with run_first := m.run_first.erase j }))
      = pending p k s := by
    apply pending_congr
    by_cases hki : k = i
    · subst hki
      rw [Simulator.modify_accessor_self]
      cases s.accessor k with
      | none => rfl
      | some m => cases p <;> rfl
    · rw [Simulator.modify_accessor_ne _ _ _ _ hki]
  rw [e1, e2]

theorem pot_circular (p : Phase) (hl : p.lifecycle) (s : Simulator) (i : Nat) (m : Module)
    (hm : s.accessor i = some m) :
    Pot p s (((s.setError (circularMessage p)).modify i
      (Module.setRun p true)).modify i (Module.setCalled p false)) := by
  intro k
  have e1 : hookCount p k (((s.setError (circularMessage p)).modify i
      (Module.setRun p true)).modify i (Module.setCalled p false)) = hookCount p k s := rfl
  rw [e1]
  by_cases hki : k = i
  · subst hki
    have e2 : pending p k (((s.setError (circularMessage p)).modify k
        (Module.setRun p true)).modify k (Module.setCalled p false)) = 0 := by
      unfold pending
      simp only [Simulator.modify, Simulator.setError, if_true, hm, Option.map_some']
      rw [Module.setCalled_run, Module.setRun_run p hl]
      rfl
    rw [e2]
    omega
  · have e2 : pending p k (((s.setError (circularMessage p)).modify i
        (Module.setRun p true)).modify i (Module.setCalled p false)) = pending p k s := by
      rw [pending_modify_ne p i k hki, pending_modify_ne p i k hki]
      rfl
    rw [e2]

theorem Exec.pot_simple (p : Phase) (hl : p.lifecycle) (hs : p.usesRunFirst = false)
    {s s' : Simulator} (h : Exec p s s') : Pot p s s' := by
  induction h with
  | refl s => exact pot_refl p s
  | trans _ _ ih1 ih2 => exact pot_trans p ih1 ih2
  | eraseDead s i j _ => exact pot_eraseDead p s i j
  | circular s i m hm _ => exact pot_circular p hl s i m hm
  | hook s s1 i m hm hc _ hr _ ih => exact pot_hook p hl s s1 i m hm (hr hs) hc ih
  | frozen s i m _ _ _ _ => exact pot_frozen p hl s i

/-! ### Deferred modules stay untouched -/

theorem Exec.frame (p : Phase) {s s' : Simulator} (h : Exec p s s') : Frame s s' := by
  induction h with
  | refl s => intro k m hm; exact ⟨m, hm, fun x hx _ => hx⟩
  | @trans s s1 s2 e1 _ ih1 ih2 =>
    intro k m hm
    obtain ⟨m1, hm1, h1⟩ := ih1 k m hm
    obtain ⟨m2, hm2, h2⟩ := ih2 k m1 hm1
    refine ⟨m2, hm2, fun x hx ha => h2 x (h1 x hx ha) ?_⟩
    rw [Exec.alive p e1]; exact ha
  | eraseDead s i j hj =>
    intro k m hm
    by_cases hk : k = i
    · subst hk
      refine ⟨{ m with run_first := m.run_first.erase j }, by simp [Simulator.modify, hm], ?_⟩
      intro x hx ha
      have hne : x ≠ j := by
        intro h
        rw [h, hj] at ha
        exact absurd ha (by simp)
      exact (List.mem_erase_of_ne hne).mpr hx
    · exact ⟨m, by simp [Simulator.modify, hk, hm], fun x hx _ => hx⟩
  | circular s i m0 _ _ =>
    intro k m hm
    by_cases hk : k = i
    · subst hk
      refine ⟨Module.setCalled p false (Module.setRun p true m),
        by simp [Simulator.modify, Simulator.setError, hm], ?_⟩
      intro x hx _
      rw [Module.setCalled_run_first, Module.setRun_run_first]; exact hx
    · exact ⟨m, by simp [Simulator.modify, Simulator.setError, hk, hm], fun x hx _ => hx⟩
  | hook s s1 i m0 _ _ _ _ hin ih =>
    intro k m hm
    by_cases hk : k = i
    · subst hk
      obtain ⟨m1, hm1, h1⟩ := ih k (Module.setCalled p true m)
        (by simp [Simulator.modify, Simulator.logHook, hm])
      refine ⟨Module.setCalled p false (Module.setRun p true m1),
        by rw [finishCall_accessor, if_pos rfl, hm1]; rfl, ?_⟩
      intro x hx ha
      rw [Module.setCalled_run_first, Module.setRun_run_first]
      apply h1 x
      · rw [Module.setCalled_run_first]; exact hx
      · by_cases hxk : x = k
        · subst hxk; simp [Simulator.modify, Simulator.logHook, hm]
        · simpa [Simulator.modify, Simulator.logHook, hxk] using ha
    · obtain ⟨m1, hm1, h1⟩ := ih k m (by simp [Simulator.modify, Simulator.logHook, hk, hm])
      refine ⟨m1, by rw [finishCall_accessor, if_neg hk, hm1], ?_⟩
      intro x hx ha
      apply h1 x hx
      by_cases hxi : x = i
      · subst hxi
        cases hs : s.accessor x <;> simp [Simulator.modify, Simulator.logHook, hs] at ha ⊢
      · simpa [Simulator.modify, Simulator.logHook, hxi] using ha
  | frozen s i m0 _ _ _ _ =>
    intro k m hm
    by_cases hk : k = i
    · subst hk
      refine ⟨Module.setCalled p false (Module.setRun p true (Module.setCalled p true m)),
        by rw [finishCall_accessor, if_pos rfl]; simp [Simulator.modify, hm], ?_⟩
      intro x hx _
      rw [Module.setCalled_run_first, Module.setRun_run_first, Module.setCalled_run_first]
      exact hx
    · exact ⟨m, by rw [finishCall_accessor, if_neg hk]; simp [Simulator.modify, hk, hm],
        fun x hx _ => hx⟩

theorem keep_refl (p : Phase) (B : Nat → Prop) (s : Simulator) : Keep p B s s :=
  fun _ mx hx _ => ⟨mx, hx, rfl, rfl⟩

theorem keep_trans (p : Phase) (B : Nat → Prop) {s s1 s2 : Simulator}
    (h1 : Keep p B s s1) (h2 : Keep p B s1 s2) : Keep p B s s2 := by
  intro x mx hx hb
  obtain ⟨m1, hm1, r1, c1⟩ := h1 x mx hx hb
  obtain ⟨m2, hm2, r2, c2⟩ := h2 x m1 hm1 (by
    rcases hb with hb | hb
    · exact Or.inl hb
    · exact Or.inr (by rw [c1]; exact hb))
  exact ⟨m2, hm2, by rw [r2, r1], by rw [c2, c1]⟩

theorem keep_weaken (p : Phase) (B B' : Nat → Prop) {s s' : Simulator}
    (h : Keep p B' s s') (hsub : ∀ x, B x → B' x) : Keep p B s s' := by
  intro x mx hx hb
  exact h x mx hx (by
    rcases hb with hb | hb
    · exact Or.inl (hsub x hb)
    · exact Or.inr hb)

/-- Blocked modules stay blocked across a step that keeps the flags of the
blocking modules and the live references. -/
theorem Blocked.preserved (p : Phase) (B C B' : Nat → Prop) {s s' : Simulator}
    (hb : Blocked p B C s) (hk : Keep p B' s s') (hf : Frame s s')
    (hB : ∀ x, B x → B' x) (hC : ∀ x, C x → B' x) : Blocked p B C s' := by
  intro w hw
  obtain ⟨mw, hmw, hr, x, hx, mx, hmx, hst⟩ := hb w hw
  obtain ⟨mw', hmw', r', _⟩ := hk w mw hmw (Or.inl (hB w hw))
  obtain ⟨mw'', hmw'', hrf⟩ := hf w mw hmw
  rw [hmw'] at hmw''
  simp only [Option.some.injEq] at hmw''
  subst hmw''
  have hxin : x ∈ mw'.run_first := hrf x hx (by rw [hmx]; rfl)
  refine ⟨mw', hmw', by rw [r', hr], x, hxin, ?_⟩
  rcases hst with hc | ⟨hrx, hbc⟩
  · obtain ⟨mx', hmx', _, c'⟩ := hk x mx hmx (Or.inr hc)
    exact ⟨mx', hmx', Or.inl (by rw [c', hc])⟩
  · have hx' : B' x := by
      rcases hbc with h | h
      · exact hB x h
      · exact hC x h
    obtain ⟨mx', hmx', r', _⟩ := hk x mx hmx (Or.inl hx')
    exact ⟨mx', hmx', Or.inr ⟨by rw [r', hrx], hbc⟩⟩

theorem Blocked.mono (p : Phase) (B C C' : Nat → Prop) {s : Simulator}
    (hb : Blocked p B C s) (hC : ∀ x, C x → C' x) : Blocked p B C' s := by
  intro w hw
  obtain ⟨mw, hmw, hr, x, hx, mx, hmx, hst⟩ := hb w hw
  refine ⟨mw, hmw, hr, x, hx, mx, hmx, ?_⟩
  rcases hst with hc | ⟨hrx, hbc⟩
  · exact Or.inl hc
  · exact Or.inr ⟨hrx, hbc.imp id (hC x)⟩

theorem runFirstLoop_now_false (p : Phase) (call : Simulator → Nat → Option Simulator)
    (i : Nat) : ∀ (js : List Nat) (s s' : Simulator) (now' : Bool),
      runFirstLoop call p i js s false = some (s', now') → now' = false := by
  intro js
  induction js with
  | nil =>
    intro s s' now' h
    simp only [runFirstLoop, Option.some.injEq, Prod.mk.injEq] at h
    exact h.2.symm
  | cons j js ih =>
    intro s s' now' h
    simp only [runFirstLoop] at h
    cases hj : s.accessor j with
    | none =>
      simp only [hj] at h
      exact ih _ _ _ h
    | some ptr =>
      simp only [hj] at h
      by_cases hc : ptr.called p = true
      · simp only [hc, if_true] at h
        exact ih _ _ _ h
      · have hc' : ptr.called p = false := by simpa using hc
        by_cases hr : ptr.run p = true
        · simp only [hc', hr, if_false, Bool.not_true, Bool.false_eq_true] at h
          exact ih _ _ _ h
        · have hr' : ptr.run p = false := by simpa using hr
          simp only [hc', hr', if_false, Bool.not_false, if_true, Bool.false_eq_true] at h
          cases hcall' : call s j with
          | none => simp [hcall'] at h
          | some s1 =>
            simp only [hcall'] at h
            cases hj1 : s1.accessor j with
            | none =>
              simp only [hj1] at h
              exact ih _ _ _ h
            | some ptr' =>
              simp only [hj1] at h
              by_cases hr1 : ptr'.run p = true
              · simp only [hr1, Bool.not_true, Bool.false_eq_true, if_false] at h
                exact ih _ _ _ h
              · have hr1' : ptr'.run p = false := by simpa using hr1
                simp only [hr1', Bool.not_false, if_true] at h
                exact ih _ _ _ h

theorem callSeq_keep (p : Phase) (call : Simulator → Nat → Option Simulator)
    (hc : CallKeeps p call) (B : Nat → Prop) :
    ∀ (zs : List Nat) (s s' : Simulator), Blocked p B (fun _ => False) s →
      callSeq call zs s = some s' →
      s'.error_descriptions.length = s.error_descriptions.length →
      Keep p B s s' ∧ Pot p s s' := by
  intro zs
  induction zs with
  | nil =>
    intro s s' _ h _
    simp only [callSeq, Option.some.injEq] at h
    rw [← h]; exact ⟨keep_refl p B s, pot_refl p s⟩
  | cons z zs ih =>
    intro s s' hb h herr
    simp only [callSeq] at h
    cases hz : call s z with
    | none => simp [hz] at h
    | some s1 =>
      simp only [hz] at h
      have e1 := hc.1 s z s1 hz
      have e2 := callSeq_exec p call hc.1 zs s1 s' h
      have l1 := Exec.errs_mono p e1
      have l2 := Exec.errs_mono p e2
      obtain ⟨k1, p1⟩ := hc.2 B s z s1 (Blocked.mono p B _ _ hb (fun _ hx => absurd hx id)) hz
        (by omega)
      have hb1 : Blocked p B (fun _ => False) s1 :=
        Blocked.preserved p B _ B hb k1 (Exec.frame p e1) (fun _ hx => hx)
          (fun _ hx => absurd hx id)
      obtain ⟨k2, p2⟩ := ih s1 s' hb1 h (by omega)
      exact ⟨keep_trans p B k1 k2, pot_trans p p1 p2⟩

theorem keep_eraseDead (p : Phase) (B : Nat → Prop) (s : Simulator) (i j : Nat) :
    Keep p B s (s.modify i (fun m => { m with run_first := m.run_first.erase j })) := by
  intro x mx hx _
  by_cases hxi : x = i
  · subst hxi
    exact ⟨{ mx with run_first := mx.run_first.erase j }, by simp [Simulator.modify, hx],
      by cases p <;> rfl, by cases p <;> rfl⟩
  · exact ⟨mx, by simp [Simulator.modify, hxi, hx], rfl, rfl⟩

theorem runFirstLoop_keep (p : Phase) (call : Simulator → Nat → Option Simulator)
    (hc : CallKeeps p call) (B : Nat → Prop) (j : Nat) :
    ∀ (js : List Nat) (s : Simulator) (now : Bool) (s' : Simulator) (now' : Bool),
      runFirstLoop call p j js s now = some (s', now') →
      s'.error_descriptions.length = s.error_descriptions.length →
      Blocked p B (fun x => x = j) s →
      ∀ mj, s.accessor j = some mj → mj.run p = false →
      (∀ x ∈ js, (s.accessor x).isSome = true → x ∈ mj.run_first) →
      Keep p (fun x => B x ∨ x = j) s s' ∧ Pot p s s' ∧
      (B j → (now = false ∨ ∃ y ∈ js, ∃ my, s.accessor y = some my ∧
          (my.called p = true ∨ (my.run p = false ∧ (B y ∨ y = j)))) → now' = false) := by
  intro js
  induction js with
  | nil =>
    intro s now s' now' h _ _ mj _ _ _
    simp only [runFirstLoop, Option.some.injEq, Prod.mk.injEq] at h
    rw [← h.1, ← h.2]
    refine ⟨keep_refl p _ s, pot_refl p s, ?_⟩
    intro _ hn
    rcases hn with hn | ⟨y, hy, _⟩
    · exact hn
    · simp at hy
  | cons x js ih =>
    intro s now s' now' h herr hb mj hmj hrj hin
    simp only [runFirstLoop] at h
    cases hx : s.accessor x with
    | none =>
      simp only [hx] at h
      -- an expired reference is erased
      have e1 : Exec p s (s.modify j (fun m => { m with run_first := m.run_first.erase x })) :=
        Exec.eraseDead s j x hx
      have k1 := keep_eraseDead p (fun y => B y ∨ y = j) s j x
      have hb1 := Blocked.preserved p B _ _ hb k1 (Exec.frame p e1) (fun _ h => Or.inl h)
        (fun _ h => Or.inr h)
      have hmj1 : (s.modify j (fun m => { m with run_first := m.run_first.erase x })).accessor j
          = some { mj with run_first := mj.run_first.erase x } := by
        simp [Simulator.modify, hmj]
      obtain ⟨k2, p2, n2⟩ := ih _ now s' now' h herr hb1 _ hmj1 (by cases p <;> exact hrj) (by
        intro y hy ha
        have ha' : (s.accessor y).isSome = true := by
          rw [← Exec.alive p e1]; exact ha
        have hne : y ≠ x := by
          intro hyx
          rw [hyx, hx] at ha'
          exact absurd ha' (by simp)
        exact (List.mem_erase_of_ne hne).mpr (hin y (List.mem_cons_of_mem _ hy) ha'))
      refine ⟨keep_trans p _ k1 k2, pot_trans p (pot_eraseDead p s j x) p2, ?_⟩
      intro hBj hn
      apply n2 hBj
      rcases hn with hn | ⟨y, hy, my, hmy, hst⟩
      · exact Or.inl hn
      · right
        have hne : y ≠ x := by
          intro hyx
          rw [hyx, hx] at hmy
          exact absurd hmy (by simp)
        have hyjs : y ∈ js := by
          rcases List.mem_cons.mp hy with h | h
          · exact absurd h hne
          · exact h
        obtain ⟨my', hmy', r', c'⟩ : ∃ my', (s.modify j (fun m =>
            { m with run_first := m.run_first.erase x })).accessor y = some my' ∧
            my'.run p = my.run p ∧ my'.called p = my.called p := by
          by_cases hyj : y = j
          · subst hyj
            exact ⟨{ my with run_first := my.run_first.erase x },
              by simp [Simulator.modify, hmy], by cases p <;> rfl, by cases p <;> rfl⟩
          · exact ⟨my, by simp [Simulator.modify, hyj, hmy], rfl, rfl⟩
        exact ⟨y, hyjs, my', hmy', by rw [r', c']; exact hst⟩
    | some ptr =>
      simp only [hx] at h
      -- what the blocker of `j` looks like once `x` has been passed unchanged
      have hrest : ∀ y, y ∈ x :: js → y ≠ x → y ∈ js := by
        intro y hy hne
        rcases List.mem_cons.mp hy with h | h
        · exact absurd h hne
        · exact h
      by_cases hcx : ptr.called p = true
      · simp only [hcx, if_true] at h
        obtain ⟨k2, p2, _⟩ := ih s false s' now' h herr hb mj hmj hrj
          (fun y hy ha => hin y (List.mem_cons_of_mem _ hy) ha)
        exact ⟨k2, p2, fun _ _ => runFirstLoop_now_false p call j js s s' now' h⟩
      · have hcx' : ptr.called p = false := by simpa using hcx
        by_cases hrx : ptr.run p = true
        · simp only [hcx', hrx, if_false, Bool.not_true, Bool.false_eq_true] at h
          obtain ⟨k2, p2, n2⟩ := ih s now s' now' h herr hb mj hmj hrj
            (fun y hy ha => hin y (List.mem_cons_of_mem _ hy) ha)
          refine ⟨k2, p2, ?_⟩
          intro hBj hn
          apply n2 hBj
          rcases hn with hn | ⟨y, hy, my, hmy, hst⟩
          · exact Or.inl hn
          · right
            have hne : y ≠ x := by
              intro hyx
              rw [hyx, hx] at hmy
              simp only [Option.some.injEq] at hmy
              rw [← hmy] at hst
              rcases hst with h1 | ⟨h1, _⟩
              · rw [hcx'] at h1; exact absurd h1 (by simp)
              · rw [hrx] at h1; exact absurd h1 (by simp)
            exact ⟨y, hrest y hy hne, my, hmy, hst⟩
        · have hrx' : ptr.run p = false := by simpa using hrx
          simp only [hcx', hrx', if_false, Bool.not_false, if_true, Bool.false_eq_true] at h
          cases hcall : call s x with
          | none => simp [hcall] at h
          | some s1 =>
            simp only [hcall] at h
            have e1 := hc.1 s x s1 hcall
            have l1 := Exec.errs_mono p e1
            -- the callee is called with `j` waiting on it
            have hbx : Blocked p (fun y => B y ∨ y = j) (fun y => y = x) s := by
              intro w hw
              rcases hw with hw | hw
              · obtain ⟨mw, hmw, hr, y, hy, my, hmy, hst⟩ := hb w hw
                refine ⟨mw, hmw, hr, y, hy, my, hmy, ?_⟩
                rcases hst with h1 | ⟨h1, h2⟩
                · exact Or.inl h1
                · exact Or.inr ⟨h1, Or.inl h2⟩
              · subst hw
                exact ⟨mj, hmj, hrj, x, hin x (List.mem_cons_self _ _) (by rw [hx]; rfl),
                  ptr, hx, Or.inr ⟨hrx', Or.inr rfl⟩⟩
            have hloopExec : ∀ (nw : Bool), runFirstLoop call p j js s1 nw = some (s', now') →
                Exec p s1 s' :=
              fun nw hh => runFirstLoop_exec p call j hc.1 js s1 nw s' now' hh
            have hstep : ∀ (nw : Bool), runFirstLoop call p j js s1 nw = some (s', now') →
                (∀ mx1, s1.accessor x = some mx1 → mx1.run p = false → nw = false) →
                Keep p (fun x => B x ∨ x = j) s s' ∧ Pot p s s' ∧
                (B j → (now = false ∨ ∃ y ∈ x :: js, ∃ my, s.accessor y = some my ∧
                  (my.called p = true ∨ (my.run p = false ∧ (B y ∨ y = j)))) →
                  (now = false → nw = false) → now' = false) := by
              intro nw hh hnw
              have l2 := Exec.errs_mono p (hloopExec nw hh)
              obtain ⟨k1, p1⟩ := hc.2 _ s x s1 hbx hcall (by omega)
              have f1 := Exec.frame p e1
              have hb1 : Blocked p B (fun y => y = j) s1 :=
                Blocked.preserved p B _ _ hb k1 f1 (fun _ h => Or.inl h) (fun _ h => Or.inr h)
              obtain ⟨mj1, hmj1, rj1, _⟩ := k1 j mj hmj (Or.inl (Or.inr rfl))
              obtain ⟨mj1', hmj1', hrf1⟩ := f1 j mj hmj
              rw [hmj1] at hmj1'
              simp only [Option.some.injEq] at hmj1'
              subst hmj1'
              obtain ⟨k2, p2, n2⟩ := ih s1 nw s' now' hh (by omega) hb1 mj1 hmj1
                (by rw [rj1, hrj]) (by
                  intro y hy ha
                  have ha' : (s.accessor y).isSome = true := by
                    rw [← Exec.alive p e1]; exact ha
                  exact hrf1 y (hin y (List.mem_cons_of_mem _ hy) ha') ha')
              refine ⟨keep_trans p _ k1 k2, pot_trans p p1 p2, ?_⟩
              intro hBj hn hnow
              apply n2 hBj
              rcases hn with hn | ⟨y, hy, my, hmy, hst⟩
              · exact Or.inl (hnow hn)
              · by_cases hyx : y = x
                · left
                  subst hyx
                  rw [hx] at hmy
                  simp only [Option.some.injEq] at hmy
                  subst hmy
                  rcases hst with h1 | ⟨h1, h2⟩
                  · rw [hcx'] at h1; exact absurd h1 (by simp)
                  · obtain ⟨mx1, hmx1, r1, _⟩ := k1 y ptr hx (Or.inl h2)
                    exact hnw mx1 hmx1 (by rw [r1, h1])
                · right
                  rcases hst with h1 | ⟨h1, h2⟩
                  · obtain ⟨my1, hmy1, _, c1⟩ := k1 y my hmy (Or.inr h1)
                    exact ⟨y, hrest y hy hyx, my1, hmy1, Or.inl (by rw [c1, h1])⟩
                  · obtain ⟨my1, hmy1, r1, _⟩ := k1 y my hmy (Or.inl h2)
                    exact ⟨y, hrest y hy hyx, my1, hmy1, Or.inr ⟨by rw [r1, h1], h2⟩⟩
            cases hx1 : s1.accessor x with
            | none =>
              simp only [hx1] at h
              obtain ⟨k, q, n⟩ := hstep now h (by intro mx1 hmx1; rw [hx1] at hmx1; simp at hmx1)
              exact ⟨k, q, fun hBj hn => n hBj hn id⟩
            | some ptr' =>
              simp only [hx1] at h
              by_cases hr1 : ptr'.run p = true
              · simp only [hr1, Bool.not_true, Bool.false_eq_true, if_false] at h
                obtain ⟨k, q, n⟩ := hstep now h (by
                  intro mx1 hmx1 hrun
                  rw [hx1] at hmx1
                  simp only [Option.some.injEq] at hmx1
                  rw [← hmx1, hr1] at hrun
                  exact absurd hrun (by simp))
                exact ⟨k, q, fun hBj hn => n hBj hn id⟩
              · have hr1' : ptr'.run p = false := by simpa using hr1
                simp only [hr1', Bool.not_false, if_true] at h
                obtain ⟨k, q, n⟩ := hstep false h (fun _ _ _ => rfl)
                exact ⟨k, q, fun hBj hn => n hBj hn (fun _ => rfl)⟩

theorem callTail_keep (h : Hooks) (p : Phase) (hl : p.lifecycle)
    (call : Simulator → Nat → Option Simulator) (hc : CallKeeps p call) (B : Nat → Prop)
    (s : Simulator) (j : Nat) (now : Bool) (s' : Simulator) (mj : Module)
    (hb : Blocked p B (fun x => x = j) s) (hnB : now = true → ¬ B j)
    (hmj : s.accessor j = some mj) (hrj : mj.run p = false)
    (heq : callTail h p call s j now = some s')
    (herr : s'.error_descriptions.length = s.error_descriptions.length) :
    Keep p B s s' ∧ Pot p s s' := by
  unfold callTail at heq
  by_cases hnow : now = true
  · have hBj := hnB hnow
    simp only [hnow, if_true, hmj] at heq
    by_cases hcj : mj.called p = true
    · simp only [hcj, if_true, Option.some.injEq] at heq
      rw [← heq] at herr
      simp [Simulator.modify, Simulator.setError] at herr
    · have hcj' : mj.called p = false := by simpa using hcj
      simp only [hcj', Bool.false_eq_true, if_false] at heq
      -- modules that must be kept are different from `j`
      have hne : ∀ x mx, s.accessor x = some mx → (B x ∨ mx.called p = true) → x ≠ j := by
        intro x mx hx hbx hxj
        subst hxj
        rcases hbx with h1 | h1
        · exact hBj h1
        · rw [hmj] at hx
          simp only [Option.some.injEq] at hx
          rw [← hx, hcj'] at h1
          exact absurd h1 (by simp)
      by_cases hf : mj.frozen = true
      · simp only [hf, Bool.not_true, Bool.false_eq_true, if_false, Option.some.injEq] at heq
        rw [← heq]
        refine ⟨?_, pot_frozen p hl s j⟩
        intro x mx hx hbx
        have := hne x mx hx hbx
        exact ⟨mx, by rw [finishCall_accessor, if_neg this]; simp [Simulator.modify, this, hx],
          rfl, rfl⟩
      · have hf' : mj.frozen = false := by simpa using hf
        simp only [hf', Bool.not_false, if_true] at heq
        cases hh : runHook h p call (s.modify j (Module.setCalled p true)) j with
        | none => simp [hh] at heq
        | some s2 =>
          simp only [hh, Option.some.injEq] at heq
          rw [← heq] at herr ⊢
          rw [finishCall_errs] at herr
          have hbh : Blocked p B (fun _ => False)
              ((s.modify j (Module.setCalled p true)).logHook p j) := by
            intro w hw
            obtain ⟨mw, hmw, hr, x, hx, mx, hmx, hst⟩ := hb w hw
            have hwj : w ≠ j := fun e => hBj (e ▸ hw)
            refine ⟨mw, by simp [Simulator.modify, Simulator.logHook, hwj, hmw], hr, x, hx, ?_⟩
            by_cases hxj : x = j
            · subst hxj
              refine ⟨Module.setCalled p true mx,
                by simp [Simulator.modify, Simulator.logHook, hmx], Or.inl ?_⟩
              exact Module.setCalled_called p hl true mx
            · refine ⟨mx, by simp [Simulator.modify, Simulator.logHook, hxj, hmx], ?_⟩
              rcases hst with h1 | ⟨h1, h2⟩
              · exact Or.inl h1
              · rcases h2 with h2 | h2
                · exact Or.inr ⟨h1, Or.inl h2⟩
                · exact absurd h2 hxj
          obtain ⟨k2, p2⟩ := callSeq_keep p call hc B (h.calls p j) _ s2 hbh hh (by
            rw [herr]; rfl)
          refine ⟨?_, pot_hook p hl s s2 j mj hmj hrj hcj' p2⟩
          intro x mx hx hbx
          have hxj := hne x mx hx hbx
          obtain ⟨mx2, hmx2, r2, c2⟩ := k2 x mx
            (by simp [Simulator.modify, Simulator.logHook, hxj, hx]) hbx
          exact ⟨mx2, by rw [finishCall_accessor, if_neg hxj, hmx2], r2, c2⟩
  · have hnow' : now = false := by simpa using hnow
    simp only [hnow', Bool.false_eq_true, if_false, Option.some.injEq] at heq
    rw [← heq]
    exact ⟨keep_refl p B s, pot_refl p s⟩

theorem callBody_keep (h : Hooks) (p : Phase) (hl : p.lifecycle)
    (hu : p.usesRunFirst = true) (call : Simulator → Nat → Option Simulator)
    (hc : CallKeeps p call) (B : Nat → Prop) (s : Simulator) (j : Nat) (s' : Simulator)
    (hb : Blocked p B (fun x => x = j) s) (heq : callBody h p call s j = some s')
    (herr : s'.error_descriptions.length = s.error_descriptions.length) :
    Keep p B s s' ∧ Pot p s s' := by
  rcases callBody_split h p call s j s' heq with h0 | ⟨m, s1, now, hacc, hr, hloop, htail⟩
  · rw [h0]; exact ⟨keep_refl p B s, pot_refl p s⟩
  · simp only [hu, if_true] at hloop
    have e1 := runFirstLoop_exec p call j hc.1 _ _ _ _ _ hloop
    have e2 := callTail_exec h p call hc.1 s1 j now s' (fun h' => by
      rw [hu] at h'; exact absurd h' (by simp)) htail
    have l1 := Exec.errs_mono p e1
    have l2 := Exec.errs_mono p e2
    obtain ⟨k1, p1, n1⟩ := runFirstLoop_keep p call hc B j m.run_first s true s1 now hloop
      (by omega) hb m hacc hr (fun x hx _ => hx)
    have hnB : now = true → ¬ B j := by
      intro hnow hBj
      obtain ⟨mw, hmw, _, x, hx, mx, hmx, hst⟩ := hb j hBj
      rw [hacc] at hmw
      simp only [Option.some.injEq] at hmw
      subst hmw
      have := n1 hBj (Or.inr ⟨x, hx, mx, hmx, hst⟩)
      rw [this] at hnow
      exact absurd hnow (by simp)
    obtain ⟨m1, hm1, r1, _⟩ := k1 j m hacc (Or.inl (Or.inr rfl))
    have hb1 : Blocked p B (fun x => x = j) s1 :=
      Blocked.preserved p B _ _ hb k1 (Exec.frame p e1) (fun _ h => Or.inl h)
        (fun _ h => Or.inr h)
    obtain ⟨k2, p2⟩ := callTail_keep h p hl call hc B s1 j now s' m1 hb1 hnB hm1
      (by rw [r1, hr]) htail (by omega)
    exact ⟨keep_trans p B (keep_weaken p B _ k1 (fun _ h => Or.inl h)) k2, pot_trans p p1 p2⟩

theorem callPhase_keeps (h : Hooks) (p : Phase) (hl : p.lifecycle)
    (hu : p.usesRunFirst = true) : ∀ fuel, CallKeeps p (callPhase h p fuel) := by
  intro fuel
  induction fuel with
  | zero =>
    exact ⟨fun s j s' heq => by simp [callPhase] at heq,
      fun B s j s' _ heq => by simp [callPhase] at heq⟩
  | succ n ih =>
    exact ⟨fun s j s' heq => callBody_exec h p (callPhase h p n) ih.1 s j s' heq,
      fun B s j s' hb heq herr =>
        callBody_keep h p hl hu (callPhase h p n) ih B s j s' hb heq herr⟩

/-- The module loop of a Simulator phase keeps the bookkeeping of hook
invocations: always for the phases without `run_first` loop, and for update and
postcalc when no error is recorded. -/
theorem phaseLoop_pot (h : Hooks) (p : Phase) (hl : p.lifecycle) (fuel : Nat) :
    ∀ (ks : List Nat) (s s' : Simulator), phaseLoop (callPhase h p fuel) ks s = some s' →
      (p.usesRunFirst = false ∨
        s'.error_descriptions.length = s.error_descriptions.length) → Pot p s s' := by
  intro ks s s' heq hcond
  by_cases hu : p.usesRunFirst = true
  · have herr : s'.error_descriptions.length = s.error_descriptions.length := by
      rcases hcond with h1 | h1
      · rw [hu] at h1; exact absurd h1 (by simp)
      · exact h1
    have hc := callPhase_keeps h p hl hu fuel
    clear hcond
    induction ks generalizing s with
    | nil =>
      simp only [phaseLoop, Option.some.injEq] at heq
      rw [← heq]; exact pot_refl p s
    | cons k ks ih =>
      simp only [phaseLoop] at heq
      cases hk : callPhase h p fuel s k with
      | none => simp [hk] at heq
      | some s1 =>
        simp only [hk] at heq
        have e1 := hc.1 s k s1 hk
        have l1 := Exec.errs_mono p e1
        have hb : Blocked p (fun _ => False) (fun x => x = k) s := fun w hw => absurd hw id
        by_cases he : s1.error = true
        · simp only [he, if_true, Option.some.injEq] at heq
          rw [← heq] at herr ⊢
          exact (hc.2 _ s k s1 hb hk herr).2
        · have he' : s1.error = false := by simpa using he
          simp only [he', Bool.false_eq_true, if_false] at heq
          have l2 := Exec.errs_mono p
            (phaseLoop_exec p (callPhase h p fuel) hc.1 ks s1 s' heq)
          exact pot_trans p (hc.2 _ s k s1 hb hk (by omega)).2 (ih s1 heq (by omega))
  · have hu' : p.usesRunFirst = false := by simpa using hu
    exact Exec.pot_simple p hl hu'
      (phaseLoop_exec p (callPhase h p fuel) (callPhase_exec h p fuel) ks s s' heq)

theorem resetFold_errs (p : Phase) : ∀ (ks : List Nat) (s : Simulator),
    (ks.foldl (fun s k => s.modify k (Module.setRun p false)) s).error_descriptions
      = s.error_descriptions := by
  intro ks
  induction ks with
  | nil => intro s; rfl
  | cons a ks ih => intro s; rw [List.foldl_cons, ih]; rfl

theorem runPhase_split (h : Hooks) (p : Phase) (fuel : Nat) (s s' : Simulator)
    (heq : Simulator.runPhase h p fuel s = some s') :
    ∃ s1, phaseLoop (callPhase h p fuel) (s.phaseMap p).keys { s with phase := p } = some s1 ∧
      s'.hooklog = s1.hooklog ∧ s'.error_descriptions = s1.error_descriptions := by
  have hmap0 : ({ s with phase := p } : Simulator).phaseMap p = s.phaseMap p := by
    cases p <;> rfl
  unfold Simulator.runPhase at heq
  simp only [hmap0] at heq
  cases hloop : phaseLoop (callPhase h p fuel) (s.phaseMap p).keys { s with phase := p } with
  | none => simp [hloop] at heq
  | some s1 =>
    simp only [hloop] at heq
    refine ⟨s1, rfl, ?_⟩
    by_cases hi : p = Phase.init
    · simp only [hi, if_true, Option.some.injEq] at heq
      rw [← heq]
      exact ⟨rfl, rfl⟩
    · simp only [hi, if_false, Option.some.injEq] at heq
      rw [← heq]
      refine ⟨(resetFold_frame p _ _).1.trans ?_, (resetFold_errs p _ _).trans ?_⟩
      · cases p <;> rfl
      · cases p <;> rfl

/-- C10 (as stated): within one `Simulator::update()` the `update()` hook of a
module can be invoked twice.  Module 0 lists module 1 in `run_first`; the hook
of module 1 re-enters its own `callUpdate()` (which takes the
circular-dependency branch and sets `update_run`) and then calls
`callUpdate()` of module 0, whose hook runs; back in the outer calls the hook
of module 0 runs again, because `update_run` is tested only before the
`run_first` loop. -/
theorem update_hook_invoked_twice :
    (Simulator.update reentryHooks 4 reentrySim).map Simulator.hooklog
      = some [(Phase.update, 1), (Phase.update, 0), (Phase.update, 0)] ∧
    (Simulator.update reentryHooks 4 reentrySim).map (hookCount Phase.update 0) = some 2 := by
  constructor <;> decide!

/-- C10 (amended): for every module and every phase `p` of init, update,
postcalc, check, report, reset, whatever `call{P}()` calls the hooks make: a
`call{P}()` made while `p_run` is set invokes no hook and changes no state;
every module whose hook was invoked during a `call{P}()` is left with
`p_run = true` and `p_called = false`; and within one Simulator phase
invocation the hook of a module is invoked at most once, for init, check,
report and reset always, and for update and postcalc whenever the invocation
records no error. -/
theorem phase_hook_at_most_once (h : Hooks) (p : Phase) (hl : p.lifecycle) :
    (∀ (fuel : Nat) (s : Simulator) (i : Nat) (m : Module), s.accessor i = some m →
      m.run p = true → callPhase h p (fuel + 1) s i = some s) ∧
    (∀ (fuel : Nat) (s : Simulator) (i : Nat) (s' : Simulator),
      callPhase h p fuel s i = some s' →
      ∀ k, hookCount p k s < hookCount p k s' → settled p k s') ∧
    (∀ (fuel : Nat) (s s' : Simulator), Simulator.runPhase h p fuel s = some s' →
      (p.usesRunFirst = false ∨ s'.error_descriptions = s.error_descriptions) →
      ∀ k, hookCount p k s' ≤ hookCount p k s + 1) := by
  refine ⟨?_, ?_, ?_⟩
  · intro fuel s i m hm hr
    show callBody h p (callPhase h p fuel) s i = some s
    simp only [callBody, hm, hr, if_true]
  · intro fuel s i s' heq k hlt
    exact (Exec.hookCount_mono p hl (callPhase_exec h p fuel s i s' heq) k).2 hlt
  · intro fuel s s' heq hcond k
    obtain ⟨s1, hloop, hlog, herrs⟩ := runPhase_split h p fuel s s' heq
    have hpot := phaseLoop_pot h p hl fuel _ _ s1 hloop (by
      rcases hcond with h1 | h1
      · exact Or.inl h1
      · right
        rw [← herrs, h1])
    have hk := hpot k
    have h1 : hookCount p k s' = hookCount p k s1 := by
      unfold hookCount; rw [hlog]
    have h2 : hookCount p k { s with phase := p } = hookCount p k s := rfl
    have h3 : pending p k { s with phase := p } = pending p k s := rfl
    have h4 := pending_le_one p k s
    rw [h2, h3] at hk
    omega

theorem phase_hook_at_most_once_witness :
    ∃ s', Simulator.check reentryHooks 3 reentrySim = some s' ∧
      ∀ k, hookCount Phase.check k s' ≤ hookCount Phase.check k reentrySim + 1 := by
  obtain ⟨s', hs'⟩ := Option.isSome_iff_exists.mp
    (by decide! : (Simulator.check reentryHooks 3 reentrySim).isSome = true)
  exact ⟨s', hs', (phase_hook_at_most_once reentryHooks Phase.check
    ⟨by decide, by decide⟩).2.2 3 reentrySim s' hs' (Or.inl rfl)⟩

/-! ### Flags at the end of a Simulator phase -/

/-- C11: for each of the phases update, postcalc, check, report and reset (the
lifecycle phases other than init), whatever the hooks call: when the
Simulator phase function returns, with or without an error having cut the
module loop short, `{phase}_run` is false for every live module still present
in the map of that phase. -/
theorem phase_run_flags_cleared (h : Hooks) (p : Phase) (hl : p.lifecycle)
    (hi : p ≠ Phase.init) (fuel : Nat) (s s' : Simulator)
    (heq : Simulator.runPhase h p fuel s = some s') :
    ∀ k ∈ (s'.phaseMap p).keys, ∀ m, s'.accessor k = some m → m.run p = false := by
  unfold Simulator.runPhase at heq
  cases hloop : phaseLoop (callPhase h p fuel)
      (({ s with phase := p } : Simulator).phaseMap p).keys { s with phase := p } with
  | none => simp [hloop] at heq
  | some s1 =>
    simp only [hloop, hi, if_false, Option.some.injEq] at heq
    intro k hk m hm
    rw [← heq] at hk hm
    rw [(resetFold_frame p _ _).2.2] at hk
    rw [resetFold_accessor, if_pos hk] at hm
    cases hs : (s1.setPhaseMap p (s1.phaseMap p).erase).accessor k with
    | none => simp [hs] at hm
    | some m0 =>
      simp only [hs, Option.map_some', Option.some.injEq] at hm
      rw [← hm]
      exact Module.setRun_run p hl false m0

theorem phase_run_flags_cleared_witness :
    ∃ s', Simulator.update reentryHooks 4 reentrySim = some s' ∧ s'.error = true ∧
      ∀ k ∈ (s'.phaseMap Phase.update).keys, ∀ m, s'.accessor k = some m →
        m.run Phase.update = false := by
  obtain ⟨s', hs', he⟩ : ∃ s', Simulator.update reentryHooks 4 reentrySim = some s' ∧
      s'.error = true := by
    have h1 : ((Simulator.update reentryHooks 4 reentrySim).map Simulator.error)
        = some true := by decide!
    cases hu : Simulator.update reentryHooks 4 reentrySim with
    | none => simp [hu] at h1
    | some s' => exact ⟨s', rfl, by simpa [hu] using h1⟩
  exact ⟨s', hs', he, phase_run_flags_cleared reentryHooks Phase.update
    ⟨by decide, by decide⟩ (by decide) 4 reentrySim s' hs'⟩

/-! ### `init()` over the lifetime of a module -/

theorem DynamicMap.erase_key_erased_self (k : Nat) (d : DynamicMap) :
    (d.erase_key k).erased k := by
  unfold DynamicMap.erase_key DynamicMap.erased
  by_cases hd : d.direct_erase = true
  · right; simp [hd]
  · left; simp [hd]

theorem DynamicMap.erase_key_erased (k j : Nat) (d : DynamicMap) (h : d.erased k) :
    (d.erase_key j).erased k := by
  unfold DynamicMap.erase_key DynamicMap.erased at *
  by_cases hd : d.direct_erase = true
  · rcases h with h | h
    · left; simpa [hd] using h
    · right; simp [hd, h]
  · rcases h with h | h
    · left; simp [hd, h]
    · right; simpa [hd] using h

theorem DynamicMap.erase_erased (k : Nat) (d : DynamicMap) (h : d.erased k) :
    k ∉ d.erase.keys := by
  unfold DynamicMap.erased at h
  unfold DynamicMap.erase
  rcases h with h | h
  · simp [h]
  · simp [h]

theorem finishCall_inits (p : Phase) (i : Nat) (s : Simulator) :
    (finishCall p i s).inits = if p = Phase.init then s.inits.erase_key i else s.inits := by
  unfold finishCall
  by_cases hp : p = Phase.init <;> simp [hp, Simulator.modify]

theorem Exec.erased_stable (p : Phase) {s s' : Simulator} (h : Exec p s s') :
    ∀ k, s.inits.erased k → s'.inits.erased k := by
  induction h with
  | refl s => intro k hk; exact hk
  | trans _ _ ih1 ih2 => intro k hk; exact ih2 k (ih1 k hk)
  | eraseDead s i j _ => intro k hk; exact hk
  | circular s i m _ _ => intro k hk; exact hk
  | hook s s1 i m _ _ _ _ _ ih =>
    intro k hk
    have h1 : s1.inits.erased k := ih k hk
    rw [finishCall_inits]
    split_ifs
    · exact DynamicMap.erase_key_erased k i _ h1
    · exact h1
  | frozen s i m _ _ _ _ =>
    intro k hk
    rw [finishCall_inits]
    split_ifs
    · exact DynamicMap.erase_key_erased k i _ hk
    · exact hk

/-! ### What a phase leaves alone -/

theorem Module.setRun_run_ne (p q : Phase) (h : q ≠ p) (b : Bool) (m : Module) :
    (Module.setRun p b m).run q = m.run q := by
  cases p <;> cases q <;> first | rfl | exact absurd rfl h

theorem Module.setCalled_called_ne (p q : Phase) (h : q ≠ p) (b : Bool) (m : Module) :
    (Module.setCalled p b m).called q = m.called q := by
  cases p <;> cases q <;> first | rfl | exact absurd rfl h

theorem Module.setRun_rest (p : Phase) (b : Bool) (m : Module) :
    (Module.setRun p b m).freeze_integration = m.freeze_integration ∧
    (Module.setRun p b m).states = m.states := by
  cases p <;> exact ⟨rfl, rfl⟩

theorem Module.setCalled_rest (p : Phase) (b : Bool) (m : Module) :
    (Module.setCalled p b m).freeze_integration = m.freeze_integration ∧
    (Module.setCalled p b m).states = m.states := by
  cases p <;> exact ⟨rfl, rfl⟩

theorem untouched_refl (p : Phase) (s : Simulator) : Untouched p s s where
  same := rfl
  inits := fun _ => rfl
  log := fun _ _ _ => rfl
  alive := fun _ => rfl
  mods := by
    intro k m m' h1 h2
    rw [h1] at h2
    simp only [Option.some.injEq] at h2
    subst h2
    exact ⟨rfl, rfl, rfl, fun _ hx => hx, fun _ _ => ⟨rfl, rfl⟩⟩

theorem untouched_trans (p : Phase) {s s1 s2 : Simulator} (h1 : Untouched p s s1)
    (h2 : Untouched p s1 s2) : Untouched p s s2 where
  same := by
    have e1 : s1.withSched s2 = (s.withSched s1).withSched s2 := by rw [← h1.same]
    exact h2.same.trans e1
  inits := fun hp => (h2.inits hp).trans (h1.inits hp)
  log := fun q k hq => (h2.log q k hq).trans (h1.log q k hq)
  alive := fun k => (h2.alive k).trans (h1.alive k)
  mods := by
    intro k m m2 hm hm2
    have ha : (s1.accessor k).isSome = true := by rw [h1.alive k, hm]; rfl
    obtain ⟨m1, hm1⟩ := Option.isSome_iff_exists.mp ha
    obtain ⟨a1, a2, a3, a4, a5⟩ := h1.mods k m m1 hm hm1
    obtain ⟨b1, b2, b3, b4, b5⟩ := h2.mods k m1 m2 hm1 hm2
    exact ⟨b1.trans a1, b2.trans a2, b3.trans a3, fun x hx => a4 x (b4 x hx),
      fun q hq => ⟨(b5 q hq).1.trans (a5 q hq).1, (b5 q hq).2.trans (a5 q hq).2⟩⟩

/-- A write to the flags of phase `p` of module `i`, or one removing
references from its `run_first`, is left alone in the sense of `Untouched`. -/
theorem untouched_modify (p : Phase) (s : Simulator) (i : Nat) (f : Module → Module)
    (hf : ∀ m, (f m).frozen = m.frozen ∧ (f m).freeze_integration = m.freeze_integration ∧
      (f m).states = m.states ∧ (∀ x ∈ (f m).run_first, x ∈ m.run_first) ∧
      ∀ q, q ≠ p → (f m).run q = m.run q ∧ (f m).called q = m.called q) :
    Untouched p s (s.modify i f) where
  same := rfl
  inits := fun _ => rfl
  log := fun _ _ _ => rfl
  alive := by
    intro k
    by_cases hk : k = i <;> cases hs : s.accessor k <;> simp [Simulator.modify, hk, hs]
    all_goals (subst hk; simp [hs])
  mods := by
    intro k m m' hm hm'
    by_cases hk : k = i
    · subst hk
      rw [Simulator.modify_accessor_self, hm] at hm'
      simp only [Option.map_some', Option.some.injEq] at hm'
      rw [← hm']
      exact hf m
    · rw [Simulator.modify_accessor_ne _ _ _ _ hk, hm] at hm'
      simp only [Option.some.injEq] at hm'
      rw [← hm']
      exact ⟨rfl, rfl, rfl, fun _ hx => hx, fun _ _ => ⟨rfl, rfl⟩⟩

theorem untouched_setRun (p : Phase) (s : Simulator) (i : Nat) (b : Bool) :
    Untouched p s (s.modify i (Module.setRun p b)) :=
  untouched_modify p s i _ (fun m =>
    ⟨Module.setRun_frozen p b m, (Module.setRun_rest p b m).1, (Module.setRun_rest p b m).2,
      fun x hx => by rw [Module.setRun_run_first] at hx; exact hx,
      fun q hq => ⟨Module.setRun_run_ne p q hq b m, Module.setRun_called p q b m⟩⟩)

theorem untouched_setCalled (p : Phase) (s : Simulator) (i : Nat) (b : Bool) :
    Untouched p s (s.modify i (Module.setCalled p b)) :=
  untouched_modify p s i _ (fun m =>
    ⟨Module.setCalled_frozen p b m, (Module.setCalled_rest p b m).1,
      (Module.setCalled_rest p b m).2,
      fun x hx => by rw [Module.setCalled_run_first] at hx; exact hx,
      fun q hq => ⟨Module.setCalled_run p q b m, Module.setCalled_called_ne p q hq b m⟩⟩)

theorem untouched_of_accessor (p : Phase) (s s' : Simulator) (h : s' = s.withSched s')
    (hi : p ≠ Phase.init → s'.inits = s.inits)
    (hl : ∀ q k, q ≠ p → hookCount q k s' = hookCount q k s)
    (ha : s'.accessor = s.accessor) : Untouched p s s' where
  same := h
  inits := hi
  log := hl
  alive := fun k => by rw [ha]
  mods := by
    intro k m m' hm hm'
    rw [ha, hm] at hm'
    simp only [Option.some.injEq] at hm'
    rw [← hm']
    exact ⟨rfl, rfl, rfl, fun _ hx => hx, fun _ _ => ⟨rfl, rfl⟩⟩

theorem untouched_setError (p : Phase) (s : Simulator) (d : String) :
    Untouched p s (s.setError d) :=
  untouched_of_accessor p s _ rfl (fun _ => rfl) (fun _ _ _ => rfl) rfl

theorem untouched_logHook (p : Phase) (s : Simulator) (i : Nat) :
    Untouched p s (s.logHook p i) :=
  untouched_of_accessor p s _ rfl (fun _ => rfl)
    (fun q k hq => by
      unfold hookCount Simulator.logHook
      rw [List.count_append]
      have : ((p, i) == (q, k)) = false := by
        simp only [beq_eq_false_iff_ne, ne_eq, Prod.mk.injEq, not_and]
        intro h; exact absurd h.symm hq
      simp [List.count_cons, this])
    rfl

theorem untouched_finishCall (p : Phase) (s : Simulator) (i : Nat) :
    Untouched p s (finishCall p i s) := by
  have h1 := untouched_trans p (untouched_setRun p s i true)
    (untouched_setCalled p (s.modify i (Module.setRun p true)) i false)
  unfold finishCall
  by_cases hp : p = Phase.init
  · simp only [hp, if_true]
    rw [hp] at h1
    exact untouched_trans Phase.init h1
      (untouched_of_accessor Phase.init _ _ rfl (fun h => absurd rfl h) (fun _ _ _ => rfl) rfl)
  · simp only [hp, if_false]
    exact h1

theorem Exec.untouched (p : Phase) {s s' : Simulator} (h : Exec p s s') : Untouched p s s' := by
  induction h with
  | refl s => exact untouched_refl p s
  | trans _ _ ih1 ih2 => exact untouched_trans p ih1 ih2
  | eraseDead s i j _ =>
    exact untouched_modify p s i _ (fun m =>
      ⟨rfl, rfl, rfl, fun x hx => List.mem_of_mem_erase hx, fun _ _ => ⟨rfl, rfl⟩⟩)
  | circular s i m _ _ =>
    exact untouched_trans p (untouched_trans p (untouched_setError p s _)
      (untouched_setRun p _ i true)) (untouched_setCalled p _ i false)
  | hook s s1 i m _ _ _ _ _ ih =>
    exact untouched_trans p (untouched_trans p (untouched_trans p
      (untouched_setCalled p s i true) (untouched_logHook p _ i)) ih)
      (untouched_finishCall p s1 i)
  | frozen s i m _ _ _ _ =>
    exact untouched_trans p (untouched_setCalled p s i true) (untouched_finishCall p _ i)

theorem Simulator.phaseMap_setPhaseMap (p : Phase) (hl : p.lifecycle) (d : DynamicMap)
    (s : Simulator) : (s.setPhaseMap p d).phaseMap p = d := by
  obtain ⟨h1, h2⟩ := hl
  cases p <;> first | rfl | exact absurd rfl h1 | exact absurd rfl h2

theorem untouched_setPhaseMap (p : Phase) {s s' : Simulator} (h : Untouched p s s')
    (d : DynamicMap) : Untouched p (s.setPhaseMap p d) (s'.setPhaseMap p d) where
  same := by
    have e : s'.setPhaseMap p d = (s.withSched s').setPhaseMap p d := by rw [← h.same]
    rw [e]
    cases p <;> rfl
  inits := by
    intro hp
    have := h.inits hp
    cases p <;> first | exact this | exact absurd rfl hp
  log := by
    intro q k hq
    have := h.log q k hq
    cases p <;> exact this
  alive := by
    intro k
    have := h.alive k
    cases p <;> exact this
  mods := by
    intro k m m' hm hm'
    have := h.mods k m m'
    cases p <;> exact this hm hm'

theorem resetFold_untouched (p : Phase) : ∀ (ks : List Nat) (s : Simulator),
    Untouched p s (ks.foldl (fun s k => s.modify k (Module.setRun p false)) s) := by
  intro ks
  induction ks with
  | nil => intro s; exact untouched_refl p s
  | cons a ks ih =>
    intro s
    rw [List.foldl_cons]
    exact untouched_trans p (untouched_setRun p s a false) (ih _)

/-- A Simulator phase function of phase `p` leaves alone, in the sense of
`Untouched`, everything but the `phase` member and the map of the phase, whose
staged removals it flushes. -/
theorem runPhase_untouched (h : Hooks) (p : Phase) (hl : p.lifecycle) (fuel : Nat)
    (s s' : Simulator) (heq : Simulator.runPhase h p fuel s = some s') :
    Untouched p (({ s with phase := p } : Simulator).setPhaseMap p (s'.phaseMap p)) s' ∧
    (p ≠ Phase.init → s'.phaseMap p = (s.phaseMap p).erase) := by
  have hmap0 : ({ s with phase := p } : Simulator).phaseMap p = s.phaseMap p := by
    cases p <;> rfl
  unfold Simulator.runPhase at heq
  simp only [hmap0] at heq
  cases hloop : phaseLoop (callPhase h p fuel) (s.phaseMap p).keys { s with phase := p } with
  | none => simp [hloop] at heq
  | some s1 =>
    simp only [hloop] at heq
    have hu : Untouched p { s with phase := p } s1 :=
      Exec.untouched p (phaseLoop_exec p _ (callPhase_exec h p fuel) _ _ _ hloop)
    have hu2 := untouched_setPhaseMap p hu (s1.phaseMap p).erase
    have hmap1 : p ≠ Phase.init → s1.phaseMap p = s.phaseMap p := by
      intro hp
      have e : s1.phaseMap p = (({ s with phase := p } : Simulator).withSched s1).phaseMap p := by
        rw [← hu.same]
      have hin := hu.inits hp
      rw [e, ← hmap0]
      cases p <;> first | rfl | exact absurd rfl hp
    by_cases hi : p = Phase.init
    · simp only [hi, if_true, Option.some.injEq] at heq
      subst hi
      rw [← heq, Simulator.phaseMap_setPhaseMap Phase.init hl]
      exact ⟨hu2, fun hp => absurd rfl hp⟩
    · simp only [hi, if_false, Option.some.injEq] at heq
      have hmap' : s'.phaseMap p = (s1.phaseMap p).erase := by
        rw [← heq, (resetFold_frame p _ _).2.2, Simulator.phaseMap_setPhaseMap p hl]
      refine ⟨?_, fun hp => by rw [hmap', hmap1 hp]⟩
      rw [hmap']
      have hf := resetFold_untouched p
        ((s1.setPhaseMap p (s1.phaseMap p).erase).phaseMap p).keys
        (s1.setPhaseMap p (s1.phaseMap p).erase)
      rw [heq] at hf
      exact untouched_trans p hu2 hf

theorem settled_count_stable (p : Phase) (hl : p.lifecycle) (hs : p.usesRunFirst = false)
    {s s' : Simulator} (h : Exec p s s') (i : Nat) (hi : settled p i s) :
    hookCount p i s' = hookCount p i s ∧ settled p i s' := by
  have hset := Exec.settled_stable p hl h i hi
  refine ⟨?_, hset⟩
  have hpot := Exec.pot_simple p hl hs h i
  have hmono := (Exec.hookCount_mono p hl h i).1
  have hp0 : pending p i s = 0 := by
    obtain ⟨m, hm, hr, _⟩ := hi
    unfold pending
    rw [hm]; simp [hr]
  omega

/-- C12 (as stated): the hook `init()` of a module need not be invoked at all.
A module that is frozen at its first `callInit()` gets `init_run = true`
without its hook being invoked, so neither that call, nor a later `callInit()`
made after the module is unfrozen, nor `Simulator::init()` invokes the hook. -/
theorem init_hook_skipped_when_frozen :
    (Module.callInit plainHooks 1 frozenSim 0).map
        (fun s => (s.hooklog, (s.accessor 0).map Module.init_run)) = some ([], some true) ∧
    ((Module.callInit plainHooks 1 frozenSim 0).bind
        (fun s => Module.callInit plainHooks 1 (s.unfreeze 0) 0)).map
        (fun s => (s.hooklog, (s.accessor 0).map Module.frozen)) = some ([], some false) ∧
    (Simulator.init plainHooks 1 frozenSim).map Simulator.hooklog = some [] := by
  refine ⟨?_, ?_, ?_⟩ <;> decide!

/-- C12 (amended): for every module `i`, whatever the hooks call.  The first
`callInit()` (made with `init_run` and `init_called` clear) that returns has
invoked the hook `init()` exactly once when the module is not frozen and not
at all when it is frozen; it leaves `init_run = true`, `init_called = false`
and the removal of `i` from `inits` requested.  From then on, over any
sequence of `callInit()` calls on any modules and any `Simulator::init()`, the
number of invocations of the hook of `i` does not change, `init_run` stays
true, the removal stays requested and is applied by the flush of
`Simulator::init()`; a `callInit()` on `i` invokes no hook and changes no
state; and the other Simulator phases change neither the init flags of `i` nor
the number of invocations of its hook. -/
theorem init_hook_once (h : Hooks) (i : Nat) :
    (∀ (fuel : Nat) (s s1 : Simulator) (m : Module), s.accessor i = some m →
      m.init_run = false → m.init_called = false →
      Module.callInit h fuel s i = some s1 →
      hookCount Phase.init i s1 = hookCount Phase.init i s + (if m.frozen then 0 else 1) ∧
      settled Phase.init i s1 ∧ s1.inits.erased i) ∧
    (∀ (fuel : Nat) (js : List Nat) (s1 s2 : Simulator),
      callSeq (Module.callInit h fuel) js s1 = some s2 → settled Phase.init i s1 →
      hookCount Phase.init i s2 = hookCount Phase.init i s1 ∧ settled Phase.init i s2 ∧
      (s1.inits.erased i → s2.inits.erased i)) ∧
    (∀ (fuel : Nat) (s1 s2 : Simulator), Simulator.init h fuel s1 = some s2 →
      settled Phase.init i s1 →
      hookCount Phase.init i s2 = hookCount Phase.init i s1 ∧ settled Phase.init i s2 ∧
      (s1.inits.erased i → i ∉ s2.inits.keys)) ∧
    (∀ (fuel : Nat) (s : Simulator), settled Phase.init i s →
      Module.callInit h (fuel + 1) s i = some s) ∧
    (∀ (p : Phase) (fuel : Nat) (s1 s2 : Simulator), p.lifecycle → p ≠ Phase.init →
      Simulator.runPhase h p fuel s1 = some s2 → settled Phase.init i s1 →
      hookCount Phase.init i s2 = hookCount Phase.init i s1 ∧ settled Phase.init i s2) := by
  have hl : Phase.init.lifecycle := ⟨by decide, by decide⟩
  refine ⟨?_, ?_, ?_, ?_, ?_⟩
  · intro fuel s s1 m hm hr hc heq
    have hex : Exec Phase.init s s1 := callPhase_exec h Phase.init fuel s i s1 heq
    have hpot := Exec.pot_simple Phase.init hl rfl hex i
    have hpend : pending Phase.init i s = 1 := pending_of_clear Phase.init i s m hm hr hc
    cases fuel with
    | zero => simp [Module.callInit, callPhase] at heq
    | succ n =>
      have hr' : m.run Phase.init = false := hr
      have hc' : m.called Phase.init = false := hc
      change callBody h Phase.init (callPhase h Phase.init n) s i = some s1 at heq
      simp only [callBody, hm, hr', Phase.usesRunFirst, callTail, hc', if_true,
        Bool.false_eq_true, if_false] at heq
      by_cases hf : m.frozen = true
      · simp only [hf, Bool.not_true, Bool.false_eq_true, if_false, Option.some.injEq] at heq
        rw [← heq]
        refine ⟨?_, ?_, ?_⟩
        · simp only [hf, if_true, Nat.add_zero]
          unfold hookCount
          rw [finishCall_hooklog]
          rfl
        · apply settled_finishCall_self Phase.init hl
          rw [Simulator.modify_accessor_self, hm]; rfl
        · rw [finishCall_inits, if_pos rfl]
          exact DynamicMap.erase_key_erased_self i _
      · have hf' : m.frozen = false := by simpa using hf
        simp only [hf', Bool.not_false, if_true, runHook] at heq
        cases hseq : callSeq (callPhase h Phase.init n) (h.calls Phase.init i)
            ((s.modify i (Module.setCalled Phase.init true)).logHook Phase.init i) with
        | none => simp [hseq] at heq
        | some s2 =>
          simp only [hseq, Option.some.injEq] at heq
          have hex2 := callSeq_exec Phase.init _ (callPhase_exec h Phase.init n) _ _ _ hseq
          have hmono := (Exec.hookCount_mono Phase.init hl hex2 i).1
          have hstart : hookCount Phase.init i
              ((s.modify i (Module.setCalled Phase.init true)).logHook Phase.init i)
              = hookCount Phase.init i s + 1 := by
            unfold hookCount Simulator.logHook
            rw [List.count_append]
            simp [Simulator.modify]
          have hfin : hookCount Phase.init i s1 = hookCount Phase.init i s2 := by
            rw [← heq]; unfold hookCount; rw [finishCall_hooklog]
          have halive : (s2.accessor i).isSome = true := by
            rw [Exec.alive Phase.init hex2 i]
            show (((s.modify i (Module.setCalled Phase.init true))).accessor i).isSome = true
            rw [Simulator.modify_accessor_self, hm]; rfl
          have hset : settled Phase.init i s1 := by
            rw [← heq]; exact settled_finishCall_self Phase.init hl i s2 halive
          refine ⟨?_, hset, ?_⟩
          · have hp1 : pending Phase.init i s1 = 0 := by
              obtain ⟨m1, hm1, hr1, _⟩ := hset
              unfold pending
              rw [hm1]; simp [hr1]
            simp only [hf', Bool.false_eq_true, if_false]
            omega
          · rw [← heq, finishCall_inits, if_pos rfl]
            exact DynamicMap.erase_key_erased_self i _
  · intro fuel js s1 s2 heq hset
    have hex : Exec Phase.init s1 s2 :=
      callSeq_exec Phase.init _ (callPhase_exec h Phase.init fuel) js s1 s2 heq
    obtain ⟨h1, h2⟩ := settled_count_stable Phase.init hl rfl hex i hset
    exact ⟨h1, h2, Exec.erased_stable Phase.init hex i⟩
  · intro fuel s1 s2 heq hset
    unfold Simulator.init Simulator.runPhase at heq
    cases hloop : phaseLoop (callPhase h Phase.init fuel)
        (({ s1 with phase := Phase.init } : Simulator).phaseMap Phase.init).keys
        { s1 with phase := Phase.init } with
    | none => simp [hloop] at heq
    | some s3 =>
      simp only [hloop, if_true, Option.some.injEq] at heq
      have hex : Exec Phase.init { s1 with phase := Phase.init } s3 :=
        phaseLoop_exec Phase.init _ (callPhase_exec h Phase.init fuel) _ _ _ hloop
      obtain ⟨h1, h2⟩ := settled_count_stable Phase.init hl rfl hex i hset
      rw [← heq]
      refine ⟨h1, h2, ?_⟩
      intro he
      exact DynamicMap.erase_erased i _ (Exec.erased_stable Phase.init hex i he)
  · intro fuel s hset
    obtain ⟨m, hm, hr, _⟩ := hset
    show callBody h Phase.init (callPhase h Phase.init fuel) s i = some s
    simp only [callBody, hm, hr, if_true]
  · intro p fuel s1 s2 hlp hpi heq hset
    obtain ⟨hu, _⟩ := runPhase_untouched h p hlp fuel s1 s2 heq
    have hacc : ((({ s1 with phase := p } : Simulator).setPhaseMap p
        (s2.phaseMap p)).accessor) = s1.accessor := by cases p <;> rfl
    have hlog : hookCount Phase.init i (({ s1 with phase := p } : Simulator).setPhaseMap p
        (s2.phaseMap p)) = hookCount Phase.init i s1 := by cases p <;> rfl
    refine ⟨(hu.log Phase.init i (Ne.symm hpi)).trans hlog, ?_⟩
    obtain ⟨m, hm, hr, hc⟩ := hset
    have ha : (s2.accessor i).isSome = true := by rw [hu.alive i, hacc, hm]; rfl
    obtain ⟨m2, hm2⟩ := Option.isSome_iff_exists.mp ha
    obtain ⟨_, _, _, _, hq⟩ := hu.mods i m m2 (by rw [hacc]; exact hm) hm2
    obtain ⟨q1, q2⟩ := hq Phase.init (Ne.symm hpi)
    exact ⟨m2, hm2, q1.trans hr, q2.trans hc⟩

theorem init_hook_once_witness :
    ∃ s1, Module.callInit plainHooks 1 orderSim 0 = some s1 ∧
      hookCount Phase.init 0 s1 = hookCount Phase.init 0 orderSim + 1 ∧
      settled Phase.init 0 s1 ∧ s1.inits.erased 0 ∧
      Module.callInit plainHooks 1 s1 0 = some s1 := by
  obtain ⟨s1, hs1⟩ := Option.isSome_iff_exists.mp
    (by decide! : (Module.callInit plainHooks 1 orderSim 0).isSome = true)
  obtain ⟨h1, h2, h3⟩ := (init_hook_once plainHooks 0).1 1 orderSim s1 (Module.fresh [] [])
    rfl rfl rfl hs1
  exact ⟨s1, hs1, h1, h2, h3, (init_hook_once plainHooks 0).2.2.2.1 0 s1 h2⟩

/-! ### The adaptive step size -/

theorem optimalOfStates_append (a b : List ℚ) (acc : ℚ × Bool) :
    optimalOfStates (a ++ b) acc = optimalOfStates b (optimalOfStates a acc) := by
  unfold optimalOfStates
  rw [List.foldl_append]

theorem optimalOfStates_cons (c : ℚ) (vs : List ℚ) (a : ℚ) (b : Bool) :
    optimalOfStates (c :: vs) (a, b) =
      optimalOfStates vs (if 0 < c ∧ c < a then (c, true) else (a, b)) := by
  unfold optimalOfStates
  rw [List.foldl_cons]

/-- The search of `adaptiveCalc()` visits the values of `visitedOptima` in
order. -/
theorem Simulator.optimalSearch_eq (opt : Nat → Nat → ℚ) (s : Simulator) :
    s.optimalSearch opt = optimalOfStates (s.visitedOptima opt) (1000000000, false) := by
  unfold Simulator.optimalSearch Simulator.visitedOptima
  generalize ((1000000000, false) : ℚ × Bool) = acc
  generalize s.propagate.keys = ks
  induction ks generalizing acc with
  | nil => rfl
  | cons k ks ih =>
    rw [List.foldl_cons, List.flatMap_cons, optimalOfStates_append, ih]
    cases hk : s.accessor k with
    | none => rfl
    | some m =>
      by_cases hg : (!m.frozen && !m.freeze_integration) = true
      · simp only [hg, if_true]
      · simp only [hg, if_false]
        rfl

/-- What the inner loop computes from `dt_optimal = a`, `optimal_found = b`:
the flag is raised exactly by a positive value below `a`, and then the result
is the least positive value. -/
theorem optimalOfStates_spec : ∀ (vs : List ℚ) (a : ℚ) (b : Bool),
    ((optimalOfStates vs (a, b)).2 = true ↔ b = true ∨ ∃ v ∈ vs, 0 < v ∧ v < a) ∧
    (optimalOfStates vs (a, b)).1 ≤ a ∧
    (∀ v ∈ vs, 0 < v → (optimalOfStates vs (a, b)).1 ≤ v) ∧
    ((∃ v ∈ vs, 0 < v ∧ v < a) →
      (optimalOfStates vs (a, b)).1 ∈ vs ∧ 0 < (optimalOfStates vs (a, b)).1) ∧
    ((¬ ∃ v ∈ vs, 0 < v ∧ v < a) → (optimalOfStates vs (a, b)).1 = a) := by
  intro vs
  induction vs with
  | nil =>
    intro a b
    simp [optimalOfStates]
  | cons c vs ih =>
    intro a b
    rw [optimalOfStates_cons]
    by_cases hc : 0 < c ∧ c < a
    · rw [if_pos hc]
      obtain ⟨i1, i2, i3, i4, i5⟩ := ih c true
      have hex : ∃ v ∈ c :: vs, 0 < v ∧ v < a := ⟨c, List.mem_cons_self _ _, hc⟩
      refine ⟨?_, le_trans i2 (le_of_lt hc.2), ?_, ?_, fun hn => absurd hex hn⟩
      · constructor
        · intro _; exact Or.inr hex
        · intro _; exact i1.mpr (Or.inl rfl)
      · intro v hv hpos
        rcases List.mem_cons.mp hv with h | h
        · rw [h]; exact i2
        · exact i3 v h hpos
      · intro _
        by_cases hex2 : ∃ v ∈ vs, 0 < v ∧ v < c
        · obtain ⟨j1, j2⟩ := i4 hex2
          exact ⟨List.mem_cons_of_mem _ j1, j2⟩
        · rw [i5 hex2]
          exact ⟨List.mem_cons_self _ _, hc.1⟩
    · rw [if_neg hc]
      obtain ⟨i1, i2, i3, i4, i5⟩ := ih a b
      have hiff : (∃ v ∈ c :: vs, 0 < v ∧ v < a) ↔ ∃ v ∈ vs, 0 < v ∧ v < a := by
        constructor
        · rintro ⟨v, hv, hv2⟩
          rcases List.mem_cons.mp hv with h | h
          · rw [h] at hv2; exact absurd hv2 hc
          · exact ⟨v, h, hv2⟩
        · rintro ⟨v, hv, hv2⟩
          exact ⟨v, List.mem_cons_of_mem _ hv, hv2⟩
      refine ⟨?_, i2, ?_, ?_, ?_⟩
      · rw [hiff]; exact i1
      · intro v hv hpos
        rcases List.mem_cons.mp hv with h | h
        · rw [h] at hpos ⊢
          have : a ≤ c := by
            by_contra hlt
            exact hc ⟨hpos, lt_of_not_le hlt⟩
          exact le_trans i2 this
        · exact i3 v h hpos
      · intro hex
        obtain ⟨j1, j2⟩ := i4 (hiff.mp hex)
        exact ⟨List.mem_cons_of_mem _ j1, j2⟩
      · intro hn
        exact i5 (fun h => hn (hiff.mpr h))

theorem Simulator.adaptiveCalc_found (opt : Nat → Nat → ℚ) (s : Simulator)
    (hf : (s.optimalSearch opt).2 = true) :
    (s.adaptiveCalc opt).change_dt = true ∧
    (s.adaptiveCalc opt).stepper = s.stepper ∧
    (s.adaptiveCalc opt).dt_change =
      if (s.optimalSearch opt).1 < s.stepper.EPS then s.stepper.EPS
      else if (s.optimalSearch opt).1 > 2 * s.stepper.dtp then 2 * s.stepper.dtp
      else (s.optimalSearch opt).1 := by
  unfold Simulator.adaptiveCalc
  simp only [hf, if_true]
  refine ⟨trivial, ?_, ?_⟩
  · split_ifs <;> rfl
  · split_ifs <;> rfl

/-- C13 (as stated): a committed `dt_change` can be below `EPS`, and it can be
above `2·dtp`.  With `EPS = 1e-8` and `dtp = 1e-9`: an optimal step of 1
commits `dt_change = 2·dtp = 2e-9 < EPS`; an optimal step of `1e-10` commits
`dt_change = EPS = 1e-8 > 2·dtp`. -/
theorem adaptiveCalc_bounds_fail_for_tiny_step :
    ((tinyStepSim.adaptiveCalc (fun _ _ => 1)).change_dt = true ∧
      (tinyStepSim.adaptiveCalc (fun _ _ => 1)).dt_change = 2 / 1000000000 ∧
      (tinyStepSim.adaptiveCalc (fun _ _ => 1)).dt_change < tinyStepSim.stepper.EPS) ∧
    ((tinyStepSim.adaptiveCalc (fun _ _ => 1 / 10000000000)).change_dt = true ∧
      (tinyStepSim.adaptiveCalc (fun _ _ => 1 / 10000000000)).dt_change = 1 / 100000000 ∧
      2 * tinyStepSim.stepper.dtp
        < (tinyStepSim.adaptiveCalc (fun _ _ => 1 / 10000000000)).dt_change) := by
  refine ⟨⟨?_, ?_, ?_⟩, ⟨?_, ?_, ?_⟩⟩ <;> decide!

/-- C13 (amended): in every simulator state with `EPS ≤ 2·dtp` and for every
collection of `optimalTimeStep()` results, whenever `adaptiveCalc()` commits a
change (its search found an optimal step, so `change_dt` is set), the
committed value satisfies `dt_change ≤ 2·dtp` and `dt_change ≥ EPS`. -/
theorem adaptiveCalc_commit_bounds (opt : Nat → Nat → ℚ) (s : Simulator)
    (hE : s.stepper.EPS ≤ 2 * s.stepper.dtp) (hf : (s.optimalSearch opt).2 = true) :
    (s.adaptiveCalc opt).change_dt = true ∧
    (s.adaptiveCalc opt).dt_change ≤ 2 * s.stepper.dtp ∧
    s.stepper.EPS ≤ (s.adaptiveCalc opt).dt_change := by
  obtain ⟨h1, _, h3⟩ := Simulator.adaptiveCalc_found opt s hf
  refine ⟨h1, ?_, ?_⟩
  · rw [h3]
    split_ifs with a b
    · exact hE
    · exact le_refl _
    · exact not_lt.mp b
  · rw [h3]
    split_ifs with a b
    · exact le_refl _
    · exact hE
    · exact not_lt.mp a

theorem adaptiveCalc_commit_bounds_witness :
    (decaySim.adaptiveCalc (fun _ _ => 1)).change_dt = true ∧
    (decaySim.adaptiveCalc (fun _ _ => 1)).dt_change ≤ 2 * decaySim.stepper.dtp ∧
    decaySim.stepper.EPS ≤ (decaySim.adaptiveCalc (fun _ _ => 1)).dt_change :=
  adaptiveCalc_commit_bounds (fun _ _ => 1) decaySim (by decide!) (by decide!)

/-- C14 (as stated): states of a frozen module of the `propagate` map do not
count, and positive values of `1.0e9` or more do not count.  A frozen module
whose state returns the positive value 1/2, and an unfrozen module whose state
returns `2.0e9`: in both cases a state of a module of `propagate` returns a
positive value, and `adaptiveCalc()` commits nothing. -/
theorem adaptiveCalc_ignores_positive_values :
    (frozenStateSim.allOptima (fun _ _ => 1 / 2) = [1 / 2] ∧
      frozenStateSim.propagate.keys = [0] ∧
      (frozenStateSim.adaptiveCalc (fun _ _ => 1 / 2)).change_dt = false) ∧
    (decaySim.allOptima (fun _ _ => 2000000000) = [2000000000] ∧
      (decaySim.adaptiveCalc (fun _ _ => 2000000000)).change_dt = false) := by
  refine ⟨⟨?_, ?_, ?_⟩, ⟨?_, ?_⟩⟩ <;> decide!

/-- C14 (amended): `adaptiveCalc()` searches the `optimalTimeStep()` values of
the states of the modules of `propagate` that are neither frozen nor
integration-frozen.  It finds a candidate exactly when one of these values is
positive and below `1.0e9`; the candidate is then the minimum of the strictly
positive ones among these values; a change is committed (`change_dt` set,
`dt_change` the candidate clamped to `EPS` from below, else to `2·dtp` from
above) exactly when a candidate is found, and otherwise the state is
unchanged. -/
theorem adaptiveCalc_min_positive (opt : Nat → Nat → ℚ) (s : Simulator) :
    ((s.optimalSearch opt).2 = true ↔
      ∃ v ∈ s.visitedOptima opt, 0 < v ∧ v < 1000000000) ∧
    ((s.optimalSearch opt).2 = true →
      (s.optimalSearch opt).1 ∈ s.visitedOptima opt ∧ 0 < (s.optimalSearch opt).1 ∧
      (∀ v ∈ s.visitedOptima opt, 0 < v → (s.optimalSearch opt).1 ≤ v) ∧
      (s.adaptiveCalc opt).change_dt = true ∧
      (s.adaptiveCalc opt).dt_change =
        if (s.optimalSearch opt).1 < s.stepper.EPS then s.stepper.EPS
        else if (s.optimalSearch opt).1 > 2 * s.stepper.dtp then 2 * s.stepper.dtp
        else (s.optimalSearch opt).1) ∧
    ((s.optimalSearch opt).2 = false → s.adaptiveCalc opt = s) := by
  obtain ⟨i1, _, i3, i4, _⟩ := optimalOfStates_spec (s.visitedOptima opt) 1000000000 false
  rw [← Simulator.optimalSearch_eq] at i1 i3 i4
  have hiff : (s.optimalSearch opt).2 = true ↔
      ∃ v ∈ s.visitedOptima opt, 0 < v ∧ v < 1000000000 := by
    rw [i1]; simp
  refine ⟨hiff, ?_, ?_⟩
  · intro hf
    obtain ⟨j1, j2⟩ := i4 (hiff.mp hf)
    obtain ⟨k1, _, k3⟩ := Simulator.adaptiveCalc_found opt s hf
    exact ⟨j1, j2, i3, k1, k3⟩
  · intro hf
    unfold Simulator.adaptiveCalc
    simp [hf]

theorem adaptiveCalc_min_positive_witness :
    (decaySim.optimalSearch (fun _ _ => 1 / 20)).2 = true ∧
    (decaySim.adaptiveCalc (fun _ _ => 1 / 20)).change_dt = true ∧
    (decaySim.adaptiveCalc (fun _ _ => 1 / 20)).dt_change = 1 / 20 := by
  have hf : (decaySim.optimalSearch (fun _ _ => 1 / 20)).2 = true := by decide!
  obtain ⟨_, _, _, h4, _⟩ := (adaptiveCalc_min_positive (fun _ _ => 1 / 20) decaySim).2.1 hf
  exact ⟨hf, h4, by decide!⟩

/-- C15 (as stated): an optimal step above `2·dtp` does not always commit
`2·dtp`.  With `EPS = 1e-8` and `dtp = 1e-9`, the minimum positive optimal
step `5e-9` exceeds `2·dtp = 2e-9` but is below `EPS`; `adaptiveCalc()`
commits `EPS`, and after `changeTimeStep()` the step is `dt = 1e-8`, five
times `2·dtp`. -/
theorem adaptive_growth_not_doubled :
    tinyStepSim.optimalSearch (fun _ _ => 5 / 1000000000) = (5 / 1000000000, true) ∧
    2 * tinyStepSim.stepper.dtp < 5 / 1000000000 ∧
    ((tinyStepSim.adaptiveCalc (fun _ _ => 5 / 1000000000)).changeTimeStep).stepper.dt
      = 1 / 100000000 ∧
    ((tinyStepSim.adaptiveCalc (fun _ _ => 5 / 1000000000)).changeTimeStep).stepper.dt
      ≠ 2 * tinyStepSim.stepper.dtp := by
  refine ⟨?_, ?_, ?_, ?_⟩ <;> decide!

/-- C15 (amended): when the minimum positive `optimalTimeStep()` found by
`adaptiveCalc()` exceeds `2·dtp` and is not below `EPS`, then after the
following `changeTimeStep()` the step is `dt = 2·dtp_old`, with `dtp = dt`,
`t1 = t + dt`, `t` unchanged and `change_dt` cleared; and `changeTimeStep()`
with `change_dt` false changes nothing. -/
theorem adaptive_growth_doubles (opt : Nat → Nat → ℚ) (s : Simulator)
    (hf : (s.optimalSearch opt).2 = true)
    (hgt : 2 * s.stepper.dtp < (s.optimalSearch opt).1)
    (hE : s.stepper.EPS ≤ (s.optimalSearch opt).1) :
    ((s.adaptiveCalc opt).changeTimeStep).stepper.dt = 2 * s.stepper.dtp ∧
    ((s.adaptiveCalc opt).changeTimeStep).stepper.dtp
      = ((s.adaptiveCalc opt).changeTimeStep).stepper.dt ∧
    ((s.adaptiveCalc opt).changeTimeStep).stepper.t = s.stepper.t ∧
    ((s.adaptiveCalc opt).changeTimeStep).stepper.t1
      = s.stepper.t + ((s.adaptiveCalc opt).changeTimeStep).stepper.dt ∧
    ((s.adaptiveCalc opt).changeTimeStep).change_dt = false ∧
    (∀ s0 : Simulator, s0.change_dt = false → s0.changeTimeStep = s0) := by
  obtain ⟨h1, h2, h3⟩ := Simulator.adaptiveCalc_found opt s hf
  rw [if_neg (not_lt.mpr hE), if_pos hgt] at h3
  have hdt : ((s.adaptiveCalc opt).changeTimeStep).stepper.dt = 2 * s.stepper.dtp := by
    unfold Simulator.changeTimeStep
    simp only [h1, if_true]
    exact h3
  refine ⟨hdt, ?_, ?_, ?_, ?_, ?_⟩
  · unfold Simulator.changeTimeStep
    simp only [h1, if_true]
  · unfold Simulator.changeTimeStep
    simp only [h1, if_true]
    rw [h2]
  · rw [hdt]
    unfold Simulator.changeTimeStep
    simp only [h1, if_true]
    rw [h3, h2]
  · unfold Simulator.changeTimeStep
    simp only [h1, if_true]
  · intro s0 h0
    unfold Simulator.changeTimeStep
    simp [h0]

theorem adaptive_growth_doubles_witness :
    ((decaySim.adaptiveCalc (fun _ _ => 1)).changeTimeStep).stepper.dt
      = 2 * decaySim.stepper.dtp ∧
    ((decaySim.adaptiveCalc (fun _ _ => 1)).changeTimeStep).change_dt = false := by
  obtain ⟨h1, _, _, _, h5, _⟩ := adaptive_growth_doubles (fun _ _ => 1) decaySim
    (by decide!) (by decide!) (by decide!)
  exact ⟨h1, h5⟩

/-! ### `event(t_event)` and `sample(sdt)` -/

theorem Simulator.event_snd (te : ℚ) (s : Simulator) (hk : s.stepper.kpass = 0) :
    (s.event te).2 = decide (|te - s.stepper.t| < s.stepper.EPS) := by
  unfold Simulator.event Simulator.sample
  by_cases hc : te < s.stepper.t1 - s.stepper.EPS ∧ te ≥ s.stepper.t + s.stepper.EPS
  · simp only [hk, hc, if_true, and_self, Bool.not_true, Bool.false_eq_true, if_false]
    split_ifs with h <;> simp [h]
  · simp only [hk, hc, if_true, if_false, Bool.not_true, Bool.false_eq_true]
    split_ifs with h <;> simp [h]

theorem Simulator.event_off_sample (te : ℚ) (s : Simulator) (hk : s.stepper.kpass ≠ 0) :
    s.event te = (s, false) := by
  unfold Simulator.event Simulator.sample
  simp [hk]

/-- C16 (as stated): `event(t_event)` does not clamp to an event that lies
less than `EPS` ahead, and off a sample boundary it returns false whatever the
distance.  With `t = 0`, `t1 = 0.1`, `EPS = 1e-8`, `kpass = 0` and
`t_event = 1e-9`: `t < t_event < t1 − EPS` and `t1` stays `0.1`.  With
`kpass = 1` and `t_event = t`: `|t_event − t| < EPS` and the call returns
false. -/
theorem event_ignores_near_event :
    (decaySim.stepper.t < 1 / 1000000000 ∧
      (1 / 1000000000 : ℚ) < decaySim.stepper.t1 - decaySim.stepper.EPS ∧
      (decaySim.event (1 / 1000000000)).1.stepper.t1 = 1 / 10) ∧
    (|(0 : ℚ) - decaySim.stepper.t| < decaySim.stepper.EPS ∧
      (Simulator.event 0
        { decaySim with stepper := { decaySim.stepper with kpass := 1 } }).2 = false) := by
  refine ⟨⟨?_, ?_, ?_⟩, ⟨?_, ?_⟩⟩ <;> decide!

/-- C16 (amended): for every simulator state and every `t_event`: off a
sample boundary (`kpass ≠ 0`) `event(t_event)` returns false and changes
nothing; at a sample boundary it sets `t1` to `t_event` exactly when
`t + EPS ≤ t_event < t1 − EPS` and otherwise leaves `t1` unchanged, sets
`dt = t1 − t`, leaves `t` unchanged, and returns true exactly when
`|t_event − t| < EPS`. -/
theorem event_clamps_target (te : ℚ) (s : Simulator) :
    (s.stepper.kpass ≠ 0 → s.event te = (s, false)) ∧
    (s.stepper.kpass = 0 →
      (s.event te).1.stepper.t1 =
        (if s.stepper.t + s.stepper.EPS ≤ te ∧ te < s.stepper.t1 - s.stepper.EPS then te
          else s.stepper.t1) ∧
      (s.event te).1.stepper.t = s.stepper.t ∧
      (s.event te).1.stepper.dt = (s.event te).1.stepper.t1 - s.stepper.t ∧
      ((s.event te).2 = true ↔ |te - s.stepper.t| < s.stepper.EPS)) := by
  refine ⟨Simulator.event_off_sample te s, ?_⟩
  intro hk
  rw [Simulator.event_fst, if_pos hk, Simulator.event_snd te s hk]
  refine ⟨?_, rfl, rfl, by simp⟩
  show (if te < s.stepper.t1 - s.stepper.EPS ∧ te ≥ s.stepper.t + s.stepper.EPS
    then te else s.stepper.t1) = _
  by_cases hc : te < s.stepper.t1 - s.stepper.EPS ∧ te ≥ s.stepper.t + s.stepper.EPS
  · rw [if_pos hc, if_pos ⟨hc.2, hc.1⟩]
  · rw [if_neg hc, if_neg (fun h => hc ⟨h.2, h.1⟩)]

theorem event_clamps_target_witness :
    (decaySim.event (1 / 20)).1.stepper.t1 = 1 / 20 ∧
    (decaySim.event (1 / 20)).1.stepper.dt = 1 / 20 ∧
    (decaySim.event (1 / 20)).2 = false := by
  obtain ⟨h1, _, h3, h4⟩ := (event_clamps_target (1 / 20) decaySim).2 (by decide!)
  refine ⟨?_, ?_, ?_⟩
  · rw [h1]; decide!
  · rw [h3, h1]; decide!
  · decide!

theorem Simulator.ticks_of_error (w : World) (n : Nat) (s : Simulator) (h : s.error = true) :
    Simulator.ticks w n s = some s := by
  cases n <;> simp [Simulator.ticks, h]

/-- The part of `run` before `setup`: the end time is stored and the two
configuration checks are made. -/
theorem Simulator.run_of_error (w : World) (n : Nat) (dt tmax : ℚ) (s s1 : Simulator)
    (h1 : s1 = (let s := { s with tend := tmax }
      let s := if s.tend ≤ s.stepper.t then s.setError (endTimeMessage s.tend s.stepper.t)
        else s
      if s.modules.size = 0 then s.setError "There are no modules to run." else s))
    (he : s1.error = true) :
    s.run w n dt tmax = some ({ s1.directErase true with phase := Phase.setup }, false) := by
  unfold Simulator.run
  simp only [← h1, he, Bool.not_true, Bool.false_eq_true, if_false,
    Simulator.ticks_of_error w n s1 he]
  have : (s1.directErase true).error = true := he
  simp only [this, if_true]

/-- C18: `run(dt, tmax)` called with `tmax ≤ t`, or with an empty module set,
or with `error` already set, returns false with `error` set, after appending
one description per configuration fault; it performs no setup, no init and no
tick: the clock (`t`, `t1`, `dt`, `dtp`, `kpass`), the module objects, the
tick flags, the time history and the tracker count are unchanged and no hook
is invoked.  And whenever `run` returns, it returns false exactly when `error`
is set at exit. -/
theorem run_configuration_error (w : World) (n : Nat) (dt tmax : ℚ) (s : Simulator)
    (h : tmax ≤ s.stepper.t ∨ s.modules.size = 0 ∨ s.error = true) :
    (∃ s', s.run w n dt tmax = some (s', false) ∧ s'.error = true ∧
      s'.error_descriptions = s.error_descriptions
        ++ (if tmax ≤ s.stepper.t then [endTimeMessage tmax s.stepper.t] else [])
        ++ (if s.modules.size = 0 then ["There are no modules to run."] else []) ∧
      s'.stepper = s.stepper ∧ s'.hooklog = s.hooklog ∧ s'.accessor = s.accessor ∧
      s'.tickfirst = s.tickfirst ∧ s'.ticklast = s.ticklast ∧ s'.tick0 = s.tick0 ∧
      s'.t_hist = s.t_hist ∧ s'.tracker_runs = s.tracker_runs) ∧
    (∀ (w' : World) (n' : Nat) (dt' tmax' : ℚ) (s0 s1 : Simulator) (b : Bool),
      s0.run w' n' dt' tmax' = some (s1, b) → (b = false ↔ s1.error = true)) := by
  constructor
  · refine ⟨_, Simulator.run_of_error w n dt tmax s _ rfl ?_, ?_, ?_, ?_, ?_, ?_, ?_, ?_, ?_,
      ?_, ?_⟩
    · show (if _ then _ else _ : Simulator).error = true
      by_cases h1 : tmax ≤ s.stepper.t <;> by_cases h2 : s.modules.size = 0
      · simp [h1, h2, Simulator.setError]
      · simp [h1, h2, Simulator.setError]
      · simp [h1, h2, Simulator.setError]
      · rcases h with h | h | h
        · exact absurd h h1
        · exact absurd h h2
        · simp [h1, h2, Simulator.setError, h]
    · show (if _ then _ else _ : Simulator).error = true
      by_cases h1 : tmax ≤ s.stepper.t <;> by_cases h2 : s.modules.size = 0
      · simp [h1, h2, Simulator.setError]
      · simp [h1, h2, Simulator.setError]
      · simp [h1, h2, Simulator.setError]
      · rcases h with h | h | h
        · exact absurd h h1
        · exact absurd h h2
        · simp [h1, h2, Simulator.setError, h]
    all_goals
      by_cases h1 : tmax ≤ s.stepper.t <;> by_cases h2 : s.modules.size = 0 <;>
        simp [h1, h2, Simulator.setError, Simulator.directErase]
  · intro w' n' dt' tmax' s0 s1 b hrun
    unfold Simulator.run at hrun
    simp only at hrun
    split at hrun
    · exact absurd hrun (by simp)
    · split at hrun
      · exact absurd hrun (by simp)
      · split_ifs at hrun with he
        · simp only [Option.some.injEq, Prod.mk.injEq] at hrun
          rw [← hrun.1, ← hrun.2]
          simp [he]
        · simp only [Option.some.injEq, Prod.mk.injEq] at hrun
          rw [← hrun.1, ← hrun.2]
          simp [he]

theorem run_configuration_error_witness :
    ∃ s', decaySim.run (plainWorld 2) 10 (1 / 10) 0 = some (s', false) ∧ s'.error = true ∧
      s'.stepper = decaySim.stepper ∧ s'.hooklog = decaySim.hooklog := by
  obtain ⟨s', h1, h2, _, h4, h5, _⟩ := (run_configuration_error
    (plainWorld 2) 10 (1 / 10) 0 decaySim (Or.inl (by decide!))).1
  exact ⟨s', h1, h2, h4, h5⟩

/-! ### Phases with plain hooks in the run loop -/

/-- A `call{P}()` of a phase without `run_first` loop, with plain hooks, on a
state in which no module is inside `call{P}()` and no error is set: it returns
and leaves such a state. -/
theorem simpleCall_returns (p : Phase) (hl : p.lifecycle) (hs : p.usesRunFirst = false)
    (fuel : Nat) (s : Simulator) (k : Nat)
    (hc : ∀ j m, s.accessor j = some m → m.called p = false) (he : s.error = false) :
    ∃ s', callPhase plainHooks p (fuel + 1) s k = some s' ∧ s'.error = false ∧
      ∀ j m, s'.accessor j = some m → m.called p = false := by
  show ∃ s', callBody plainHooks p (callPhase plainHooks p fuel) s k = some s' ∧ _
  unfold callBody
  cases hk : s.accessor k with
  | none => exact ⟨s, rfl, he, hc⟩
  | some m =>
    by_cases hr : m.run p = true
    · simp only [hr, if_true]
      exact ⟨s, rfl, he, hc⟩
    · have hck : m.called p = false := hc k m hk
      simp only [hr, hs, Bool.false_eq_true, if_false, callTail, if_true, hk, hck, runHook,
        plainHooks_calls, callSeq]
      have hfin : ∀ s1 : Simulator, s1.error = false →
          (∀ j, j ≠ k → s1.accessor j = s.accessor j) →
          (finishCall p k s1).error = false ∧
          ∀ j m', (finishCall p k s1).accessor j = some m' → m'.called p = false := by
        intro s1 h1 h2
        constructor
        · unfold finishCall
          by_cases hp : p = Phase.init <;> simp [hp, Simulator.modify, h1]
        · intro j m' hm'
          rw [finishCall_accessor] at hm'
          by_cases hj : j = k
          · rw [if_pos hj] at hm'
            cases hs1 : s1.accessor j with
            | none => simp [hs1] at hm'
            | some m1 =>
              simp only [hs1, Option.map_some', Option.some.injEq] at hm'
              rw [← hm']
              exact Module.setCalled_called p hl false _
          · rw [if_neg hj, h2 j hj] at hm'
            exact hc j m' hm'
      by_cases hf : m.frozen = true
      · simp only [hf, Bool.not_true, Bool.false_eq_true, if_false]
        obtain ⟨a, b⟩ := hfin (s.modify k (Module.setCalled p true)) he
          (fun j hj => Simulator.modify_accessor_ne _ _ _ _ hj)
        exact ⟨_, rfl, a, b⟩
      · have hf' : m.frozen = false := by simpa using hf
        simp only [hf', Bool.not_false, if_true]
        obtain ⟨a, b⟩ := hfin ((s.modify k (Module.setCalled p true)).logHook p k) he
          (fun j hj => Simulator.modify_accessor_ne _ _ _ _ hj)
        exact ⟨_, rfl, a, b⟩

theorem simpleLoop_returns (p : Phase) (hl : p.lifecycle) (hs : p.usesRunFirst = false)
    (fuel : Nat) : ∀ (ks : List Nat) (s : Simulator),
    (∀ j m, s.accessor j = some m → m.called p = false) → s.error = false →
    ∃ s', phaseLoop (callPhase plainHooks p (fuel + 1)) ks s = some s' ∧ s'.error = false ∧
      ∀ j m, s'.accessor j = some m → m.called p = false := by
  intro ks
  induction ks with
  | nil => intro s hc he; exact ⟨s, rfl, he, hc⟩
  | cons k ks ih =>
    intro s hc he
    obtain ⟨s1, h1, e1, c1⟩ := simpleCall_returns p hl hs fuel s k hc he
    obtain ⟨s2, h2, e2, c2⟩ := ih s1 c1 e1
    refine ⟨s2, ?_, e2, c2⟩
    simp only [phaseLoop, h1, e1, Bool.false_eq_true, if_false]
    exact h2

/-- A Simulator phase without `run_first` loop (init, check, report, reset),
with plain hooks, started with no module inside its `call{P}()` and no error:
it returns and leaves such a state. -/
theorem simplePhase_returns (p : Phase) (hl : p.lifecycle) (hs : p.usesRunFirst = false)
    (fuel : Nat) (hfuel : 0 < fuel) (s : Simulator)
    (hc : ∀ j m, s.accessor j = some m → m.called p = false) (he : s.error = false) :
    ∃ s', Simulator.runPhase plainHooks p fuel s = some s' ∧ s'.error = false ∧
      ∀ j m, s'.accessor j = some m → m.called p = false := by
  obtain ⟨f, rfl⟩ : ∃ f, fuel = f + 1 := ⟨fuel - 1, by omega⟩
  obtain ⟨s1, h1, e1, c1⟩ := simpleLoop_returns p hl hs f
    (({ s with phase := p } : Simulator).phaseMap p).keys { s with phase := p } hc he
  unfold Simulator.runPhase
  simp only [h1]
  have e2 : (s1.setPhaseMap p (s1.phaseMap p).erase).error = false := by
    cases p <;> exact e1
  have c2 : ∀ j m, (s1.setPhaseMap p (s1.phaseMap p).erase).accessor j = some m →
      m.called p = false := by
    intro j m hm
    have : (s1.setPhaseMap p (s1.phaseMap p).erase).accessor = s1.accessor := by
      cases p <;> rfl
    rw [this] at hm
    exact c1 j m hm
  by_cases hi : p = Phase.init
  · simp only [hi, if_true]
    subst hi
    exact ⟨_, rfl, e2, c2⟩
  · simp only [hi, if_false]
    refine ⟨_, rfl, ?_, ?_⟩
    · rw [(resetFold_frame p _ _).2.1]; exact e2
    · intro j m hm
      rw [resetFold_accessor] at hm
      split_ifs at hm
      · cases hj : (s1.setPhaseMap p (s1.phaseMap p).erase).accessor j with
        | none => simp [hj] at hm
        | some m0 =>
          simp only [hj, Option.map_some', Option.some.injEq] at hm
          rw [← hm, Module.setRun_called]
          exact c2 j m0 hj
      · exact c2 j m hm

theorem phaseStart_accessor (p : Phase) (d : DynamicMap) (s : Simulator) :
    (({ s with phase := p } : Simulator).setPhaseMap p d).accessor = s.accessor := by
  cases p <;> rfl

theorem phaseStart_phaseMap (p q : Phase) (h : q ≠ p) (d : DynamicMap) (s : Simulator) :
    (({ s with phase := p } : Simulator).setPhaseMap p d).phaseMap q = s.phaseMap q := by
  cases p <;> cases q <;> first | rfl | exact absurd rfl h

theorem withSched_phaseMap (q : Phase) (hq : q ≠ Phase.init) (s s' : Simulator) :
    (s.withSched s').phaseMap q = s.phaseMap q := by
  cases q <;> first | rfl | exact absurd rfl hq

/-- A Simulator phase leaves the members that steer the run loop unchanged. -/
theorem sameCtl_of_untouched (p : Phase) (d : DynamicMap) (s s' : Simulator)
    (hu : Untouched p (({ s with phase := p } : Simulator).setPhaseMap p d) s') :
    SameCtl s s' := by
  have h := hu.same
  constructor
  all_goals (rw [h]; cases p <;> rfl)

theorem sameCtl_refl (s : Simulator) : SameCtl s s := by
  constructor <;> rfl

theorem sameCtl_trans {s s1 s2 : Simulator} (h1 : SameCtl s s1) (h2 : SameCtl s1 s2) :
    SameCtl s s2 where
  stepper := h2.stepper.trans h1.stepper
  tend := h2.tend.trans h1.tend
  tickfirst := h2.tickfirst.trans h1.tickfirst
  ticklast := h2.ticklast.trans h1.ticklast
  tick0 := h2.tick0.trans h1.tick0
  stop_simulation := h2.stop_simulation.trans h1.stop_simulation
  track_time := h2.track_time.trans h1.track_time
  change_dt := h2.change_dt.trans h1.change_dt
  dt_change := h2.dt_change.trans h1.dt_change
  stoppers := h2.stoppers.trans h1.stoppers
  to_delete := h2.to_delete.trans h1.to_delete
  tracking := h2.tracking.trans h1.tracking
  t_hist := h2.t_hist.trans h1.t_hist
  tracker_runs := h2.tracker_runs.trans h1.tracker_runs
  modules := h2.modules.trans h1.modules
  propagate := h2.propagate.trans h1.propagate
  trackers := h2.trackers.trans h1.trackers

/-- Readiness of phase `q` survives the calls of another phase `p` that
record no error. -/
theorem PhaseReady.transport (q p : Phase) (rank : Nat → Nat) (s X s' : Simulator)
    (hq : PhaseReady q rank s) (hu : Untouched p X s') (hqp : q ≠ p) (hqi : q ≠ Phase.init)
    (ha : X.accessor = s.accessor) (hm : X.phaseMap q = s.phaseMap q)
    (he : s'.error = false) : PhaseReady q rank s' := by
  have hmap : s'.phaseMap q = s.phaseMap q := by
    rw [hu.same, withSched_phaseMap q hqi, hm]
  refine ⟨by rw [hmap]; exact hq.nodup, by rw [hmap]; exact hq.staged, he, ?_, ?_⟩
  · intro k hk
    rw [hmap] at hk
    obtain ⟨m, hmk⟩ := hq.alive k hk
    have : (s'.accessor k).isSome = true := by rw [hu.alive k, ha, hmk]; rfl
    exact Option.isSome_iff_exists.mp this
  · intro k m' hm'
    have : (s.accessor k).isSome = true := by rw [← ha, ← hu.alive k, hm']; rfl
    obtain ⟨m, hmk⟩ := Option.isSome_iff_exists.mp this
    obtain ⟨a1, _, _, a4, a5⟩ := hu.mods k m m' (by rw [ha]; exact hmk) hm'
    obtain ⟨b1, b2, b3, b4⟩ := hq.mods k m hmk
    obtain ⟨c1, c2⟩ := a5 q hqp
    refine ⟨a1.trans b1, c2.trans b2, c1.trans b3, ?_⟩
    intro j hj
    rw [hmap]
    exact b4 j (a4 j hj)

theorem called_transport (q p : Phase) (s X s' : Simulator)
    (hc : ∀ k m, s.accessor k = some m → m.called q = false) (hu : Untouched p X s')
    (hqp : q ≠ p) (ha : X.accessor = s.accessor) :
    ∀ k m, s'.accessor k = some m → m.called q = false := by
  intro k m' hm'
  have : (s.accessor k).isSome = true := by rw [← ha, ← hu.alive k, hm']; rfl
  obtain ⟨m, hmk⟩ := Option.isSome_iff_exists.mp this
  obtain ⟨_, _, _, _, a5⟩ := hu.mods k m m' (by rw [ha]; exact hmk) hm'
  exact (a5 q hqp).2.trans (hc k m hmk)

theorem untouched_map (q p : Phase) (hqp : q ≠ p) (hqi : q ≠ Phase.init) (d : DynamicMap)
    (s s' : Simulator)
    (hu : Untouched p (({ s with phase := p } : Simulator).setPhaseMap p d) s') :
    s'.phaseMap q = s.phaseMap q := by
  rw [hu.same, withSched_phaseMap q hqi, phaseStart_phaseMap p q hqp]

/-- Every Simulator phase of the run loop, with plain hooks, started in a
ready state: it returns, the state is ready again, and the members that steer
the loop are unchanged. -/
theorem runPhase_ready (p : Phase) (hl : p.lifecycle) (rank : Nat → Nat) (fuel : Nat)
    (s : Simulator) (hr : RunReady rank fuel s) :
    ∃ s', Simulator.runPhase plainHooks p fuel s = some s' ∧ RunReady rank fuel s' ∧
      SameCtl s s' := by
  have hU : Phase.update.lifecycle := ⟨by decide, by decide⟩
  by_cases hp : p.usesRunFirst = true
  · rcases Phase.usesRunFirst_cases p hp with h | h
    · subst h
      obtain ⟨s', ev, heq, _, _, _, _, hready, hmap⟩ :=
        runPhase_spec Phase.update rfl rank s fuel hr.update hr.fuelUpdate
      have hu := (runPhase_untouched plainHooks Phase.update hl fuel s s' heq).1
      have hmapP := untouched_map Phase.postcalc Phase.update (by decide) (by decide) _ s s' hu
      refine ⟨s', heq, ⟨hready, ?_, ?_, hr.fuelPos, ?_, ?_⟩, sameCtl_of_untouched _ _ s s' hu⟩
      · exact PhaseReady.transport Phase.postcalc Phase.update rank s _ s' hr.postcalc hu
          (by decide) (by decide) (phaseStart_accessor _ _ s)
          (phaseStart_phaseMap _ _ (by decide) _ s) hready.noerr
      · intro q hq k m hm
        by_cases hqp : q = Phase.update
        · subst hqp; exact (hready.mods k m hm).2.1
        · exact called_transport q Phase.update s _ s' (hr.called q hq) hu hqp
            (phaseStart_accessor _ _ s) k m hm
      · intro k hk
        have e : s'.updates = s.updates := hmap
        rw [e] at hk
        exact hr.fuelUpdate k hk
      · intro k hk
        have e : s'.postcalcs = s.postcalcs := hmapP
        rw [e] at hk
        exact hr.fuelPostcalc k hk
    · subst h
      obtain ⟨s', ev, heq, _, _, _, _, hready, hmap⟩ :=
        runPhase_spec Phase.postcalc rfl rank s fuel hr.postcalc hr.fuelPostcalc
      have hu := (runPhase_untouched plainHooks Phase.postcalc hl fuel s s' heq).1
      have hmapU := untouched_map Phase.update Phase.postcalc (by decide) (by decide) _ s s' hu
      refine ⟨s', heq, ⟨?_, hready, ?_, hr.fuelPos, ?_, ?_⟩, sameCtl_of_untouched _ _ s s' hu⟩
      · exact PhaseReady.transport Phase.update Phase.postcalc rank s _ s' hr.update hu
          (by decide) (by decide) (phaseStart_accessor _ _ s)
          (phaseStart_phaseMap _ _ (by decide) _ s) hready.noerr
      · intro q hq k m hm
        by_cases hqp : q = Phase.postcalc
        · subst hqp; exact (hready.mods k m hm).2.1
        · exact called_transport q Phase.postcalc s _ s' (hr.called q hq) hu hqp
            (phaseStart_accessor _ _ s) k m hm
      · intro k hk
        have e : s'.updates = s.updates := hmapU
        rw [e] at hk
        exact hr.fuelUpdate k hk
      · intro k hk
        have e : s'.postcalcs = s.postcalcs := hmap
        rw [e] at hk
        exact hr.fuelPostcalc k hk
  · have hs : p.usesRunFirst = false := by simpa using hp
    have hpU : Phase.update ≠ p := by intro h; rw [← h] at hs; exact absurd hs (by decide)
    have hpP : Phase.postcalc ≠ p := by intro h; rw [← h] at hs; exact absurd hs (by decide)
    obtain ⟨s', heq, he', hc'⟩ := simplePhase_returns p hl hs fuel hr.fuelPos s
      (hr.called p hl) hr.update.noerr
    have hu := (runPhase_untouched plainHooks p hl fuel s s' heq).1
    have hmapU := untouched_map Phase.update p hpU (by decide) _ s s' hu
    have hmapP := untouched_map Phase.postcalc p hpP (by decide) _ s s' hu
    refine ⟨s', heq, ⟨?_, ?_, ?_, hr.fuelPos, ?_, ?_⟩, sameCtl_of_untouched _ _ s s' hu⟩
    · exact PhaseReady.transport Phase.update p rank s _ s' hr.update hu
        hpU (by decide) (phaseStart_accessor _ _ s) (phaseStart_phaseMap _ _ hpU _ s) he'
    · exact PhaseReady.transport Phase.postcalc p rank s _ s' hr.postcalc hu
        hpP (by decide) (phaseStart_accessor _ _ s) (phaseStart_phaseMap _ _ hpP _ s) he'
    · intro q hq k m hm
      by_cases hqp : q = p
      · subst hqp; exact hc' k m hm
      · exact called_transport q p s _ s' (hr.called q hq) hu hqp
          (phaseStart_accessor _ _ s) k m hm
    · intro k hk
      have e : s'.updates = s.updates := hmapU
      rw [e] at hk
      exact hr.fuelUpdate k hk
    · intro k hk
      have e : s'.postcalcs = s.postcalcs := hmapP
      rw [e] at hk
      exact hr.fuelPostcalc k hk

/-! ### Statements of the run loop that are not phases -/

theorem similar_refl (s : Simulator) : Similar s s where
  same := rfl
  alive := fun _ => rfl
  mods := by
    intro k m m' h1 h2
    rw [h1] at h2
    simp only [Option.some.injEq] at h2
    rw [← h2]

theorem similar_trans {s s1 s2 : Simulator} (h1 : Similar s s1) (h2 : Similar s1 s2) :
    Similar s s2 where
  same := by
    have e : ({ s1 with accessor := s2.accessor } : Simulator)
        = { ({ s with accessor := s1.accessor } : Simulator) with accessor := s2.accessor } := by
      rw [← h1.same]
    exact h2.same.trans e
  alive := fun k => (h2.alive k).trans (h1.alive k)
  mods := by
    intro k m m2 hm hm2
    have ha : (s1.accessor k).isSome = true := by rw [h1.alive k, hm]; rfl
    obtain ⟨m1, hm1⟩ := Option.isSome_iff_exists.mp ha
    have a := h1.mods k m m1 hm hm1
    have b := h2.mods k m1 m2 hm1 hm2
    rw [b, a]

theorem similar_propagate (s : Simulator) (k : Nat) (st : Stepper) :
    Similar s (s.modify k (Module.propagateStates st)) where
  same := rfl
  alive := by
    intro j
    by_cases hj : j = k <;> cases hs : s.accessor j <;> simp [Simulator.modify, hj, hs]
    all_goals (subst hj; simp [hs])
  mods := by
    intro j m m' hm hm'
    by_cases hj : j = k
    · subst hj
      rw [Simulator.modify_accessor_self, hm] at hm'
      simp only [Option.map_some', Option.some.injEq] at hm'
      rw [← hm']
      rfl
    · rw [Simulator.modify_accessor_ne _ _ _ _ hj, hm] at hm'
      simp only [Option.some.injEq] at hm'
      rw [← hm']

theorem Simulator.propagateStates_similar (s : Simulator) : Similar s s.propagateStates := by
  unfold Simulator.propagateStates
  generalize s.propagate.keys = ks
  have key : ∀ (ks : List Nat) (s0 s1 : Simulator), Similar s0 s1 →
      Similar s0 (ks.foldl
        (fun s k =>
          match s.accessor k with
          | some module =>
            if !module.frozen && !module.freeze_integration then
              s.modify k (Module.propagateStates s.stepper)
            else s
          | none => s) s1) := by
    intro ks
    induction ks with
    | nil => intro s0 s1 h; exact h
    | cons k ks ih =>
      intro s0 s1 h
      rw [List.foldl_cons]
      apply ih
      cases hk : s1.accessor k with
      | none => exact h
      | some m =>
        by_cases hg : (!m.frozen && !m.freeze_integration) = true
        · simp only [hg, if_true]
          exact similar_trans h (similar_propagate s1 k s1.stepper)
        · simp only [hg, if_false]
          exact h
  exact key ks s s (similar_refl s)

/-- Readiness does not depend on the members that steer the loop. -/
theorem RunReady.of_accessor (rank : Nat → Nat) (fuel : Nat) (s s' : Simulator)
    (h : RunReady rank fuel s) (ha : s'.accessor = s.accessor) (hU : s'.updates = s.updates)
    (hP : s'.postcalcs = s.postcalcs) (hE : s'.error = s.error) : RunReady rank fuel s' := by
  have hp : ∀ p, (p = Phase.update ∨ p = Phase.postcalc) → PhaseReady p rank s →
      PhaseReady p rank s' := by
    intro p hp hr
    have hmap : s'.phaseMap p = s.phaseMap p := by
      rcases hp with h | h <;> subst h
      · exact hU
      · exact hP
    refine ⟨by rw [hmap]; exact hr.nodup, by rw [hmap]; exact hr.staged,
      hE.trans hr.noerr, ?_, ?_⟩
    · intro k hk; rw [ha]; rw [hmap] at hk; exact hr.alive k hk
    · intro k m hm; rw [ha] at hm; rw [hmap]; exact hr.mods k m hm
  refine ⟨hp _ (Or.inl rfl) h.update, hp _ (Or.inr rfl) h.postcalc, ?_, h.fuelPos, ?_, ?_⟩
  · intro p hl k m hm; rw [ha] at hm; exact h.called p hl k m hm
  · rw [hU]; exact h.fuelUpdate
  · rw [hP]; exact h.fuelPostcalc

theorem RunInv.step (w : World) (rank : Nat → Nat) {s s' : Simulator} (h : RunInv w rank s)
    (hc : CtlStep s s') : RunInv w rank s' where
  ready := RunReady.of_accessor rank w.fuel s s' h.ready hc.accessor hc.updates hc.postcalcs
    hc.error
  noDelete := hc.to_delete.trans h.noDelete
  noChange := hc.change_dt.trans h.noChange
  stoppers := by rw [hc.stoppers]; exact h.stoppers
  files := by rw [hc.tracking]; exact h.files

theorem RunInv.phase (w : World) (rank : Nat → Nat) {s s' : Simulator} (h : RunInv w rank s)
    (hr : RunReady rank w.fuel s') (hc : SameCtl s s') : RunInv w rank s' where
  ready := hr
  noDelete := hc.to_delete.trans h.noDelete
  noChange := hc.change_dt.trans h.noChange
  stoppers := by rw [hc.stoppers]; exact h.stoppers
  files := by rw [hc.tracking]; exact h.files

theorem logFold_eq (p : Phase) : ∀ (ks : List Nat) (s0 : Simulator),
    ks.foldl (fun s k => s.logHook p k) s0
      = { s0 with hooklog := (ks.foldl (fun s k => s.logHook p k) s0).hooklog } := by
  intro ks
  induction ks with
  | nil => intro s0; rfl
  | cons k ks ih =>
    intro s0
    rw [List.foldl_cons]
    exact (ih (s0.logHook p k)).trans rfl

theorem Simulator.tracker_eq (s : Simulator) :
    s.tracker = { s with phase := Phase.tracker, tracker_runs := s.tracker_runs + 1,
                         hooklog := s.tracker.hooklog } := by
  unfold Simulator.tracker
  exact (logFold_eq Phase.tracker s.trackers.keys _).trans rfl

theorem SameCtl.clock {s s' : Simulator} (h : SameCtl s s') : SameClock s s' :=
  ⟨h.stepper, h.ticklast, h.stop_simulation⟩

theorem SameCtl.ctl {s s' : Simulator} (h : SameCtl s s') (ha : s'.accessor = s.accessor)
    (hU : s'.updates = s.updates) (hP : s'.postcalcs = s.postcalcs)
    (hE : s'.error = s.error) : CtlStep s s' :=
  ⟨ha, hU, hP, hE, h.to_delete, h.change_dt, h.stoppers, h.tracking, h.tend⟩

/-- A phase of the run loop with plain hooks, in the form used below. -/
theorem RunInv.runPhase (w : World) (hw : w.plainRK4) (rank : Nat → Nat) (p : Phase)
    (hl : p.lifecycle) (s : Simulator) (h : RunInv w rank s) :
    ∃ s', Simulator.runPhase w.hooks p w.fuel s = some s' ∧ RunInv w rank s' ∧
      SameClock s s' ∧ s'.tend = s.tend ∧ s'.stoppers = s.stoppers := by
  rw [hw.hooks]
  obtain ⟨s', h1, h2, h3⟩ := runPhase_ready p hl rank w.fuel s h.ready
  exact ⟨s', h1, h.phase w rank h2 h3, h3.clock, h3.tend, h3.stoppers⟩

theorem Simulator.updateClock_eq (s : Simulator) :
    s.updateClock = { s with stepper := RK4.updateClock s.stepper,
                             time_advanced := s.updateClock.time_advanced } := by
  unfold Simulator.updateClock
  simp only
  split_ifs <;> rfl

theorem Simulator.ticks_succ (w : World) (n : Nat) (s s' : Simulator) (b : Bool)
    (he : s.error = false) (ht : s.tick w = some (s', b)) :
    Simulator.ticks w (n + 1) s = if b then some s' else Simulator.ticks w n s' := by
  simp only [Simulator.ticks, he, Bool.false_eq_true, if_false, ht]
  cases b <;> simp

theorem RunInv.noerr (w : World) (rank : Nat → Nat) {s : Simulator} (h : RunInv w rank s) :
    s.error = false := h.ready.update.noerr

theorem RunReady.of_maps (rank : Nat → Nat) (fuel : Nat) (s s' : Simulator)
    (h : RunReady rank fuel s) (ha : s'.accessor = s.accessor) (hE : s'.error = s.error)
    (hU : s'.updates.keys = s.updates.keys) (hUs : s'.updates.staged = s.updates.staged)
    (hP : s'.postcalcs.keys = s.postcalcs.keys)
    (hPs : s'.postcalcs.staged = s.postcalcs.staged) : RunReady rank fuel s' := by
  have hp : ∀ p, (s'.phaseMap p).keys = (s.phaseMap p).keys →
      (s'.phaseMap p).staged = (s.phaseMap p).staged → PhaseReady p rank s →
      PhaseReady p rank s' := by
    intro p hk hs hr
    refine ⟨by rw [hk]; exact hr.nodup, by rw [hs]; exact hr.staged, hE.trans hr.noerr, ?_, ?_⟩
    · intro k hk'; rw [ha]; rw [hk] at hk'; exact hr.alive k hk'
    · intro k m hm; rw [ha] at hm; rw [hk]; exact hr.mods k m hm
  refine ⟨hp _ hU hUs h.update, hp _ hP hPs h.postcalc, ?_, h.fuelPos, ?_, ?_⟩
  · intro p hl k m hm; rw [ha] at hm; exact h.called p hl k m hm
  · rw [hU]; exact h.fuelUpdate
  · rw [hP]; exact h.fuelPostcalc

/-- What `setup(dt)` does to the members the run loop rests on. -/
theorem Simulator.setup_spec (dt : ℚ) (s : Simulator) :
    ((s.setup dt).accessor = s.accessor ∧ (s.setup dt).error = s.error ∧
      (s.setup dt).updates.keys = s.updates.keys ∧
      (s.setup dt).updates.staged = s.updates.staged ∧
      (s.setup dt).postcalcs.keys = s.postcalcs.keys ∧
      (s.setup dt).postcalcs.staged = s.postcalcs.staged) ∧
    ((s.setup dt).to_delete = s.to_delete ∧ (s.setup dt).change_dt = s.change_dt ∧
      (s.setup dt).stoppers = s.stoppers ∧ (s.setup dt).tracking = s.tracking ∧
      (s.setup dt).tend = s.tend) ∧
    ((s.setup dt).stepper.kpass = 0 ∧ (s.setup dt).stepper.t = s.stepper.t ∧
      (s.setup dt).stepper.t1 = s.stepper.t + dt ∧ (s.setup dt).stepper.dtp = dt ∧
      (s.setup dt).stepper.EPS = s.stepper.EPS ∧ (s.setup dt).ticklast = false ∧
      (s.setup dt).stop_simulation = false) := by
  unfold Simulator.setup Simulator.directErase
  by_cases h : s.trackers.size > 0
  · simp [h]
  · simp [h]

theorem RunInv.setup (w : World) (rank : Nat → Nat) (dt tmax : ℚ) {s : Simulator}
    (h : RunInv w rank s) : RunInv w rank (({ s with tend := tmax } : Simulator).setup dt) := by
  obtain ⟨⟨a1, a2, a3, a4, a5, a6⟩, ⟨b1, b2, b3, b4, _⟩, _⟩ :=
    Simulator.setup_spec dt ({ s with tend := tmax } : Simulator)
  exact ⟨RunReady.of_maps rank w.fuel s _ h.ready a1 a2 a3 a4 a5 a6, b1.trans h.noDelete,
    b2.trans h.noChange, by rw [b3]; exact h.stoppers, by rw [b4]; exact h.files⟩

theorem RunInv.withStoppers (w : World) (rank : Nat → Nat) {s : Simulator}
    (h : RunInv w rank s) (σs : List Stopper)
    (hp : ∀ σ ∈ σs, ∀ st, (w.check σ st).1 = σ ∧ σ.stoppers ≠ 0) :
    RunInv w rank (s.withStoppers σs) :=
  ⟨RunReady.of_accessor rank w.fuel s _ h.ready rfl rfl rfl rfl, h.noDelete, h.noChange, hp,
    h.files⟩

/-- The indices collected by the first loop start at the index of the head. -/
theorem stoppersLoop_erase_ge (check : Stopper → Stepper → Stopper × Bool) (st : Stepper)
    (l : List Stopper) (i : Nat) :
    ∀ j ∈ (stoppersLoop check st l i).2.2, i ≤ j ∧ j < i + l.length := by
  induction l generalizing i with
  | nil => intro j hj; simp [stoppersLoop] at hj
  | cons σ rest ih =>
    intro j hj
    simp only [stoppersLoop] at hj
    split_ifs at hj with h
    · rcases List.mem_cons.1 hj with rfl | hj
      · simp
      · have := ih (i + 1) j hj
        simp only [List.length_cons]; omega
    · have := ih (i + 1) j hj
      simp only [List.length_cons]; omega

/-- The first loop keeps the number of stoppers. -/
theorem stoppersLoop_length (check : Stopper → Stepper → Stopper × Bool) (st : Stepper)
    (l : List Stopper) (i : Nat) : (stoppersLoop check st l i).1.length = l.length := by
  induction l generalizing i with
  | nil => simp [stoppersLoop]
  | cons σ rest ih => simp [stoppersLoop, ih]

/-- With no index collected no stopper is exhausted. -/
theorem stoppersLoop_none (check : Stopper → Stepper → Stopper × Bool) (st : Stepper)
    (l : List Stopper) (i : Nat) (h : (stoppersLoop check st l i).2.2 = []) :
    liveStoppers (stoppersLoop check st l i).1 = (stoppersLoop check st l i).1 := by
  induction l generalizing i with
  | nil => simp [stoppersLoop, liveStoppers]
  | cons σ rest ih =>
    simp only [stoppersLoop] at h ⊢
    split_ifs at h with h0
    have := ih (i + 1) h
    simp only [liveStoppers] at this ⊢
    rw [List.filter_cons_of_pos (by simpa using h0), this]

/-- With one index collected, erasing at it leaves the live stoppers. -/
theorem stoppersLoop_one (check : Stopper → Stepper → Stopper × Bool) (st : Stepper)
    (l : List Stopper) (i j : Nat) (h : (stoppersLoop check st l i).2.2 = [j]) :
    (stoppersLoop check st l i).1.eraseIdx (j - i) = liveStoppers (stoppersLoop check st l i).1 := by
  induction l generalizing i with
  | nil => simp [stoppersLoop] at h
  | cons σ rest ih =>
    simp only [stoppersLoop] at h ⊢
    split_ifs at h with h0
    · obtain ⟨hij, h1⟩ := List.cons.inj h
      subst hij
      have := stoppersLoop_none check st rest (i + 1) h1
      simp only [liveStoppers] at this ⊢
      rw [List.filter_cons_of_neg (by simpa using h0), this]
      simp
    · have hj := stoppersLoop_erase_ge check st rest (i + 1) j (by rw [h]; simp)
      have := ih (i + 1) h
      simp only [liveStoppers] at this ⊢
      rw [List.filter_cons_of_pos (by simpa using h0), ← this]
      obtain ⟨n, hn⟩ : ∃ n, j - i = n + 1 := ⟨j - i - 1, by omega⟩
      rw [hn, List.eraseIdx_cons_succ]
      congr 2
      omega

/-- When the checks leave at most one stopper exhausted, `runStoppers()` does
what is expected of it: the list becomes the live stoppers in their order and
the index used, if any, is within bounds. -/
theorem runStoppers_single_exhausted (w : World) (s : Simulator)
    (h : (stoppersLoop w.check s.stepper s.stoppers 0).2.2.length ≤ 1) :
    (s.runStoppers w).stoppers = liveStoppers (stoppersLoop w.check s.stepper s.stoppers 0).1 ∧
    eraseInBounds (stoppersLoop w.check s.stepper s.stoppers 0).2.2 s.stoppers.length = true := by
  simp only [Simulator.runStoppers]
  match hr : (stoppersLoop w.check s.stepper s.stoppers 0).2.2, h with
  | [], _ =>
    simp only [List.foldl_nil, eraseInBounds, and_true]
    exact (stoppersLoop_none _ _ _ _ hr).symm
  | [j], _ =>
    have hj := stoppersLoop_erase_ge w.check s.stepper s.stoppers 0 j (by rw [hr]; simp)
    simp only [List.foldl_cons, List.foldl_nil, eraseInBounds, Bool.and_true, decide_eq_true_eq]
    refine ⟨?_, by omega⟩
    have := stoppersLoop_one _ _ _ _ _ hr
    simpa using this
  | _ :: _ :: _, h => simp at h

/-- Erasing at indices above `p` leaves the element at `p` where it is. -/
theorem eraseFold_below (is : List Nat) : ∀ (l : List Stopper) (p : Nat),
    (∀ i ∈ is, p < i) → (is.foldl (fun l i => l.eraseIdx i) l)[p]? = l[p]? := by
  induction is with
  | nil => intro l p _; rfl
  | cons i rest ih =>
    intro l p h
    rw [List.foldl_cons, ih _ p (fun j hj => h j (List.mem_cons_of_mem _ hj)),
      List.getElem?_eraseIdx_of_lt l i p (h i (List.mem_cons_self _ _))]

/-- Every index collected by the first loop points at an exhausted stopper. -/
theorem stoppersLoop_erase_exhausted (check : Stopper → Stepper → Stopper × Bool)
    (st : Stepper) (l : List Stopper) (i : Nat) :
    ∀ j ∈ (stoppersLoop check st l i).2.2,
      ∃ σ, (stoppersLoop check st l i).1[j - i]? = some σ ∧ σ.stoppers = 0 := by
  induction l generalizing i with
  | nil => intro j hj; simp [stoppersLoop] at hj
  | cons σ rest ih =>
    intro j hj
    simp only [stoppersLoop] at hj ⊢
    have tail : j ∈ (stoppersLoop check st rest (i + 1)).2.2 →
        ∃ τ, ((check σ st).1 :: (stoppersLoop check st rest (i + 1)).1)[j - i]? = some τ ∧
          τ.stoppers = 0 := by
      intro hj'
      obtain ⟨τ, h1, h2⟩ := ih (i + 1) j hj'
      have hge := (stoppersLoop_erase_ge check st rest (i + 1) j hj').1
      obtain ⟨n, hn⟩ : ∃ n, j - i = n + 1 := ⟨j - i - 1, by omega⟩
      refine ⟨τ, ?_, h2⟩
      rw [hn, List.getElem?_cons_succ]
      have : n = j - (i + 1) := by omega
      rw [this]
      exact h1
    split_ifs at hj with h0
    · rcases List.mem_cons.1 hj with h | h
      · rw [h]
        exact ⟨(check σ st).1, by simp, h0⟩
      · exact tail h
    · exact tail hj

/-- The indices collected by the first loop are strictly increasing. -/
theorem stoppersLoop_erase_sorted (check : Stopper → Stepper → Stopper × Bool)
    (st : Stepper) (l : List Stopper) (i : Nat) :
    (stoppersLoop check st l i).2.2.Pairwise (fun a b => a < b) := by
  induction l generalizing i with
  | nil => simp [stoppersLoop]
  | cons σ rest ih =>
    simp only [stoppersLoop]
    split_ifs
    · rw [List.pairwise_cons]
      refine ⟨?_, ih (i + 1)⟩
      intro j hj
      have := (stoppersLoop_erase_ge check st rest (i + 1) j hj).1
      omega
    · exact ih (i + 1)

/-- When the checks leave two or more stoppers exhausted, the second of them
survives `runStoppers()`: the list does not become the list of the live
stoppers. -/
theorem runStoppers_keeps_exhausted (w : World) (s : Simulator) (i0 i1 : Nat)
    (rest : List Nat)
    (h : (stoppersLoop w.check s.stepper s.stoppers 0).2.2 = i0 :: i1 :: rest) :
    (∃ σ ∈ (s.runStoppers w).stoppers, σ.stoppers = 0) ∧
    (s.runStoppers w).stoppers
      ≠ liveStoppers (stoppersLoop w.check s.stepper s.stoppers 0).1 := by
  have hsort := stoppersLoop_erase_sorted w.check s.stepper s.stoppers 0
  rw [h, List.pairwise_cons, List.pairwise_cons] at hsort
  obtain ⟨h0, h1, _⟩ := hsort
  have h01 : i0 < i1 := h0 i1 (List.mem_cons_self _ _)
  obtain ⟨σ, hσ, hz⟩ := stoppersLoop_erase_exhausted w.check s.stepper s.stoppers 0 i1
    (by rw [h]; simp)
  have hres : (s.runStoppers w).stoppers
      = rest.foldl (fun l i => l.eraseIdx i)
        (((stoppersLoop w.check s.stepper s.stoppers 0).1.eraseIdx i0).eraseIdx i1) := by
    show List.foldl _ _ (stoppersLoop w.check s.stepper s.stoppers 0).2.2 = _
    rw [h]
    rfl
  have hget : (s.runStoppers w).stoppers[i1 - 1]? = some σ := by
    rw [hres, eraseFold_below rest _ (i1 - 1) (fun j hj => by have := h1 j hj; omega),
      List.getElem?_eraseIdx_of_lt _ i1 (i1 - 1) (by omega),
      List.getElem?_eraseIdx_of_ge _ i0 (i1 - 1) (by omega)]
    have : i1 - 1 + 1 = i1 - 0 := by omega
    rw [this]
    exact hσ
  have hmem : σ ∈ (s.runStoppers w).stoppers := List.getElem?_mem hget
  refine ⟨⟨σ, hmem, hz⟩, ?_⟩
  intro heq
  rw [heq] at hmem
  simp [liveStoppers, hz] at hmem

/-- C23 (the code diverges): `Simulator::runStoppers()` erases by the indices
collected before the first erase, which are stale once an element is gone.
Three stoppers `a`, `b`, `c` are registered.  When `check()` exhausts `a` and
`b`, `to_erase = [0, 1]`: erasing index 0 leaves `[b, c]`, erasing index 1
then removes the live stopper `c` and the exhausted `b` stays, whereas the
stoppers with a non-empty list are `[c]`.  When `check()` exhausts `b` and
`c`, `to_erase = [1, 2]`: after the first erase the vector has two elements
and the index 2 is out of bounds; the exhausted `c` stays. -/
theorem runStoppers_removes_live_stopper :
    stoppersLoop (exhaustWorld 2 [0, 1]).check threeStoppersSim.stepper
        threeStoppersSim.stoppers 0
      = ([⟨0, 0⟩, ⟨1, 0⟩, ⟨2, 1⟩], false, [0, 1]) ∧
    (threeStoppersSim.runStoppers (exhaustWorld 2 [0, 1])).stoppers = [⟨1, 0⟩] ∧
    liveStoppers [⟨0, 0⟩, ⟨1, 0⟩, ⟨2, 1⟩] = [⟨2, 1⟩] ∧
    stoppersLoop (exhaustWorld 2 [1, 2]).check threeStoppersSim.stepper
        threeStoppersSim.stoppers 0
      = ([⟨0, 1⟩, ⟨1, 0⟩, ⟨2, 0⟩], false, [1, 2]) ∧
    eraseInBounds [1, 2] threeStoppersSim.stoppers.length = false ∧
    (threeStoppersSim.runStoppers (exhaustWorld 2 [1, 2])).stoppers = [⟨0, 1⟩, ⟨2, 0⟩] ∧
    liveStoppers [⟨0, 1⟩, ⟨1, 0⟩, ⟨2, 0⟩] = [⟨0, 1⟩] := by
  decide!

/-! ### The tracked time series -/

theorem sameTrack_refl (s : Simulator) : SameTrack s s := by
  constructor <;> rfl

theorem sameTrack_trans {s s1 s2 : Simulator} (h1 : SameTrack s s1) (h2 : SameTrack s1 s2) :
    SameTrack s s2 where
  t_hist := h2.t_hist.trans h1.t_hist
  tracker_runs := h2.tracker_runs.trans h1.tracker_runs
  tick0 := h2.tick0.trans h1.tick0
  track_time := h2.track_time.trans h1.track_time
  tickfirst := h2.tickfirst.trans h1.tickfirst
  clock := h2.clock.trans h1.clock
  kpass := h2.kpass.trans h1.kpass

theorem SameCtl.track {s s' : Simulator} (h : SameCtl s s') : SameTrack s s' :=
  ⟨h.t_hist, h.tracker_runs, h.tick0, h.track_time, h.tickfirst,
    by rw [h.stepper], by rw [h.stepper]⟩

/-- A Simulator phase function, whatever the hooks call, moves nothing of the
tracked time series and leaves `trackers` as it is. -/
theorem sameTrack_runPhase (h : Hooks) (p : Phase) (hl : p.lifecycle) (fuel : Nat)
    (s s' : Simulator) (heq : Simulator.runPhase h p fuel s = some s') :
    SameTrack s s' ∧ s'.trackers = s.trackers := by
  have hc := sameCtl_of_untouched p _ s s' (runPhase_untouched h p hl fuel s s' heq).1
  exact ⟨hc.track, hc.trackers⟩

theorem sameTrack_event (te : ℚ) (s : Simulator) : SameTrack s (s.event te).1 := by
  unfold Simulator.event
  simp only []
  split_ifs <;> constructor <;> rfl

theorem sameTrack_changeTimeStep (s : Simulator) : SameTrack s s.changeTimeStep := by
  unfold Simulator.changeTimeStep
  split_ifs <;> constructor <;> rfl

theorem sameTrack_adaptiveCalc (opt : Nat → Nat → ℚ) (s : Simulator) :
    SameTrack s (s.adaptiveCalc opt) := by
  unfold Simulator.adaptiveCalc
  simp only []
  split_ifs <;> constructor <;> rfl

theorem sameTrack_propagateStates (s : Simulator) : SameTrack s s.propagateStates := by
  have h := (Simulator.propagateStates_similar s).same
  constructor <;> (rw [h])

theorem sameTrack_runStoppers (w : World) (s : Simulator) : SameTrack s (s.runStoppers w) := by
  constructor <;> rfl

theorem sameTrack_tracker (s : Simulator) :
    s.tracker.t_hist = s.t_hist ∧ s.tracker.tracker_runs = s.tracker_runs + 1 ∧
    s.tracker.tick0 = s.tick0 ∧ s.tracker.track_time = s.track_time ∧
    s.tracker.tickfirst = s.tickfirst ∧ s.tracker.stepper = s.stepper := by
  rw [Simulator.tracker_eq]
  exact ⟨rfl, rfl, rfl, rfl, rfl, rfl⟩

theorem sameTrack_destroyFold : ∀ (ks : List Nat) (s : Simulator),
    SameTrack s (ks.foldl (fun s k => s.destroyModule k) s) := by
  intro ks
  induction ks with
  | nil => intro s; exact sameTrack_refl s
  | cons k ks ih =>
    intro s
    rw [List.foldl_cons]
    exact sameTrack_trans (by constructor <;> rfl) (ih _)

theorem sameTrack_deleteModules (s : Simulator) : SameTrack s s.deleteModules := by
  unfold Simulator.deleteModules
  split_ifs
  · have h := sameTrack_destroyFold s.to_delete s
    exact ⟨h.t_hist, h.tracker_runs, h.tick0, h.track_time, h.tickfirst, h.clock, h.kpass⟩
  · exact sameTrack_refl s

theorem sameTrack_createFiles (w : World) (s : Simulator) : SameTrack s (s.createFiles w) := by
  unfold Simulator.createFiles
  generalize s.tracking = ks
  induction ks generalizing s with
  | nil => exact sameTrack_refl s
  | cons k ks ih =>
    rw [List.foldl_cons]
    refine sameTrack_trans ?_ (ih _)
    split_ifs
    · exact sameTrack_refl s
    · constructor <;> rfl

/-- The `tickfirst` block (Simulator.cpp 52-67): `t` is recorded and
`tracker()` invoked only in the very first tick (`tickfirst` and `tick0`),
which clears `tick0`; the clock has not moved. -/
theorem Simulator.tickHead_track (w : World) (s s1 : Simulator)
    (h : s.tickHead w = some s1) :
    s1.t_hist = (if s.tickfirst = true ∧ s.tick0 = true ∧ s.track_time = true
      then s.t_hist ++ [s.stepper.t] else s.t_hist) ∧
    s1.tracker_runs = (if s.tickfirst = true ∧ s.tick0 = true then s.tracker_runs + 1
      else s.tracker_runs) ∧
    s1.tick0 = (s.tick0 && !s.tickfirst) ∧ s1.track_time = s.track_time ∧
    s1.tickfirst = s.tickfirst ∧ s1.stepper.t = s.stepper.t ∧
    s1.stepper.kpass = s.stepper.kpass := by
  have e := sameTrack_event s.tend s
  unfold Simulator.tickHead at h
  simp only [] at h
  generalize (s.event s.tend).1 = a at h e
  rw [← e.t_hist, ← e.tracker_runs, ← e.tick0, ← e.track_time, ← e.tickfirst, ← e.clock,
    ← e.kpass]
  by_cases hf : a.tickfirst = true
  · rw [if_pos hf] at h
    obtain ⟨b, hb, hb1, hb2, hb3, hb4, hb5, hb6, hb7⟩ : ∃ b : Simulator,
        (if (a.tick0 && a.track_time) = true
          then ({ a with t_hist := a.t_hist ++ [a.stepper.t] } : Simulator) else a) = b ∧
        b.t_hist = (if a.tick0 = true ∧ a.track_time = true then a.t_hist ++ [a.stepper.t]
          else a.t_hist) ∧
        b.tracker_runs = a.tracker_runs ∧ b.tick0 = a.tick0 ∧ b.track_time = a.track_time ∧
        b.tickfirst = a.tickfirst ∧ b.stepper.t = a.stepper.t ∧
        b.stepper.kpass = a.stepper.kpass := by
      by_cases hc : (a.tick0 && a.track_time) = true
      · rw [if_pos hc]
        have hc2 : a.tick0 = true ∧ a.track_time = true := by simpa using hc
        exact ⟨_, rfl, by rw [if_pos hc2], rfl, rfl, rfl, rfl, rfl, rfl⟩
      · rw [if_neg hc]
        have hc2 : ¬ (a.tick0 = true ∧ a.track_time = true) := by simpa using hc
        exact ⟨_, rfl, by rw [if_neg hc2], rfl, rfl, rfl, rfl, rfl, rfl⟩
    rw [hb] at h
    have c := sameTrack_changeTimeStep b
    generalize b.changeTimeStep = c0 at h c
    cases hr : Simulator.report w.hooks w.fuel c0 with
    | none => rw [hr] at h; exact absurd h (by simp)
    | some d =>
      rw [hr] at h
      simp only [Option.some.injEq] at h
      have r := (sameTrack_runPhase w.hooks Phase.report ⟨by decide, by decide⟩ w.fuel c0 d hr).1
      have hd0 : d.tick0 = a.tick0 := r.tick0.trans (c.tick0.trans hb3)
      have hdh : d.t_hist = b.t_hist := r.t_hist.trans c.t_hist
      have hdr : d.tracker_runs = a.tracker_runs :=
        r.tracker_runs.trans (c.tracker_runs.trans hb2)
      have hdt : d.track_time = a.track_time := r.track_time.trans (c.track_time.trans hb4)
      have hdf : d.tickfirst = a.tickfirst := r.tickfirst.trans (c.tickfirst.trans hb5)
      have hdc : d.stepper.t = a.stepper.t := r.clock.trans (c.clock.trans hb6)
      have hdk : d.stepper.kpass = a.stepper.kpass := r.kpass.trans (c.kpass.trans hb7)
      obtain ⟨k1, k2, k3, k4, k5, k6⟩ := sameTrack_tracker d
      by_cases h0 : a.tick0 = true
      · rw [if_pos (hd0.trans h0)] at h
        rw [← h]
        simp only [hf, h0, true_and, if_true]
        refine ⟨?_, ?_, ?_, ?_, ?_, ?_, ?_⟩
        · show d.tracker.t_hist = _
          rw [k1, hdh, hb1]
          simp [h0]
        · show d.tracker.tracker_runs = _
          rw [k2, hdr]
        · simp
        · show d.tracker.track_time = _
          rw [k4, hdt]
        · show d.tracker.tickfirst = _
          rw [k5, hdf, hf]
        · show d.tracker.stepper.t = _
          rw [k6, hdc]
        · show d.tracker.stepper.kpass = _
          rw [k6, hdk]
      · rw [if_neg (by rw [hd0]; exact h0)] at h
        rw [← h]
        have h0f : a.tick0 = false := by simpa using h0
        simp only [hf, h0f, true_and, false_and, if_false]
        refine ⟨?_, hdr, ?_, hdt, hdf.trans hf, hdc, hdk⟩
        · rw [hdh, hb1]
          simp [h0f]
        · rw [hd0, h0f]
          simp
  · rw [if_neg hf] at h
    simp only [Option.some.injEq] at h
    rw [← h]
    have hff : a.tickfirst = false := by simpa using hf
    simp [hff]

/-- From `update()` to `updateClock()` (Simulator.cpp 69-80) nothing is
recorded and `tracker()` is not invoked; `tickfirst` is cleared and the clock
makes the one `updateClock()` of the tick. -/
theorem Simulator.tickUpdate_track (w : World) (s s2 : Simulator)
    (h : s.tickUpdate w = some s2) :
    s2.t_hist = s.t_hist ∧ s2.tracker_runs = s.tracker_runs ∧ s2.tick0 = s.tick0 ∧
    s2.track_time = s.track_time ∧ s2.tickfirst = false ∧
    s2.stepper = RK4.updateClock s.stepper := by
  unfold Simulator.tickUpdate at h
  cases hu : Simulator.update w.hooks w.fuel s with
  | none => rw [hu] at h; exact absurd h (by simp)
  | some a =>
    rw [hu] at h
    simp only [Option.some.injEq] at h
    have hc := sameCtl_of_untouched Phase.update _ s a
      (runPhase_untouched w.hooks Phase.update ⟨by decide, by decide⟩ w.fuel s a hu).1
    obtain ⟨b, hb, hb1, hb2, hb3, hb4, hb5, hb6⟩ : ∃ b : Simulator,
        (if ({ a with tickfirst := false } : Simulator).sample = true then
          if (w.adaptiveFSAL &&
              ({ a with tickfirst := false } : Simulator).stepper.integrator_initialized) = true
          then ({ a with tickfirst := false } : Simulator).adaptiveCalc
            (w.optimalTimeStep { a with tickfirst := false })
          else { a with tickfirst := false }
        else { a with tickfirst := false }) = b ∧
        b.t_hist = a.t_hist ∧ b.tracker_runs = a.tracker_runs ∧ b.tick0 = a.tick0 ∧
        b.track_time = a.track_time ∧ b.tickfirst = false ∧ b.stepper = a.stepper := by
      have ha := sameTrack_adaptiveCalc (w.optimalTimeStep { a with tickfirst := false })
        { a with tickfirst := false }
      have hs : (({ a with tickfirst := false } : Simulator).adaptiveCalc
          (w.optimalTimeStep { a with tickfirst := false })).stepper = a.stepper := by
        unfold Simulator.adaptiveCalc
        simp only []
        split_ifs <;> rfl
      split_ifs
      · exact ⟨_, rfl, ha.t_hist, ha.tracker_runs, ha.tick0, ha.track_time, ha.tickfirst, hs⟩
      · exact ⟨_, rfl, rfl, rfl, rfl, rfl, rfl, rfl⟩
      · exact ⟨_, rfl, rfl, rfl, rfl, rfl, rfl, rfl⟩
    rw [hb] at h
    have hp := (Simulator.propagateStates_similar b).same
    have hp2 := sameTrack_propagateStates b
    generalize b.propagateStates = c at h hp hp2
    have hcs : c.stepper = b.stepper := by rw [hp]
    rw [← h, Simulator.updateClock_eq]
    refine ⟨?_, ?_, ?_, ?_, ?_, ?_⟩
    · exact hp2.t_hist.trans (hb1.trans hc.t_hist)
    · exact hp2.tracker_runs.trans (hb2.trans hc.tracker_runs)
    · exact hp2.tick0.trans (hb3.trans hc.tick0)
    · exact hp2.track_time.trans (hb4.trans hc.track_time)
    · exact hp2.tickfirst.trans hb5
    · show RK4.updateClock c.stepper = _
      rw [hcs, hb6, hc.stepper]

/-- The block after a closed step (Simulator.cpp 82-105): `t` is recorded
when `track_time` is set and `tracker()` is invoked once; the clock does not
move. -/
theorem Simulator.tickClosed_track (w : World) (s s3 : Simulator)
    (h : s.tickClosed w = some s3) :
    s3.t_hist = (if s.track_time = true then s.t_hist ++ [s.stepper.t] else s.t_hist) ∧
    s3.tracker_runs = s.tracker_runs + 1 ∧ s3.tick0 = s.tick0 ∧
    s3.track_time = s.track_time ∧ s3.tickfirst = s.tickfirst := by
  unfold Simulator.tickClosed at h
  obtain ⟨a, ha, ha1, ha2, ha3, ha4, ha5⟩ : ∃ a : Simulator,
      (if s.track_time = true then
        ({ s with t_hist := s.t_hist ++ [s.stepper.t] } : Simulator) else s) = a ∧
      a.t_hist = (if s.track_time = true then s.t_hist ++ [s.stepper.t] else s.t_hist) ∧
      a.tracker_runs = s.tracker_runs ∧ a.tick0 = s.tick0 ∧ a.track_time = s.track_time ∧
      a.tickfirst = s.tickfirst := by
    split_ifs
    · exact ⟨_, rfl, rfl, rfl, rfl, rfl, rfl⟩
    · exact ⟨_, rfl, rfl, rfl, rfl, rfl, rfl⟩
  simp only [] at h
  rw [ha] at h
  cases hpc : Simulator.postcalc w.hooks w.fuel a with
  | none => rw [hpc] at h; exact absurd h (by simp)
  | some b =>
    rw [hpc] at h
    simp only [] at h
    have r1 := (sameTrack_runPhase w.hooks Phase.postcalc ⟨by decide, by decide⟩ w.fuel a b
      hpc).1
    cases hck : Simulator.check w.hooks w.fuel b with
    | none => rw [hck] at h; exact absurd h (by simp)
    | some c =>
      rw [hck] at h
      simp only [] at h
      have r2 := (sameTrack_runPhase w.hooks Phase.check ⟨by decide, by decide⟩ w.fuel b c
        hck).1
      have r3 := sameTrack_runStoppers w c
      generalize c.runStoppers w = d at h r3
      obtain ⟨e, he, r4⟩ : ∃ e : Simulator,
          (if d.stop_simulation = true ∨ d.stepper.t + d.stepper.EPS ≥ d.tend then
            ({ d with ticklast := true } : Simulator) else d) = e ∧ SameTrack d e := by
        split_ifs
        · exact ⟨_, rfl, by constructor <;> rfl⟩
        · exact ⟨_, rfl, sameTrack_refl _⟩
      rw [he] at h
      cases hrp : Simulator.report w.hooks w.fuel e with
      | none => rw [hrp] at h; exact absurd h (by simp)
      | some f =>
        rw [hrp] at h
        simp only [Option.some.injEq] at h
        have r5 := (sameTrack_runPhase w.hooks Phase.report ⟨by decide, by decide⟩ w.fuel e f
          hrp).1
        obtain ⟨k1, k2, k3, k4, k5, k6⟩ := sameTrack_tracker f
        obtain ⟨g, hg, r6⟩ : ∃ g : Simulator,
            (if w.adaptive = true then f.tracker.adaptiveCalc (w.optimalTimeStep f.tracker)
              else f.tracker) = g ∧ SameTrack f.tracker g := by
          split_ifs
          · exact ⟨_, rfl, sameTrack_adaptiveCalc _ _⟩
          · exact ⟨_, rfl, sameTrack_refl _⟩
        rw [hg] at h
        have r7 := sameTrack_trans r6
          (sameTrack_trans (sameTrack_changeTimeStep g) (sameTrack_deleteModules _))
        rw [h] at r7
        have r0 := sameTrack_trans r1 (sameTrack_trans r2 (sameTrack_trans r3
          (sameTrack_trans r4 r5)))
        refine ⟨?_, ?_, ?_, ?_, ?_⟩
        · rw [r7.t_hist, k1, r0.t_hist, ha1]
        · rw [r7.tracker_runs, k2, r0.tracker_runs, ha2]
        · rw [r7.tick0, k3, r0.tick0, ha3]
        · rw [r7.track_time, k4, r0.track_time, ha4]
        · rw [r7.tickfirst, k5, r0.tickfirst, ha5]

/-- One iteration of the loop of `run`, as far as the tracked time series is
concerned: the head records and tracks only in the very first tick, the step
records nothing, and after a completed step (`kpass = 0` after
`updateClock()`) the new `t` is recorded, when `track_time` is set, and
`tracker()` is invoked once. -/
theorem Simulator.tick_track (w : World) (s s' : Simulator) (b : Bool)
    (h : s.tick w = some (s', b)) :
    ∃ s1 s2, s.tickHead w = some s1 ∧ s1.tickUpdate w = some s2 ∧
      s'.t_hist = (if s2.stepper.kpass = 0 ∧ s2.track_time = true
        then s2.t_hist ++ [s2.stepper.t] else s2.t_hist) ∧
      s'.tracker_runs = (if s2.stepper.kpass = 0 then s2.tracker_runs + 1
        else s2.tracker_runs) ∧
      s'.tick0 = s2.tick0 ∧ s'.track_time = s2.track_time ∧ s'.tickfirst = s2.tickfirst := by
  unfold Simulator.tick at h
  cases h1 : s.tickHead w with
  | none => rw [h1] at h; exact absurd h (by simp)
  | some s1 =>
    rw [h1] at h
    simp only [] at h
    cases h2 : s1.tickUpdate w with
    | none => rw [h2] at h; exact absurd h (by simp)
    | some s2 =>
      rw [h2] at h
      simp only [] at h
      refine ⟨s1, s2, rfl, h2, ?_⟩
      have hreset : ∀ (u u' : Simulator),
          (Simulator.reset w.hooks w.fuel u).map (fun s => (s, false)) = some (u', b) →
          SameTrack u u' := by
        intro u u' hu
        cases hr : Simulator.reset w.hooks w.fuel u with
        | none => rw [hr] at hu; exact absurd hu (by simp)
        | some v =>
          rw [hr] at hu
          simp only [Option.map_some', Option.some.injEq, Prod.mk.injEq] at hu
          rw [← hu.1]
          exact (sameTrack_runPhase w.hooks Phase.reset ⟨by decide, by decide⟩ w.fuel u v hr).1
      by_cases hk : s2.stepper.kpass = 0
      · have hs : s2.sample = true := by simp [Simulator.sample, hk]
        rw [if_pos hs] at h
        cases h3 : s2.tickClosed w with
        | none => rw [h3] at h; exact absurd h (by simp)
        | some s3 =>
          rw [h3] at h
          simp only [] at h
          obtain ⟨c1, c2, c3, c4, c5⟩ := Simulator.tickClosed_track w s2 s3 h3
          have r : SameTrack s3 s' := by
            by_cases hl : s3.ticklast = true
            · rw [if_pos hl] at h
              simp only [Option.some.injEq, Prod.mk.injEq] at h
              rw [← h.1]
              exact sameTrack_createFiles w s3
            · rw [if_neg hl] at h
              exact hreset s3 s' h
          refine ⟨?_, ?_, ?_, ?_, ?_⟩
          · rw [r.t_hist, c1]
            by_cases ht : s2.track_time = true
            · rw [if_pos ht, if_pos ⟨hk, ht⟩]
            · rw [if_neg ht, if_neg (fun hh => ht hh.2)]
          · rw [r.tracker_runs, c2, if_pos hk]
          · rw [r.tick0, c3]
          · rw [r.track_time, c4]
          · rw [r.tickfirst, c5]
      · have hs : ¬ (s2.sample = true) := by simp [Simulator.sample, hk]
        rw [if_neg hs] at h
        have r := hreset s2 s' h
        exact ⟨by rw [r.t_hist, if_neg (fun hh => hk hh.1)],
          by rw [r.tracker_runs, if_neg hk], r.tick0, r.track_time, r.tickfirst⟩

/-- An iteration of the loop of `run` with `track_time` set keeps `track_time`
set and the number of recorded times equal to the number of `tracker()`
invocations. -/
theorem Simulator.tick_lengths (w : World) (s s' : Simulator) (b : Bool)
    (h : s.tick w = some (s', b)) (ht : s.track_time = true)
    (hl : s.t_hist.length = s.tracker_runs) :
    s'.track_time = true ∧ s'.t_hist.length = s'.tracker_runs := by
  obtain ⟨s1, s2, h1, h2, a1, a2, _, a4, _⟩ := Simulator.tick_track w s s' b h
  obtain ⟨b1, b2, _, b4, _, _, _⟩ := Simulator.tickHead_track w s s1 h1
  obtain ⟨c1, c2, _, c4, _, _⟩ := Simulator.tickUpdate_track w s1 s2 h2
  have t2 : s2.track_time = true := c4.trans (b4.trans ht)
  have l1 : s1.t_hist.length = s1.tracker_runs := by
    rw [b1, b2]
    by_cases hc : s.tickfirst = true ∧ s.tick0 = true
    · rw [if_pos ⟨hc.1, hc.2, ht⟩, if_pos hc]
      simp [hl]
    · rw [if_neg (fun hh => hc ⟨hh.1, hh.2.1⟩), if_neg hc]
      exact hl
  have l2 : s2.t_hist.length = s2.tracker_runs := by rw [c1, c2]; exact l1
  refine ⟨a4.trans t2, ?_⟩
  rw [a1, a2]
  by_cases hk : s2.stepper.kpass = 0
  · rw [if_pos ⟨hk, t2⟩, if_pos hk]
    simp [l2]
  · rw [if_neg (fun hh => hk hh.1), if_neg hk]
    exact l2

theorem Simulator.ticks_lengths (w : World) : ∀ (n : Nat) (s s' : Simulator),
    Simulator.ticks w n s = some s' → s.track_time = true →
    s.t_hist.length = s.tracker_runs →
    s'.track_time = true ∧ s'.t_hist.length = s'.tracker_runs := by
  intro n
  induction n with
  | zero =>
    intro s s' h ht hl
    simp only [Simulator.ticks] at h
    split_ifs at h
    simp only [Option.some.injEq] at h
    rw [← h]
    exact ⟨ht, hl⟩
  | succ n ih =>
    intro s s' h ht hl
    by_cases he : s.error = true
    · rw [Simulator.ticks_of_error w _ s he] at h
      simp only [Option.some.injEq] at h
      rw [← h]
      exact ⟨ht, hl⟩
    · have he' : s.error = false := by simpa using he
      cases hk : s.tick w with
      | none => simp [Simulator.ticks, he', hk] at h
      | some r =>
        obtain ⟨u, b⟩ := r
        rw [Simulator.ticks_succ w n s u b he' hk] at h
        obtain ⟨t1, l1⟩ := Simulator.tick_lengths w s u b hk ht hl
        cases b with
        | true =>
          simp only [if_true, Option.some.injEq] at h
          rw [← h]
          exact ⟨t1, l1⟩
        | false =>
          simp only [Bool.false_eq_true, if_false] at h
          exact ih u s' h t1 l1

/-- The statements of `run` before `setup` (Simulator.cpp 35-41) and
`setup(dt)` leave the tracked time series alone; `setup` sets `track_time`
when `trackers` is not empty, sets `tickfirst` and starts at pass 0. -/
theorem Simulator.setup_track (dt : ℚ) (s : Simulator) :
    (s.setup dt).t_hist = s.t_hist ∧ (s.setup dt).tracker_runs = s.tracker_runs ∧
    (s.setup dt).tick0 = s.tick0 ∧ (s.setup dt).tickfirst = true ∧
    (s.setup dt).stepper.t = s.stepper.t ∧ (s.setup dt).stepper.kpass = 0 ∧
    (s.setup dt).track_time = (s.track_time || decide (0 < s.trackers.size)) ∧
    (s.setup dt).trackers = s.trackers := by
  unfold Simulator.setup
  by_cases h : s.trackers.size > 0
  · simp [h, Simulator.directErase]
  · simp [h, Simulator.directErase]

/-- The state in which `run` enters its loop after `setup(dt)` and `init()`. -/
theorem Simulator.enter_loop_track (h : Hooks) (fuel : Nat) (dt : ℚ) (s u : Simulator)
    (hi : (s.setup dt).init h fuel = some u) :
    u.t_hist = s.t_hist ∧ u.tracker_runs = s.tracker_runs ∧ u.tick0 = s.tick0 ∧
    u.tickfirst = true ∧ u.stepper.t = s.stepper.t ∧ u.stepper.kpass = 0 ∧
    u.track_time = (s.track_time || decide (0 < s.trackers.size)) ∧
    u.trackers = s.trackers := by
  obtain ⟨a1, a2, a3, a4, a5, a6, a7, a8⟩ := Simulator.setup_track dt s
  obtain ⟨r, rt⟩ := sameTrack_runPhase h Phase.init ⟨by decide, by decide⟩ fuel _ u hi
  exact ⟨r.t_hist.trans a1, r.tracker_runs.trans a2, r.tick0.trans a3, r.tickfirst.trans a4,
    r.clock.trans a5, r.kpass.trans a6, r.track_time.trans a7, rt.trans a8⟩

/-- At every return of `run`, if `track_time` was set or `trackers` was not
empty at the call and the two lengths agreed, they agree again. -/
theorem Simulator.run_lengths (w : World) (n : Nat) (dt tmax : ℚ) (s s' : Simulator)
    (b : Bool) (h : s.run w n dt tmax = some (s', b))
    (hc : s.track_time = true ∨ 0 < s.trackers.size)
    (hl : s.t_hist.length = s.tracker_runs) :
    s'.t_hist.length = s'.tracker_runs ∧ (s'.track_time = true ∨ 0 < s'.trackers.size) := by
  unfold Simulator.run at h
  simp only [] at h
  obtain ⟨s1, hs1, e1, e2, e3, e4⟩ : ∃ s1 : Simulator,
      (if ((if ({ s with tend := tmax } : Simulator).tend ≤
              ({ s with tend := tmax } : Simulator).stepper.t
            then ({ s with tend := tmax } : Simulator).setError
              (endTimeMessage ({ s with tend := tmax } : Simulator).tend
                ({ s with tend := tmax } : Simulator).stepper.t)
            else { s with tend := tmax }) : Simulator).modules.size = 0
        then ((if ({ s with tend := tmax } : Simulator).tend ≤
              ({ s with tend := tmax } : Simulator).stepper.t
            then ({ s with tend := tmax } : Simulator).setError
              (endTimeMessage ({ s with tend := tmax } : Simulator).tend
                ({ s with tend := tmax } : Simulator).stepper.t)
            else { s with tend := tmax }) : Simulator).setError "There are no modules to run."
        else (if ({ s with tend := tmax } : Simulator).tend ≤
              ({ s with tend := tmax } : Simulator).stepper.t
            then ({ s with tend := tmax } : Simulator).setError
              (endTimeMessage ({ s with tend := tmax } : Simulator).tend
                ({ s with tend := tmax } : Simulator).stepper.t)
            else { s with tend := tmax })) = s1 ∧
      s1.t_hist = s.t_hist ∧ s1.tracker_runs = s.tracker_runs ∧
      s1.track_time = s.track_time ∧ s1.trackers = s.trackers := by
    refine ⟨_, rfl, ?_, ?_, ?_, ?_⟩ <;> (split_ifs <;> rfl)
  rw [hs1] at h
  have fin : ∀ v : Simulator, v.t_hist.length = v.tracker_runs →
      (v.track_time = true ∨ 0 < v.trackers.size) →
      (if ({ v.directErase true with phase := Phase.setup } : Simulator).error = true
        then some (({ v.directErase true with phase := Phase.setup } : Simulator), false)
        else some (({ v.directErase true with phase := Phase.setup } : Simulator), true))
        = some (s', b) →
      s'.t_hist.length = s'.tracker_runs ∧ (s'.track_time = true ∨ 0 < s'.trackers.size) := by
    intro v hv1 hv2 hv
    have : s' = { v.directErase true with phase := Phase.setup } := by
      split_ifs at hv <;>
        (simp only [Option.some.injEq, Prod.mk.injEq] at hv; exact hv.1.symm)
    rw [this]
    exact ⟨hv1, hv2⟩
  by_cases he : s1.error = true
  · simp only [he, Bool.not_true, Bool.false_eq_true, if_false,
      Simulator.ticks_of_error w n s1 he] at h
    exact fin s1 (by rw [e1, e2]; exact hl) (by rw [e3, e4]; exact hc) h
  · have he' : (!s1.error) = true := by simpa using he
    rw [if_pos he'] at h
    cases hi : (s1.setup dt).init w.hooks w.fuel with
    | none => rw [hi] at h; exact absurd h (by simp)
    | some u =>
      rw [hi] at h
      simp only [] at h
      obtain ⟨a1, a2, _, _, _, _, a7, _⟩ :=
        Simulator.enter_loop_track w.hooks w.fuel dt s1 u hi
      have ut : u.track_time = true := by
        rw [a7, e3, e4]
        rcases hc with hc | hc
        · simp [hc]
        · simp [hc]
      cases hk : Simulator.ticks w n u with
      | none => rw [hk] at h; exact absurd h (by simp)
      | some v =>
        rw [hk] at h
        simp only [] at h
        obtain ⟨vt, vl⟩ := Simulator.ticks_lengths w n u v hk ut
          (by rw [a1, a2, e1, e2]; exact hl)
        exact fin v vl (Or.inl vt) h

theorem Simulator.runs_lengths (w : World) : ∀ (calls : List (Nat × ℚ × ℚ))
    (s s' : Simulator), s.runs w calls = some s' →
    (s.track_time = true ∨ 0 < s.trackers.size) → s.t_hist.length = s.tracker_runs →
    s'.t_hist.length = s'.tracker_runs ∧ (s'.track_time = true ∨ 0 < s'.trackers.size) := by
  intro calls
  induction calls with
  | nil =>
    intro s s' h hc hl
    simp only [Simulator.runs, Option.some.injEq] at h
    rw [← h]
    exact ⟨hl, hc⟩
  | cons c rest ih =>
    intro s s' h hc hl
    obtain ⟨n, dt, tmax⟩ := c
    simp only [Simulator.runs] at h
    cases hr : s.run w n dt tmax with
    | none => rw [hr] at h; exact absurd h (by simp)
    | some r =>
      obtain ⟨u, b⟩ := r
      rw [hr] at h
      simp only [] at h
      obtain ⟨l1, c1⟩ := Simulator.run_lengths w n dt tmax s u b hr hc hl
      exact ih u s' h c1 l1

/-- C22: if `track_time` is set or `trackers` is not empty when `run` is first
called (so that `setup` sets `track_time`) and `t_hist` has as many entries as
`tracker()` has been invoked, then the same holds at the return of every
`run`, also an error return, across any sequence of `run` calls on the same
Simulator.  A run that passes the configuration checks enters its loop with
`track_time` and `tickfirst` set, at pass 0, with `t` and the series as they
were at the call.  In every loop iteration with `track_time` set: the head
records `t`, unchanged since the start of the iteration, and invokes
`tracker()` once exactly in the very first tick (`tickfirst` and `tick0`
set), which clears `tick0` for good; from `update()` to `updateClock()`
nothing is recorded; and after `updateClock()` the new `t` is recorded and
`tracker()` invoked once exactly when the step is completed (`kpass` back at
0), otherwise nothing is recorded. -/
theorem tracked_series_lengths (w : World) (s s' : Simulator)
    (calls : List (Nat × ℚ × ℚ))
    (hc : s.track_time = true ∨ 0 < s.trackers.size)
    (hl : s.t_hist.length = s.tracker_runs)
    (hr : s.runs w calls = some s') :
    (s'.t_hist.length = s'.tracker_runs ∧ (s'.track_time = true ∨ 0 < s'.trackers.size)) ∧
    (∀ (dt tmax : ℚ) (u : Simulator),
      (({ s with tend := tmax } : Simulator).setup dt).init w.hooks w.fuel = some u →
      u.track_time = true ∧ u.tickfirst = true ∧ u.tick0 = s.tick0 ∧
      u.stepper.t = s.stepper.t ∧ u.stepper.kpass = 0 ∧ u.t_hist = s.t_hist ∧
      u.tracker_runs = s.tracker_runs) ∧
    (∀ (u u' : Simulator) (b : Bool), u.track_time = true → u.tick w = some (u', b) →
      ∃ u1 u2, u.tickHead w = some u1 ∧ u1.tickUpdate w = some u2 ∧
        u1.t_hist = (if u.tickfirst = true ∧ u.tick0 = true then u.t_hist ++ [u.stepper.t]
          else u.t_hist) ∧
        u1.tracker_runs = (if u.tickfirst = true ∧ u.tick0 = true then u.tracker_runs + 1
          else u.tracker_runs) ∧
        u1.stepper.t = u.stepper.t ∧
        u2.t_hist = u1.t_hist ∧ u2.tracker_runs = u1.tracker_runs ∧
        u2.stepper = RK4.updateClock u1.stepper ∧
        u2.stepper.kpass = (u.stepper.kpass + 1) % 4 ∧
        u'.t_hist = (if u2.stepper.kpass = 0 then u2.t_hist ++ [u2.stepper.t]
          else u2.t_hist) ∧
        u'.tracker_runs = (if u2.stepper.kpass = 0 then u2.tracker_runs + 1
          else u2.tracker_runs) ∧
        u'.track_time = true ∧ u'.tickfirst = false ∧
        u'.tick0 = (u.tick0 && !u.tickfirst)) := by
  refine ⟨Simulator.runs_lengths w calls s s' hr hc hl, ?_, ?_⟩
  · intro dt tmax u hu
    obtain ⟨a1, a2, a3, a4, a5, a6, a7, _⟩ :=
      Simulator.enter_loop_track w.hooks w.fuel dt _ u hu
    refine ⟨?_, a4, a3, a5, a6, a1, a2⟩
    rw [a7]
    show (s.track_time || decide (0 < s.trackers.size)) = true
    rcases hc with hc | hc
    · simp [hc]
    · simp [hc]
  · intro u u' b ut hk
    obtain ⟨u1, u2, h1, h2, a1, a2, a3, a4, a5⟩ := Simulator.tick_track w u u' b hk
    obtain ⟨b1, b2, b3, b4, b5, b6, b7⟩ := Simulator.tickHead_track w u u1 h1
    obtain ⟨c1, c2, c3, c4, c5, c6⟩ := Simulator.tickUpdate_track w u1 u2 h2
    have t2 : u2.track_time = true := c4.trans (b4.trans ut)
    refine ⟨u1, u2, h1, h2, ?_, b2, b6, c1, c2, c6, ?_, ?_, a2, a4.trans t2, a5.trans c5,
      a3.trans (c3.trans b3)⟩
    · rw [b1]
      by_cases hf : u.tickfirst = true ∧ u.tick0 = true
      · rw [if_pos ⟨hf.1, hf.2, ut⟩, if_pos hf]
      · rw [if_neg (fun hh => hf ⟨hh.1, hh.2.1⟩), if_neg hf]
    · rw [c6, RK4.updateClock_kpass, b7]
    · rw [a1]
      by_cases hk0 : u2.stepper.kpass = 0
      · rw [if_pos ⟨hk0, t2⟩, if_pos hk0]
      · rw [if_neg (fun hh => hk0 hh.1), if_neg hk0]

theorem tracked_series_lengths_witness :
    ∃ s', trackedSim.runs (plainWorld 2) [(20, 1 / 10, 3 / 10), (20, 1 / 10, 1 / 2)]
        = some s' ∧
      s'.t_hist = [0, 1 / 10, 1 / 5, 3 / 10, 2 / 5, 1 / 2] ∧
      s'.t_hist.length = s'.tracker_runs ∧
      (s'.track_time = true ∨ 0 < s'.trackers.size) := by
  have hv : ((trackedSim.runs (plainWorld 2)
      [(20, 1 / 10, 3 / 10), (20, 1 / 10, 1 / 2)]).map (fun s => s.t_hist))
      = some [0, 1 / 10, 1 / 5, 3 / 10, 2 / 5, 1 / 2] := by decide!
  cases hs : trackedSim.runs (plainWorld 2) [(20, 1 / 10, 3 / 10), (20, 1 / 10, 1 / 2)] with
  | none => rw [hs] at hv; exact absurd hv (by simp)
  | some s' =>
    rw [hs] at hv
    obtain ⟨h1, h2⟩ := (tracked_series_lengths (plainWorld 2) trackedSim s'
      [(20, 1 / 10, 3 / 10), (20, 1 / 10, 1 / 2)] (Or.inr (by decide)) (by decide) hs).1
    exact ⟨s', rfl, by simpa using hv, h1, h2⟩

/-! ### Registration of modules -/

theorem DynamicMap.count_pos (k : Nat) (d : DynamicMap) :
    0 < d.count k ↔ k ∈ d.keys ∧ k ∉ d.staged := by
  unfold DynamicMap.count
  by_cases h1 : k ∈ d.keys <;> by_cases h2 : k ∈ d.staged <;> simp [h1, h2]

theorem DynamicMap.count_zero (k : Nat) (d : DynamicMap) :
    d.count k = 0 ↔ (k ∉ d.keys ∨ k ∈ d.staged) := by
  unfold DynamicMap.count
  by_cases h1 : k ∈ d.keys <;> by_cases h2 : k ∈ d.staged <;> simp [h1, h2]

theorem DynamicMap.insert_keys (k j : Nat) (d : DynamicMap) :
    j ∈ (d.insert k).keys ↔ j ∈ d.keys ∨ j = k := by
  unfold DynamicMap.insert
  by_cases h : d.keys.contains k = true
  · rw [if_pos h]
    have hk : k ∈ d.keys := by simpa using h
    constructor
    · exact Or.inl
    · rintro (h1 | h1)
      · exact h1
      · rw [h1]; exact hk
  · rw [if_neg h]
    simp

theorem DynamicMap.insert_staged (k : Nat) (d : DynamicMap) :
    (d.insert k).staged = d.staged := by
  unfold DynamicMap.insert
  split_ifs <;> rfl

theorem DynamicMap.count_insert_of_pos (k j : Nat) (d : DynamicMap) (h : 0 < d.count j) :
    0 < (d.insert k).count j := by
  rw [DynamicMap.count_pos] at h ⊢
  rw [DynamicMap.insert_keys, DynamicMap.insert_staged]
  exact ⟨Or.inl h.1, h.2⟩

theorem DynamicMap.count_insert_ne (k j : Nat) (d : DynamicMap) (hne : j ≠ k)
    (h : 0 < (d.insert k).count j) : 0 < d.count j := by
  rw [DynamicMap.count_pos] at h ⊢
  rw [DynamicMap.insert_keys, DynamicMap.insert_staged] at h
  rcases h.1 with h1 | h1
  · exact ⟨h1, h.2⟩
  · exact absurd h1 hne

theorem DynamicMap.count_insert_self (k : Nat) (d : DynamicMap) (h : k ∉ d.staged) :
    0 < (d.insert k).count k := by
  rw [DynamicMap.count_pos, DynamicMap.insert_keys, DynamicMap.insert_staged]
  exact ⟨Or.inr rfl, h⟩

theorem DynamicMap.directErase_keys (k j : Nat) (d : DynamicMap) :
    j ∈ (d.directErase k).keys ↔ j ∈ d.keys ∧ j ≠ k := by
  unfold DynamicMap.directErase
  simp

theorem DynamicMap.count_directErase_self (k : Nat) (d : DynamicMap) :
    (d.directErase k).count k = 0 := by
  rw [DynamicMap.count_zero, DynamicMap.directErase_keys]
  left
  exact fun h => h.2 rfl

theorem DynamicMap.count_directErase_ne (k j : Nat) (d : DynamicMap) (hne : j ≠ k) :
    0 < (d.directErase k).count j ↔ 0 < d.count j := by
  rw [DynamicMap.count_pos, DynamicMap.count_pos, DynamicMap.directErase_keys]
  have : (d.directErase k).staged = d.staged := rfl
  rw [this]
  constructor
  · exact fun h => ⟨h.1.1, h.2⟩
  · exact fun h => ⟨⟨h.1, hne⟩, h.2⟩

/-- What the destructor does to one of the maps it tests with `count`. -/
theorem DynamicMap.drop_spec (k : Nat) (d : DynamicMap) :
    (if d.count k > 0 then d.directErase k else d).count k = 0 ∧
    (∀ j, j ≠ k → (0 < (if d.count k > 0 then d.directErase k else d).count j ↔
      0 < d.count j)) ∧
    (k ∉ d.staged → k ∉ (if d.count k > 0 then d.directErase k else d).keys) := by
  by_cases h : d.count k > 0
  · rw [if_pos h]
    refine ⟨DynamicMap.count_directErase_self k d,
      fun j hj => DynamicMap.count_directErase_ne k j d hj, ?_⟩
    intro _ hk
    rw [DynamicMap.directErase_keys] at hk
    exact hk.2 rfl
  · rw [if_neg h]
    have h0 : d.count k = 0 := by omega
    refine ⟨h0, fun j _ => Iff.rfl, ?_⟩
    intro hs hk
    rw [DynamicMap.count_zero] at h0
    rcases h0 with h1 | h1
    · exact h1 hk
    · exact hs h1

/-- `Module::Module` keeps the registration invariant, and (short of a wrap of
the counter) what it rests on. -/
theorem ModuleCore.constructModule_spec (c : ModuleCore) (hc : c.Registered) :
    c.constructModule.simulator.registered ∧
    c.constructModule.simulator.modules.staged = [] ∧
    (∀ k, (c.constructModule.simulator.accessor k).isSome = true →
      0 < c.constructModule.simulator.modules.count k) ∧
    0 < c.constructModule.simulator.modules.count c.next_module_id := by
  have hm : c.constructModule.simulator.modules = c.simulator.modules.insert c.next_module_id :=
    rfl
  have hself : 0 < (c.simulator.modules.insert c.next_module_id).count c.next_module_id :=
    DynamicMap.count_insert_self _ _ (by rw [hc.unstaged]; simp)
  have hold : ∀ j, 0 < c.simulator.modules.count j →
      0 < (c.simulator.modules.insert c.next_module_id).count j :=
    fun j hj => DynamicMap.count_insert_of_pos _ j _ hj
  refine ⟨?_, ?_, ?_, ?_⟩
  · intro j d hd hj
    rw [hm]
    by_cases hjk : j = c.next_module_id
    · rw [hjk]; exact hself
    · apply hold
      have key : ∀ d0 ∈ c.simulator.scheduleMaps, 0 < (d0.insert c.next_module_id).count j →
          0 < c.simulator.modules.count j :=
        fun d0 hd0 h0 => hc.maps j d0 hd0 (DynamicMap.count_insert_ne _ j d0 hjk h0)
      have hd' : d = c.simulator.inits.insert c.next_module_id ∨
          d = c.simulator.updates.insert c.next_module_id ∨
          d = c.simulator.postcalcs.insert c.next_module_id ∨
          d = c.simulator.checks.insert c.next_module_id ∨
          d = c.simulator.reports.insert c.next_module_id ∨
          d = c.simulator.resets.insert c.next_module_id ∨
          d = c.simulator.propagate := by
        simpa [Simulator.scheduleMaps, ModuleCore.constructModule] using hd
      rcases hd' with h | h | h | h | h | h | h
      · rw [h] at hj; exact key _ (by simp [Simulator.scheduleMaps]) hj
      · rw [h] at hj; exact key _ (by simp [Simulator.scheduleMaps]) hj
      · rw [h] at hj; exact key _ (by simp [Simulator.scheduleMaps]) hj
      · rw [h] at hj; exact key _ (by simp [Simulator.scheduleMaps]) hj
      · rw [h] at hj; exact key _ (by simp [Simulator.scheduleMaps]) hj
      · rw [h] at hj; exact key _ (by simp [Simulator.scheduleMaps]) hj
      · rw [h] at hj; exact hc.maps j _ (by simp [Simulator.scheduleMaps]) hj
  · rw [hm, DynamicMap.insert_staged]
    exact hc.unstaged
  · intro j hj
    rw [hm]
    by_cases hjk : j = c.next_module_id
    · rw [hjk]; exact hself
    · apply hold
      apply hc.live
      have : c.constructModule.simulator.accessor j = c.simulator.accessor j := by
        show (if j = c.next_module_id then _ else _) = _
        rw [if_neg hjk]
      rw [← this]
      exact hj
  · rw [hm]; exact hself

/-- `Module::addIntegrator` of a live module keeps the registration
invariant. -/
theorem Simulator.addIntegrator_spec (c : ModuleCore) (hc : c.Registered) (k : Nat) (x xd : ℚ)
    (hk : (c.simulator.accessor k).isSome = true) :
    ({ c with simulator := c.simulator.addIntegrator k x xd } : ModuleCore).Registered := by
  obtain ⟨a, ha, hmods, hsame, hprop⟩ : ∃ a : Simulator,
      (if c.simulator.propagate.count k = 0
        then ({ c.simulator with propagate := c.simulator.propagate.insert k } : Simulator)
        else c.simulator) = a ∧
      a.modules = c.simulator.modules ∧
      (a.inits = c.simulator.inits ∧ a.updates = c.simulator.updates ∧
        a.postcalcs = c.simulator.postcalcs ∧ a.checks = c.simulator.checks ∧
        a.reports = c.simulator.reports ∧ a.resets = c.simulator.resets ∧
        a.accessor = c.simulator.accessor) ∧
      (a.propagate = c.simulator.propagate ∨
        a.propagate = c.simulator.propagate.insert k) := by
    split_ifs
    · exact ⟨_, rfl, rfl, ⟨rfl, rfl, rfl, rfl, rfl, rfl, rfl⟩, Or.inr rfl⟩
    · exact ⟨_, rfl, rfl, ⟨rfl, rfl, rfl, rfl, rfl, rfl, rfl⟩, Or.inl rfl⟩
  have hs : c.simulator.addIntegrator k x xd
      = a.modify k (fun m => { m with states := m.states ++ [⟨x, xd, 0, 0, 0, 0, 0⟩] }) := by
    unfold Simulator.addIntegrator
    simp only []
    rw [ha]
  obtain ⟨e1, e2, e3, e4, e5, e6, e7⟩ := hsame
  constructor
  · intro j d hd hj
    show 0 < (c.simulator.addIntegrator k x xd).modules.count j
    rw [hs]
    show 0 < a.modules.count j
    rw [hmods]
    have hd' : d = a.inits ∨ d = a.updates ∨ d = a.postcalcs ∨ d = a.checks ∨
        d = a.reports ∨ d = a.resets ∨ d = a.propagate := by
      have hd2 : d ∈ (c.simulator.addIntegrator k x xd).scheduleMaps := hd
      rw [hs] at hd2
      simpa [Simulator.scheduleMaps, Simulator.modify] using hd2
    rcases hd' with h | h | h | h | h | h | h
    · rw [h, e1] at hj; exact hc.maps j _ (by simp [Simulator.scheduleMaps]) hj
    · rw [h, e2] at hj; exact hc.maps j _ (by simp [Simulator.scheduleMaps]) hj
    · rw [h, e3] at hj; exact hc.maps j _ (by simp [Simulator.scheduleMaps]) hj
    · rw [h, e4] at hj; exact hc.maps j _ (by simp [Simulator.scheduleMaps]) hj
    · rw [h, e5] at hj; exact hc.maps j _ (by simp [Simulator.scheduleMaps]) hj
    · rw [h, e6] at hj; exact hc.maps j _ (by simp [Simulator.scheduleMaps]) hj
    · rw [h] at hj
      rcases hprop with hp | hp
      · rw [hp] at hj; exact hc.maps j _ (by simp [Simulator.scheduleMaps]) hj
      · rw [hp] at hj
        by_cases hjk : j = k
        · rw [hjk]; exact hc.live k hk
        · exact hc.maps j _ (by simp [Simulator.scheduleMaps])
            (DynamicMap.count_insert_ne k j _ hjk hj)
  · show (c.simulator.addIntegrator k x xd).modules.staged = []
    rw [hs]
    show a.modules.staged = []
    rw [hmods]; exact hc.unstaged
  · intro j hj
    show 0 < (c.simulator.addIntegrator k x xd).modules.count j
    rw [hs]
    show 0 < a.modules.count j
    rw [hmods]
    apply hc.live
    have hj2 : ((c.simulator.addIntegrator k x xd).accessor j).isSome = true := hj
    rw [hs] at hj2
    simp only [Simulator.modify] at hj2
    rw [e7] at hj2
    split_ifs at hj2 with hjk
    · simpa using hj2
    · exact hj2
  · exact hc.ids

/-- `Module::callInit`, whatever the hooks call, keeps the registration
invariant. -/
theorem Module.callInit_registered (c : ModuleCore) (hc : c.Registered) (h : Hooks)
    (fuel k : Nat) (s' : Simulator) (heq : Module.callInit h fuel c.simulator k = some s') :
    ({ c with simulator := s' } : ModuleCore).Registered := by
  have hex : Exec Phase.init c.simulator s' := callPhase_exec h Phase.init fuel _ k s' heq
  have hu := Exec.untouched Phase.init hex
  have hsame := hu.same
  have hmods : s'.modules = c.simulator.modules := by rw [hsame]; rfl
  have hinits : ∀ j, 0 < s'.inits.count j → 0 < c.simulator.inits.count j := by
    intro j hj
    rw [DynamicMap.count_pos] at hj ⊢
    by_contra hn
    have he : c.simulator.inits.erased j := by
      unfold DynamicMap.erased
      by_cases h1 : j ∈ c.simulator.inits.keys
      · left
        by_contra h2
        exact hn ⟨h1, h2⟩
      · right; exact h1
    rcases Exec.erased_stable Phase.init hex j he with h1 | h1
    · exact hj.2 h1
    · exact h1 hj.1
  constructor
  · intro j d hd hj
    show 0 < s'.modules.count j
    rw [hmods]
    have hd' : d = s'.inits ∨ d = c.simulator.updates ∨ d = c.simulator.postcalcs ∨
        d = c.simulator.checks ∨ d = c.simulator.reports ∨ d = c.simulator.resets ∨
        d = c.simulator.propagate := by
      have hd2 : d ∈ s'.scheduleMaps := hd
      rw [hsame] at hd2
      simpa [Simulator.scheduleMaps, Simulator.withSched] using hd2
    rcases hd' with h | h | h | h | h | h | h
    · rw [h] at hj; exact hc.maps j _ (by simp [Simulator.scheduleMaps]) (hinits j hj)
    · rw [h] at hj; exact hc.maps j _ (by simp [Simulator.scheduleMaps]) hj
    · rw [h] at hj; exact hc.maps j _ (by simp [Simulator.scheduleMaps]) hj
    · rw [h] at hj; exact hc.maps j _ (by simp [Simulator.scheduleMaps]) hj
    · rw [h] at hj; exact hc.maps j _ (by simp [Simulator.scheduleMaps]) hj
    · rw [h] at hj; exact hc.maps j _ (by simp [Simulator.scheduleMaps]) hj
    · rw [h] at hj; exact hc.maps j _ (by simp [Simulator.scheduleMaps]) hj
  · show s'.modules.staged = []
    rw [hmods]; exact hc.unstaged
  · intro j hj
    show 0 < s'.modules.count j
    rw [hmods]
    apply hc.live
    rw [← hu.alive j]
    exact hj
  · exact hc.ids

/-- `Module::~Module` keeps the registration invariant and leaves the
`module_id` in no map and not in the accessor registry. -/
theorem Simulator.destroyModule_spec (c : ModuleCore) (hc : c.Registered) (k : Nat) :
    ({ c with simulator := c.simulator.destroyModule k } : ModuleCore).Registered ∧
    (c.simulator.destroyModule k).accessor k = none ∧
    (∀ d ∈ (c.simulator.destroyModule k).allMaps, d.count k = 0) ∧
    k ∉ (c.simulator.destroyModule k).modules.keys ∧
    (∀ p ∈ List.zip c.simulator.allMaps (c.simulator.destroyModule k).allMaps,
      k ∉ p.1.staged → k ∉ p.2.keys) := by
  have hm : (c.simulator.destroyModule k).modules = c.simulator.modules.directErase k := rfl
  have hsched : (c.simulator.destroyModule k).scheduleMaps
      = c.simulator.scheduleMaps.map
        (fun d => if d.count k > 0 then d.directErase k else d) := rfl
  have htr : (c.simulator.destroyModule k).trackers
      = if c.simulator.trackers.count k > 0 then c.simulator.trackers.directErase k
        else c.simulator.trackers := rfl
  have hkm : k ∉ (c.simulator.modules.directErase k).keys := by
    rw [DynamicMap.directErase_keys]
    exact fun h => h.2 rfl
  refine ⟨⟨?_, ?_, ?_, hc.ids⟩, ?_, ?_, ?_, ?_⟩
  · intro j d hd hj
    show 0 < (c.simulator.destroyModule k).modules.count j
    have hd2 : d ∈ (c.simulator.destroyModule k).scheduleMaps := hd
    rw [hsched, List.mem_map] at hd2
    obtain ⟨d0, hd0, rfl⟩ := hd2
    obtain ⟨z, ne, _⟩ := DynamicMap.drop_spec k d0
    by_cases hjk : j = k
    · rw [hjk, z] at hj
      exact absurd hj (by decide)
    · rw [hm, DynamicMap.count_directErase_ne k j _ hjk]
      exact hc.maps j d0 hd0 ((ne j hjk).1 hj)
  · show (c.simulator.destroyModule k).modules.staged = []
    rw [hm]
    exact hc.unstaged
  · intro j hj
    show 0 < (c.simulator.destroyModule k).modules.count j
    have hj2 : ((if j = k then none else c.simulator.accessor j) : Option Module).isSome
        = true := hj
    by_cases hjk : j = k
    · rw [if_pos hjk] at hj2
      exact absurd hj2 (by simp)
    · rw [if_neg hjk] at hj2
      rw [hm, DynamicMap.count_directErase_ne k j _ hjk]
      exact hc.live j hj2
  · show (if k = k then none else c.simulator.accessor k) = none
    rw [if_pos rfl]
  · intro d hd
    have hd2 : d = (c.simulator.destroyModule k).modules ∨
        d ∈ (c.simulator.destroyModule k).scheduleMaps ∨
        d = (c.simulator.destroyModule k).trackers := by
      simpa [Simulator.allMaps] using hd
    rcases hd2 with h | h | h
    · rw [h, hm]
      exact DynamicMap.count_directErase_self k _
    · rw [hsched, List.mem_map] at h
      obtain ⟨d0, _, rfl⟩ := h
      exact (DynamicMap.drop_spec k d0).1
    · rw [h, htr]
      exact (DynamicMap.drop_spec k _).1
  · rw [hm]; exact hkm
  · intro p hp hs
    have hall : (c.simulator.destroyModule k).allMaps
        = c.simulator.modules.directErase k ::
          (c.simulator.scheduleMaps.map
            (fun d => if d.count k > 0 then d.directErase k else d) ++
          [if c.simulator.trackers.count k > 0 then c.simulator.trackers.directErase k
            else c.simulator.trackers]) := rfl
    rw [hall] at hp
    simp only [Simulator.allMaps, Simulator.scheduleMaps, List.map_cons, List.map_nil,
      List.cons_append, List.nil_append, List.zip_cons_cons, List.zip_nil_right,
      List.mem_cons, List.mem_singleton, List.not_mem_nil, or_false] at hp
    rcases hp with h | h | h | h | h | h | h | h | h
    · rw [h]; exact hkm
    all_goals (rw [h] at hs ⊢; exact (DynamicMap.drop_spec k _).2.2 hs)

/-- Before any module is constructed the invariant holds. -/
theorem ModuleCore.start_registered (st : Stepper) : (ModuleCore.start st).Registered := by
  constructor
  · intro k d hd hk
    have hd' : d = { keys := [], staged := [], direct_erase := false } := by
      simpa [ModuleCore.start, Simulator.scheduleMaps, Simulator.ofModules] using hd
    rw [hd'] at hk
    simp [DynamicMap.count] at hk
  · rfl
  · intro k hk
    simp [ModuleCore.start, Simulator.ofModules] at hk
  · intro a ha
    simp [ModuleCore.start] at ha

/-- C21: with presence in a map read as `count(key) ≠ 0`, in a state in which
the registration invariant and what it rests on hold (`Registered`; it holds
before the first construction): `Module::Module` establishes the invariant
for the new module and keeps it for the others, and the new `module_id`, the
value of the counter, is strictly greater than every `module_id` assigned
before, which stays so as long as the 64-bit counter does not wrap;
`addIntegrator()` of a live module, `callInit()` (whatever the hooks call)
and `Module::~Module` keep the invariant; and after the destructor the
`module_id` is not in the accessor registry and counts in none of the nine
maps: it is no entry of `modules`, and no entry of any other map in which its
removal was not staged. -/
theorem registration_invariant (c : ModuleCore) (hc : c.Registered) :
    (c.constructModule.simulator.registered ∧
      (c.next_module_id + 1 < 2 ^ 64 → c.constructModule.Registered) ∧
      c.constructModule.assigned = c.assigned ++ [c.next_module_id] ∧
      (∀ a ∈ c.assigned, a < c.next_module_id) ∧
      (c.constructModule.simulator.accessor c.next_module_id).isSome = true ∧
      0 < c.constructModule.simulator.modules.count c.next_module_id) ∧
    (∀ (k : Nat) (x xd : ℚ), (c.simulator.accessor k).isSome = true →
      ({ c with simulator := c.simulator.addIntegrator k x xd } : ModuleCore).Registered) ∧
    (∀ (h : Hooks) (fuel k : Nat) (s' : Simulator),
      Module.callInit h fuel c.simulator k = some s' →
      ({ c with simulator := s' } : ModuleCore).Registered) ∧
    (∀ k : Nat,
      ({ c with simulator := c.simulator.destroyModule k } : ModuleCore).Registered ∧
      (c.simulator.destroyModule k).accessor k = none ∧
      (∀ d ∈ (c.simulator.destroyModule k).allMaps, d.count k = 0) ∧
      k ∉ (c.simulator.destroyModule k).modules.keys ∧
      (∀ p ∈ List.zip c.simulator.allMaps (c.simulator.destroyModule k).allMaps,
        k ∉ p.1.staged → k ∉ p.2.keys)) := by
  obtain ⟨a1, a2, a3, a4⟩ := ModuleCore.constructModule_spec c hc
  refine ⟨⟨a1, ?_, rfl, hc.ids, ?_, a4⟩, ?_, ?_, ?_⟩
  · intro hw
    refine ⟨a1, a2, a3, ?_⟩
    intro a ha
    have ha2 : a ∈ c.assigned ++ [c.next_module_id] := ha
    show a < (c.next_module_id + 1) % 2 ^ 64
    rw [Nat.mod_eq_of_lt hw]
    rcases List.mem_append.1 ha2 with h | h
    · exact Nat.lt_succ_of_lt (hc.ids a h)
    · have : a = c.next_module_id := by simpa using h
      omega
  · show ((if c.next_module_id = c.next_module_id then some (Module.fresh [] [])
      else c.simulator.accessor c.next_module_id) : Option Module).isSome = true
    rw [if_pos rfl]
    rfl
  · exact fun k x xd hk => Simulator.addIntegrator_spec c hc k x xd hk
  · exact fun h fuel k s' heq => Module.callInit_registered c hc h fuel k s' heq
  · exact fun k => Simulator.destroyModule_spec c hc k

theorem registration_invariant_witness :
    oneModuleCore.Registered ∧ oneModuleCore.assigned = [0] ∧
    oneModuleCore.constructModule.Registered ∧
    oneModuleCore.constructModule.assigned = [0, 1] ∧
    ({ oneModuleCore with simulator := oneModuleCore.simulator.addIntegrator 0 1 0 }
      : ModuleCore).Registered ∧
    (∃ s', Module.callInit plainHooks 1 oneModuleCore.simulator 0 = some s' ∧
      ({ oneModuleCore with simulator := s' } : ModuleCore).Registered) ∧
    ({ oneModuleCore with simulator := oneModuleCore.simulator.destroyModule 0 }
      : ModuleCore).Registered ∧
    (oneModuleCore.simulator.destroyModule 0).accessor 0 = none ∧
    (∀ d ∈ (oneModuleCore.simulator.destroyModule 0).allMaps, d.count 0 = 0) := by
  have h1 : oneModuleCore.Registered :=
    (registration_invariant (ModuleCore.start decaySim.stepper)
      (ModuleCore.start_registered _)).1.2.1 (by decide)
  obtain ⟨⟨_, b2, b3, _⟩, b5, b6, b7⟩ := registration_invariant oneModuleCore h1
  obtain ⟨s', hs'⟩ := Option.isSome_iff_exists.mp
    (by decide! : (Module.callInit plainHooks 1 oneModuleCore.simulator 0).isSome = true)
  obtain ⟨d1, d2, d3, _, _⟩ := b7 0
  exact ⟨h1, rfl, b2 (by decide), b3, b5 0 1 0 rfl, ⟨s', hs', b6 plainHooks 1 0 s' hs'⟩,
    d1, d2, d3⟩

/-- Under the spec's `count`, which is zero for a key whose removal is staged,
the destructor leaves the slot of such a key in `inits`: a module destroyed
after its `callInit()` and before the flush at the end of `Simulator::init()`
counts in no map, while its `module_id` is an entry of `inits` until that
flush. -/
theorem destroyModule_keeps_staged_slot :
    ((Module.callInit plainHooks 1 oneModuleCore.simulator 0).map
      (fun s => ((s.destroyModule 0).inits, (s.destroyModule 0).inits.count 0,
        (s.destroyModule 0).inits.erase.keys, (s.destroyModule 0).modules.keys)))
      = some (⟨[0], [0], false⟩, 0, [], []) := by
  decide!

end Ascent
